import Mathlib

/-!
# Export pipeline of `core/restapi/result.go`

A shallow embedding of the export handler `ExportResult` and of its helpers
`buildResult`, `buildSQLItem`, `buildCSVItem`, `buildJSONItem` and
`groupByTaskId`.

* Go strings are Lean `String`s; string comparison (`sort.Strings`) is the
  lexicographic order of the character lists, which for UTF-8 text is the
  bytewise order Go uses.
* A Go `error` is the `String` of its message.
* Calls that leave the file (the JSON decoder, the case mapping of `strings`,
  the services, the file system, the archiver) are the fields of `Env`.
* The `for` loop of `ExportResult` takes a number of iterations it may still
  run; `none` means that number was used up.
-/

set_option linter.dupNamespace false

namespace Restapi

/-! ## Strings -/

/-- The single quote character. -/
def quoteChar : Char := Char.ofNat 39

/-- The backslash character. -/
def backslashChar : Char := Char.ofNat 92

/-- Worker of `ReplaceAll` on character lists: `skip` counts the characters
of a match that are still to be dropped. -/
def replaceAllChars (old new : List Char) : Nat → List Char → List Char
  | _, [] => if old = [] then new else []
  | skip + 1, _ :: s => replaceAllChars old new skip s
  | 0, c :: s =>
    if old = [] then new ++ c :: replaceAllChars old new 0 s
    else if old.isPrefixOf (c :: s) then new ++ replaceAllChars old new (old.length - 1) s
    else c :: replaceAllChars old new 0 s

/-- Go `strings.ReplaceAll(s, old, new)`: every non-overlapping occurrence of
`old`, found left to right, is replaced by `new`. -/
def ReplaceAll (s old new : String) : String :=
  ⟨replaceAllChars old.data new.data 0 s.data⟩

/-- Go `sort.Strings`: ascending order of the strings. -/
def sortStrings (fs : List String) : List String :=
  List.insertionSort (fun a b : String => a.data ≤ b.data) fs

instance : IsTotal String (fun a b : String => a.data ≤ b.data) :=
  ⟨fun a b => le_total a.data b.data⟩

instance : IsTrans String (fun a b : String => a.data ≤ b.data) :=
  ⟨fun _ _ _ h1 h2 => le_trans h1 h2⟩

/-- Go `filepath.Base` with `/` as the separator. -/
def Base (path : String) : String :=
  if path = "" then "."
  else
    let stripped := (path.data.reverse.dropWhile fun c => c = Char.ofNat 47)
    let last := (stripped.takeWhile fun c => c ≠ Char.ofNat 47).reverse
    if last = [] then "/" else ⟨last⟩

/-- A Go `int` after an addition: the sum wrapped to 64 bits, signed. -/
def wrapInt64 (x : Int) : Int := (x + 2 ^ 63) % 2 ^ 64 - 2 ^ 63

/-- The UTF-8 byte-order mark `EF BB BF`, the encoding of U+FEFF. -/
def BOM : String := ⟨[Char.ofNat 0xFEFF]⟩

/-! ## Data model -/

/-- The type `models.Result`: a stored record, `Result` is its payload text. -/
structure Result where
  Id : Int
  Result : String
deriving DecidableEq, Repr

/-- The type `models.Project`, the fields the export reads. -/
structure Project where
  Id : Int
  Name : String
deriving DecidableEq, Repr

/-- The type `models.Task`, the fields the export reads. -/
structure Task where
  Id : Int
  ProjectId : Int
deriving DecidableEq, Repr

/-- A Go `map[string]string`: one entry per key; the order of `entries` is
the order in which one `range` over the map enumerates it. -/
structure StrMap where
  entries : List (String × String)
  nodupKeys : (entries.map Prod.fst).Nodup

/-- The keys of the map, in enumeration order (`for k := range m`). -/
def StrMap.keys (m : StrMap) : List String := m.entries.map Prod.fst

/-- The Go expression `m[k]`: the value stored under `k`, the empty string
when there is none. -/
def StrMap.get (m : StrMap) (k : String) : String := (m.entries.lookup k).getD ""

/-- The type `models.ResultQueryVO` as `ExportResult` fills it. -/
structure ResultQueryVO where
  Page : Int
  PageSize : Int
  TaskId : Int
  LastResultId : Int
deriving DecidableEq, Repr

/-- What `ExportResult` calls outside this file. -/
structure Env where
  /-- Go `unicode.ToLower`, which `strings.ToLower` applies to every character. -/
  toLowerRune : Char → Char
  /-- The call `jsoniter.UnmarshalFromString(text, &m)` with `m` a fresh `map[string]string`. -/
  Unmarshal : String → Except String StrMap
  /-- The call `service.TaskService().SelectTask`. -/
  SelectTask : Int → Except String (Option Task)
  /-- The call `service.ProjectService().SelectProjectById`. -/
  SelectProjectById : Int → Except String (Option Project)
  /-- The call `project.GetIntSetting(common.SETTINGS_EXPORT_PAGE_SIZE, dflt)`. -/
  GetIntSetting : Project → Int → Int
  /-- The call `service.ResultService().ExportResults`. -/
  ExportResults : ResultQueryVO → Except String (List Result)
  /-- The call `os.TempDir()`. -/
  TempDir : String
  /-- The call `gox.GetTimestamp(time.Now())`. -/
  Timestamp : Int
  /-- The error, if any, of `file.CreateFile(path)`. -/
  CreateFile : String → Option String
  /-- The error, if any, of `resultFile.WriteString(data)` when the page
  numbered `page` is flushed. -/
  WriteString : Int → String → Option String
  /-- The error, if any, of `csvWriter.Write(row)` after the rows `written`. -/
  CsvWrite : List (List String) → List String → Option String
  /-- The text a `csv.Writer` emits for one row. -/
  CsvEncode : List String → String
  /-- The error, if any, of `archiver.Archive([]string{src}, dst)`. -/
  Archive : String → String → Option String
  /-- The size `os.Stat(path)` reports, `none` when it fails. -/
  Stat : String → Option Int

/-- Go `strings.ToLower`. -/
def ToLower (env : Env) (s : String) : String := ⟨s.data.map env.toLowerRune⟩

/-! ## Record encoders -/

/-- First `for i, v := range fs` of `buildSQLItem`, from index `i` on: each
name, then a comma unless `i` is the last index. -/
def writeNames (fLen : Nat) : Nat → List String → String → String
  | _, [], buff => buff
  | i, v :: rest, buff =>
    let buff := buff ++ v
    let buff := if (i : Int) ≠ (fLen : Int) - 1 then buff ++ "," else buff
    writeNames fLen (i + 1) rest buff

/-- Second `for i, v := range fs` of `buildSQLItem`, from index `i` on: each
value `m[v]` between single quotes, quotes then backslashes doubled, then a
comma unless `i` is the last index. -/
def writeValues (m : StrMap) (fLen : Nat) : Nat → List String → String → String
  | _, [], buff => buff
  | i, v :: rest, buff =>
    let buff := buff ++ "'"
    let buff := buff ++ ReplaceAll (ReplaceAll (m.get v) "'" "''") "\\" "\\\\"
    let buff := buff ++ "'"
    let buff := if (i : Int) ≠ (fLen : Int) - 1 then buff ++ "," else buff
    writeValues m fLen (i + 1) rest buff

/-- The function `buildSQLItem`: the buffer after the call, or the error. -/
def buildSQLItem (env : Env) (buff : String) (project : Project) (r : Result) :
    Except String String :=
  match env.Unmarshal r.Result with
  | .error err => .error err
  | .ok m =>
    let fs := sortStrings m.keys
    let fLen := fs.length
    if fLen = 0 then .ok buff
    else
      let buff := buff ++ "insert into t_"
      let buff := buff ++ ToLower env project.Name
      let buff := buff ++ "("
      let buff := writeNames fLen 0 fs buff
      let buff := buff ++ ") values ("
      let buff := writeValues m fLen 0 fs buff
      let buff := buff ++ ");\n"
      .ok buff


/-- The call `csvWriter.Write(row)`: the rows the writer holds afterwards, or
the error. -/
def csvWrite (env : Env) (csvWriter : List (List String)) (row : List String) :
    Except String (List (List String)) :=
  match env.CsvWrite csvWriter row with
  | some err => .error err
  | none => .ok (csvWriter ++ [row])

/-- The function `buildCSVItem`: the rows of the writer after the call, or the
error. -/
def buildCSVItem (env : Env) (csvWriter : List (List String)) (writeCol : Bool) (r : Result) :
    Except String (List (List String)) :=
  match env.Unmarshal r.Result with
  | .error err => .error err
  | .ok m =>
    let fs := sortStrings m.keys
    let fLen := fs.length
    if fLen = 0 then .ok csvWriter
    else
      match (if writeCol then csvWrite env csvWriter fs else .ok csvWriter) with
      | .error err => .error err
      | .ok csvWriter =>
        let record := fs.map fun v => m.get v
        csvWrite env csvWriter record

/-- The function `buildJSONItem`: the buffer after the call. -/
def buildJSONItem (buff : String) (_project : Project) (r : Result) : Except String String :=
  let buff := buff ++ r.Result
  let buff := buff ++ "\n"
  .ok buff

/-- The function `buildResult`: the buffer and the rows of the CSV writer
after the call, or the error. -/
def buildResult (env : Env) (format : String) (buff : String) (csvWriter : List (List String))
    (writeCol : Bool) (project : Project) (r : Result) :
    Except String (String × List (List String)) :=
  if format = "sql" then
    (buildSQLItem env buff project r).map fun b => (b, csvWriter)
  else if format = "json" then
    (buildJSONItem buff project r).map fun b => (b, csvWriter)
  else if format = "csv" then
    (buildCSVItem env csvWriter writeCol r).map fun w => (buff, w)
  else .ok (buff, csvWriter)

/-! ## The export loop -/

/-- The variables of `ExportResult` that its loop changes, the text written
to `resultFile` by `WriteString`, and two records of what the loop did. -/
structure ExportState where
  page : Int
  writeCol : Bool
  buf : String
  csvWriter : List (List String)
  lastResultId : Int
  /-- What `resultFile.WriteString` has written so far. -/
  file : String
  /-- Bookkeeping: the queries passed to `ExportResults`, oldest first. -/
  queries : List ResultQueryVO
  /-- Bookkeeping: the records passed to `buildResult`, oldest first. -/
  handed : List Result
deriving DecidableEq, Repr

/-- How the loop of `ExportResult` is left. -/
inductive Exit where
  /-- By `break`: the page was shorter than the page size. -/
  | done
  /-- By `c.JSON(http.StatusOK, ErrorMsg(msg))` and `return`. -/
  | failed (msg : String)
  /-- By a run-time panic, index out of range. -/
  | panicked
deriving DecidableEq, Repr

/-- The exit of the loop and the state it is left in. -/
structure LoopEnd where
  exit : Exit
  st : ExportState
deriving DecidableEq, Repr

/-- The statement `for _, r := range trs` of `ExportResult`: the error that
ended it, if one did, and the state it is left in. -/
def encodeRecords (env : Env) (format : String) (project : Project) :
    List Result → ExportState → Option String × ExportState
  | [], st => (none, st)
  | r :: rs, st =>
    let st := { st with handed := st.handed ++ [r] }
    match buildResult env format st.buf st.csvWriter st.writeCol project r with
    | .error err => (some err, st)
    | .ok (buf, csvWriter) =>
      encodeRecords env format project rs
        { st with buf := buf, csvWriter := csvWriter, writeCol := false }

/-- One iteration of the statement `for` of `ExportResult`: `.error` when
the iteration leaves the loop, `.ok` with the state of the next iteration
otherwise. -/
def loopBody (env : Env) (format : String) (project : Project) (taskId exportPageSize : Int)
    (st : ExportState) : Except LoopEnd ExportState :=
  let page := wrapInt64 (st.page + 1)
  let st := { st with page := page, buf := "" }
  let query : ResultQueryVO :=
    { Page := page, PageSize := exportPageSize, TaskId := taskId,
      LastResultId := st.lastResultId }
  let st := { st with queries := st.queries ++ [query] }
  match env.ExportResults query with
  | .error err => .error ⟨.failed err, st⟩
  | .ok trs =>
    match encodeRecords env format project trs st with
    | (some err, st) => .error ⟨.failed err, st⟩
    | (none, st) =>
      match trs.getLast? with
      | none => .error ⟨.panicked, st⟩
      | some last =>
        let st := { st with lastResultId := last.Id }
        match env.WriteString page st.buf with
        | some err => .error ⟨.failed err, st⟩
        | none =>
          let st := { st with file := st.file ++ st.buf }
          if (trs.length : Int) < exportPageSize then .error ⟨.done, st⟩
          else .ok st

/-- The statement `for` of `ExportResult`, run for at most `fuel`
iterations; `none` when it has not been left by then. -/
def exportLoop (env : Env) (format : String) (project : Project) (taskId exportPageSize : Int) :
    Nat → ExportState → Option LoopEnd
  | 0, _ => none
  | fuel + 1, st =>
    match loopBody env format project taskId exportPageSize st with
    | .error e => some e
    | .ok st => exportLoop env format project taskId exportPageSize fuel st

/-! ## The handler -/

/-- What the handler does to the file system, in the order it does it. -/
inductive FileOp where
  /-- The call `file.CreateFile(path)` returned a file. -/
  | create (path : String)
  /-- The call `archiver.Archive([]string{src}, dst)` was made; `ok` tells
  whether it returned no error. -/
  | archive (src dst : String) (ok : Bool)
  /-- The call `os.Remove(path)` was made. -/
  | remove (path : String)
deriving DecidableEq, Repr

/-- What the caller of `ExportResult` gets. -/
inductive Response where
  /-- The JSON envelope of `c.JSON(http.StatusOK, ErrorMsg(msg))`. -/
  | errorMsg (msg : String)
  /-- The archive served by `httpx.ServeContent` under the header
  `Content-Disposition: contentDisposition`; `content` is the text of the
  file that was archived. -/
  | attachment (contentDisposition : String) (content : String) (size : Int)
  /-- The handler panicked. -/
  | panicked
deriving DecidableEq, Repr

/-- One run of the handler. -/
structure Run where
  response : Response
  ops : List FileOp
deriving DecidableEq, Repr

/-- The name `tempFileName` of `ExportResult`, the call
`fmt.Sprintf("%s%s-%d-%d.%s", ...)`. -/
def tempFileName (env : Env) (format : String) (project : Project) (taskId : Int) : String :=
  (if format = "sql" then "t_" else "") ++ ToLower env project.Name ++ "-" ++ toString taskId
    ++ "-" ++ toString env.Timestamp ++ "." ++ format

/-- The state in which `ExportResult` enters its loop. -/
def initialState (format : String) : ExportState :=
  { page := 0, writeCol := true, buf := "", csvWriter := [], lastResultId := 0,
    file := if format = "csv" then BOM else "", queries := [], handed := [] }

/-- The text of `resultFile` when it is closed: what `WriteString` wrote and
then, after `csvWriter.Flush()`, the rows of the CSV writer. In a CSV export
every `WriteString` of the loop writes the empty buffer, so the rows follow
the byte-order mark whenever the writer passes them on. -/
def fileContent (env : Env) (st : ExportState) : String :=
  st.file ++ String.join (st.csvWriter.map env.CsvEncode)

/-- The function `ExportResult`; `formatParam` and `taskId` are what
`GetStrParameter(c, "format", "sql")` and `GetIntParameter(c, "taskId", 0)`
return, `fuel` bounds the iterations of the loop. The two deferred functions
run on every return and on a panic, the later one first. -/
def ExportResult (env : Env) (formatParam : String) (taskId : Int) (fuel : Nat) : Option Run :=
  let format := ToLower env formatParam
  match env.SelectTask taskId with
  | .error err => some ⟨.errorMsg err, []⟩
  | .ok none => some ⟨.errorMsg "task not exists", []⟩
  | .ok (some task) =>
    match env.SelectProjectById task.ProjectId with
    | .error err => some ⟨.errorMsg err, []⟩
    | .ok none => some ⟨.errorMsg "project not exists", []⟩
    | .ok (some project) =>
      if format ≠ "sql" ∧ format ≠ "json" ∧ format ≠ "csv" then
        some ⟨.errorMsg "not supported format", []⟩
      else
        let exportPageSize := env.GetIntSetting project 1000
        let tempFileName := tempFileName env format project taskId
        let path := env.TempDir ++ "/" ++ tempFileName
        match env.CreateFile path with
        | some err => some ⟨.errorMsg err, []⟩
        | none =>
          match exportLoop env format project taskId exportPageSize fuel (initialState format) with
          | none => none
          | some ⟨.failed err, _⟩ => some ⟨.errorMsg err, [.create path, .remove path]⟩
          | some ⟨.panicked, _⟩ => some ⟨.panicked, [.create path, .remove path]⟩
          | some ⟨.done, st⟩ =>
            let compressFile := tempFileName ++ ".tar.gz"
            match env.Archive path compressFile with
            | some err =>
              some ⟨.errorMsg err, [.create path, .archive path compressFile false, .remove path]⟩
            | none =>
              let downloadName := "attachment;filename=\"" ++ Base compressFile ++ "\""
              let ops := [.create path, .archive path compressFile true, .remove compressFile,
                .remove path]
              match env.Stat compressFile with
              | none => some ⟨.panicked, ops⟩
              | some size => some ⟨.attachment downloadName (fileContent env st) size, ops⟩

/-! ## The export query, as the specification describes it -/

instance : IsTotal Result (fun a b : Result => a.Id ≤ b.Id) :=
  ⟨fun a b => le_total a.Id b.Id⟩

instance : IsTrans Result (fun a b : Result => a.Id ≤ b.Id) :=
  ⟨fun _ _ _ h1 h2 => le_trans h1 h2⟩

/-- The records of a task in ascending order of `Id`. -/
def sortById (recs : List Result) : List Result :=
  List.insertionSort (fun a b : Result => a.Id ≤ b.Id) recs

/-- Modelled from the spec: the page `ResultExportQuery(taskId, afterId,
pageSize)` returns over the records `recs` of the task, the code of
`service.ResultService().ExportResults` being outside this file: the first
`pageSize` records whose `Id` is above `afterId`, in ascending order of `Id`. -/
def firstAbove (recs : List Result) (afterId pageSize : Int) : List Result :=
  ((sortById recs).filter fun r => afterId < r.Id).take pageSize.toNat

/-! ## A concrete store, for evaluating the definitions -/

/-- The record of the specification: field `a` is `O'Brien`, field `b` is
`x`, two backslashes, `y`; enumerated with `b` first. -/
def sampleFields : StrMap := ⟨[("b", "x\\\\y"), ("a", "O'Brien")], by decide⟩

/-- Three records of one task, stored out of order; the payload of the record
9 has two fields, that of the record 2 has none. -/
def sampleStore : List Result :=
  [⟨5, "\x7b\"n\":\"1\"\x7d"⟩, ⟨2, "\x7b\x7d"⟩, ⟨9, "\x7b\"n\":\"2\",\"k\":\"v\"\x7d"⟩]

/-- Three records of one task, each with a field. -/
def sampleRows : List Result :=
  [⟨1, "\x7b\"n\":\"1\"\x7d"⟩, ⟨2, "\x7b\"n\":\"2\",\"k\":\"v\"\x7d"⟩,
   ⟨3, "\x7b\"n\":\"1\"\x7d"⟩]

/-- A decoder that knows five payloads and rejects every other text. -/
def sampleUnmarshal (text : String) : Except String StrMap :=
  if text = "\x7b\"a\":\"O'Brien\",\"b\":\"x\\\\\\\\y\"\x7d" then .ok sampleFields
  else if text = "\x7b\x7d" then .ok ⟨[], by decide⟩
  else if text = "\x7b\n\x7d" then .ok ⟨[], by decide⟩
  else if text = "\x7b\"n\":\"1\"\x7d" then .ok ⟨[("n", "1")], by decide⟩
  else if text = "\x7b\"n\":\"2\",\"k\":\"v\"\x7d" then .ok ⟨[("n", "2"), ("k", "v")], by decide⟩
  else .error "invalid payload"

/-- An environment over the records `store` of task 1 of project 1, named
`Proj`, with page size `pageSize`: the export query answers as
`firstAbove store`, and no call fails. -/
def sampleEnv (store : List Result) (pageSize : Int) : Env :=
  { toLowerRune := Char.toLower
    Unmarshal := sampleUnmarshal
    SelectTask := fun id => .ok (if id = 1 then some ⟨1, 1⟩ else none)
    SelectProjectById := fun id => .ok (if id = 1 then some ⟨1, "Proj"⟩ else none)
    GetIntSetting := fun _ _ => pageSize
    ExportResults := fun q => .ok (firstAbove store q.LastResultId q.PageSize)
    TempDir := "/tmp"
    Timestamp := 1600000000
    CreateFile := fun _ => none
    WriteString := fun _ _ => none
    CsvWrite := fun _ _ => none
    CsvEncode := fun row => ",".intercalate row ++ "\n"
    Archive := fun _ _ => none
    Stat := fun _ => some 0 }

/-- The record of the specification enumerated with `a` first. -/
def sampleFieldsSorted : StrMap := ⟨[("a", "O'Brien"), ("b", "x\\\\y")], by decide⟩

/-- The sample environment with a decoder that returns `m` for every text. -/
def sampleEnvDecoding (m : StrMap) : Env :=
  { sampleEnv [] 1 with Unmarshal := fun _ => .ok m }

/-! ## What the specification says of an SQL line -/

/-- A value with every single quote doubled and every backslash doubled. -/
def doubleQuotesAndBackslashes (v : String) : String :=
  ⟨v.data.flatMap fun c => if c = quoteChar ∨ c = backslashChar then [c, c] else [c]⟩

/-- A value as an SQL literal: escaped, between single quotes. -/
def sqlLiteral (v : String) : String := "'" ++ doubleQuotesAndBackslashes v ++ "'"

/-- The insert statement for table `t_<name>` with the given columns and
values, ended by a newline. -/
def sqlLine (name : String) (cols vals : List String) : String :=
  "insert into t_" ++ name ++ "(" ++ ",".intercalate cols ++ ") values ("
    ++ ",".intercalate vals ++ ");\n"

/-! ## What the specification says of CSV rows and of JSON lines -/

/-- The mapping the payload of a record decodes to; the empty mapping when
it does not decode. -/
def fieldsOf (env : Env) (r : Result) : StrMap :=
  match env.Unmarshal r.Result with
  | .ok m => m
  | .error _ => ⟨[], List.nodup_nil⟩

/-- Whether the record has at least one field. -/
def hasField (env : Env) (r : Result) : Bool := !(fieldsOf env r).entries.isEmpty

/-- The sorted field names of a record. -/
def headerRow (env : Env) (r : Result) : List String := sortStrings (fieldsOf env r).keys

/-- The values of a record in the order of its sorted field names. -/
def dataRow (env : Env) (r : Result) : List String :=
  (headerRow env r).map fun k => (fieldsOf env r).get k

/-- One data row for each record that has a field, in record order. -/
def dataRows (env : Env) (records : List Result) : List (List String) :=
  (records.filter (hasField env)).map (dataRow env)

/-- The header of the first record of all, when that record has a field. -/
def headerRows (env : Env) : List Result → List (List String)
  | [] => []
  | r :: _ => if hasField env r then [headerRow env r] else []

/-- The rows the specification asks of a CSV export: the header of the first
record that has a field, right before the data row of that record, and then
one data row for each later record that has a field. -/
def specCsvRows (env : Env) (records : List Result) : List (List String) :=
  match records.filter (hasField env) with
  | [] => []
  | r :: rest => headerRow env r :: dataRow env r :: rest.map (dataRow env)

/-- What holds of a CSV export each time the loop starts an iteration: the
rows written are those of the records handed over so far, the header is still
to be written exactly when no record has been handed over, and every record
handed over decoded. -/
def csvInvariant (env : Env) (st : ExportState) : Prop :=
  st.csvWriter = headerRows env st.handed ++ dataRows env st.handed
  ∧ (st.writeCol = true ↔ st.handed = [])
  ∧ ∀ r ∈ st.handed, ∃ m, env.Unmarshal r.Result = .ok m

/-- The text the specification asks of a JSON export: the payload of each
record followed by a newline, in record order. -/
def jsonText (records : List Result) : String :=
  String.join (records.map fun r => r.Result ++ "\n")

/-- What holds of a JSON export each time the loop starts an iteration: the
file holds the lines of the records handed over so far and the CSV writer
holds nothing. -/
def jsonInvariant (st : ExportState) : Prop :=
  st.file = jsonText st.handed ∧ st.csvWriter = []

/-- Worker of `linesOf`: `cur` holds the characters of the line being read,
last first. -/
def linesOfChars : List Char → List Char → List String
  | [], cur => if cur = [] then [] else [⟨cur.reverse⟩]
  | c :: cs, cur =>
    if c = Char.ofNat 10 then ⟨cur.reverse⟩ :: linesOfChars cs []
    else linesOfChars cs (c :: cur)

/-- The lines of a text: the pieces ended by a newline, and the piece after
the last newline when it is not empty. -/
def linesOf (text : String) : List String := linesOfChars text.data []

/-! ## What the escaping of SQL values must not lose -/

/-- Worker of `quoteRuns`: `cur` is the length of the run of single quotes
being read. -/
def quoteRunsChars : List Char → Nat → List Nat
  | [], cur => if cur = 0 then [] else [cur]
  | c :: cs, cur =>
    if c = quoteChar then quoteRunsChars cs (cur + 1)
    else if cur = 0 then quoteRunsChars cs 0
    else cur :: quoteRunsChars cs 0

/-- The lengths of the maximal runs of single quotes of a text, in order. -/
def quoteRuns (text : String) : List Nat := quoteRunsChars text.data 0

instance : IsAntisymm String (fun a b : String => a.data ≤ b.data) :=
  ⟨fun _ _ h1 h2 => String.ext (le_antisymm h1 h2)⟩


/-! ## Grouping of queue ids -/

/-- The type `models.QueueCallbackRequestVO`, the two fields `groupByTaskId`
reads; `α` is the type of a queue id. -/
structure QueueCallbackRequestVO (α : Type) where
  SuccessQueueIds : List α
  SuccessQueueTaskIds : List Int

/-- The Go expression `ret[k]` on a `map[int][]α` kept as a list of entries,
one for each key: the slice stored under `k`, nil when there is none. -/
def groupsGet {α : Type} (ret : List (Int × List α)) (k : Int) : List α :=
  (ret.lookup k).getD []

/-- The Go statement `ret[k] = t`: the entry of `k` is replaced, or added
when there is none. -/
def groupsSet {α : Type} : List (Int × List α) → Int → List α → List (Int × List α)
  | [], k, t => [(k, t)]
  | (k2, t2) :: rest, k, t =>
    if k2 = k then (k, t) :: rest else (k2, t2) :: groupsSet rest k t

/-- The statement `for i, v := range reqBody.SuccessQueueIds` of
`groupByTaskId`, from index `i` on; `none` when `SuccessQueueTaskIds[i]` is
out of range, where the Go code panics. -/
def groupLoop {α : Type} (taskIds : List Int) :
    Nat → List α → List (Int × List α) → Option (List (Int × List α))
  | _, [], ret => some ret
  | i, v :: vs, ret =>
    match taskIds[i]? with
    | none => none
    | some k =>
      let t := groupsGet ret k
      let t := t ++ [v]
      groupLoop taskIds (i + 1) vs (groupsSet ret k t)

/-- The function `groupByTaskId`; `none` when it panics. -/
def groupByTaskId {α : Type} (reqBody : QueueCallbackRequestVO α) :
    Option (List (Int × List α)) :=
  groupLoop reqBody.SuccessQueueTaskIds 0 reqBody.SuccessQueueIds []

/-! ## The cursor of the export loop -/

/-- The page a query has returned, no record when the query failed. -/
def pageOf (env : Env) (q : ResultQueryVO) : List Result :=
  match env.ExportResults q with
  | .ok trs => trs
  | .error _ => []

/-- The records of the pages the queries have returned, in the order in
which they were fetched. -/
def fetchedRecords (env : Env) (queries : List ResultQueryVO) : List Result :=
  queries.flatMap (pageOf env)

/-- The states in which the loop of `ExportResult` starts an iteration: the
state in which the loop is entered, and the state an iteration that does not
leave the loop hands to the next one. -/
inductive Reached (env : Env) (format : String) (project : Project)
    (taskId pageSize : Int) : ExportState → Prop where
  | start : Reached env format project taskId pageSize (initialState format)
  | next (st st2 : ExportState) :
      Reached env format project taskId pageSize st →
      loopBody env format project taskId pageSize st = .ok st2 →
      Reached env format project taskId pageSize st2

/-- What holds of the queries issued so far, at any point of a run: their
cursors are strictly increasing, the first cursor is 0, the records fetched
have strictly increasing Ids, and the records handed to the encoder are the
first of the records fetched. -/
def cursorTrace (env : Env) (st : ExportState) : Prop :=
  (st.queries.map fun q => q.LastResultId).Pairwise (fun a b => a < b)
  ∧ (∀ q, st.queries.head? = some q → q.LastResultId = 0)
  ∧ (fetchedRecords env st.queries).Pairwise (fun a b => a.Id < b.Id)
  ∧ st.handed <+: fetchedRecords env st.queries

/-- What holds each time the loop starts an iteration: `cursorTrace`, the
cursor is 0 before the first query and above the cursor of every query
issued, no record fetched has an Id above the cursor, and every record
fetched has been handed to the encoder. -/
def cursorInvariant (env : Env) (st : ExportState) : Prop :=
  cursorTrace env st
  ∧ (st.queries = [] → st.lastResultId = 0)
  ∧ (∀ q ∈ st.queries, q.LastResultId < st.lastResultId)
  ∧ (∀ r ∈ fetchedRecords env st.queries, r.Id ≤ st.lastResultId)
  ∧ st.handed = fetchedRecords env st.queries

/-- What holds of an export in a format other than `csv` each time the loop
starts an iteration: the file holds what the encoder writes, into an empty
buffer, for the records handed over so far, the encoder wrote them without
error, and the CSV writer holds nothing. -/
def textInvariant (env : Env) (format : String) (project : Project) (st : ExportState) :
    Prop :=
  st.file = (encodeRecords env format project st.handed (initialState format)).2.buf
  ∧ (encodeRecords env format project st.handed (initialState format)).1 = none
  ∧ st.csvWriter = []

/-! ## What the specification says of the download name -/

/-- The header the specification gives for a served export:
`attachment; filename="<project>-<taskId>-<timestamp>.<format>.tar.gz"`,
`project` being the name of the project, the two numbers in decimal and
`format` the requested format. -/
def specDisposition (project : String) (taskId timestamp : Int) (format : String) : String :=
  "attachment; filename=\"" ++ project ++ "-" ++ toString taskId ++ "-" ++ toString timestamp
    ++ "." ++ format ++ ".tar.gz\""

/-- The text holds no slash. -/
def noSlash (s : String) : Prop := ∀ c ∈ s.data, c ≠ Char.ofNat 47

/-! ## The files left behind -/

/-- The sample environment in which `archiver.Archive` returns an error. -/
def sampleEnvArchiveFails : Env :=
  { sampleEnv sampleStore 1000 with Archive := fun _ _ => some "disk full" }

/-- The files present after one operation of the handler, from the files
present before it. A successful `archiver.Archive` leaves its destination;
a failed one leaves it when `partialArchive` holds (the archiver creates
the destination before it writes the entries) and nothing otherwise. -/
def applyOp (partialArchive : Bool) (files : List String) : FileOp → List String
  | .create path => files.insert path
  | .archive _ dst ok => if ok || partialArchive then files.insert dst else files
  | .remove path => files.erase path

/-- The files present after the operations of a run. -/
def filesAfter (partialArchive : Bool) (files : List String) (ops : List FileOp) :
    List String :=
  ops.foldl (applyOp partialArchive) files

/-! ## Lemmas on strings -/

theorem replaceAllChars_single (a : Char) (new s : List Char) :
    replaceAllChars [a] new 0 s = s.flatMap fun c => if c = a then new else [c] := by
  induction s with
  | nil => simp [replaceAllChars]
  | cons c s ih =>
    by_cases h : c = a
    · subst h
      simp [replaceAllChars, List.isPrefixOf, ih]
    · have h2 : ¬ a = c := fun e => h e.symm
      simp [replaceAllChars, List.isPrefixOf, ih, h, h2]

theorem ReplaceAll_escape (v : String) :
    ReplaceAll (ReplaceAll v "'" "''") "\\" "\\\\" = doubleQuotesAndBackslashes v := by
  have hq : ("'" : String).data = [quoteChar] := by decide
  have hqq : ("''" : String).data = [quoteChar, quoteChar] := by decide
  have hb : ("\\" : String).data = [backslashChar] := by decide
  have hbb : ("\\\\" : String).data = [backslashChar, backslashChar] := by decide
  have hne : quoteChar ≠ backslashChar := by decide
  show String.mk (replaceAllChars ("\\" : String).data ("\\\\" : String).data 0
      (replaceAllChars ("'" : String).data ("''" : String).data 0 v.data)) = _
  rw [hq, hqq, hb, hbb, replaceAllChars_single, replaceAllChars_single]
  unfold doubleQuotesAndBackslashes
  congr 1
  induction v.data with
  | nil => rfl
  | cons c s ih =>
    rw [List.flatMap_cons, List.flatMap_append, ih, List.flatMap_cons]
    congr 1
    by_cases h1 : c = quoteChar
    · subst h1
      decide
    · by_cases h2 : c = backslashChar
      · subst h2
        decide
      · rw [if_neg h1, if_neg (not_or.mpr ⟨h1, h2⟩)]
        show (if c = backslashChar then _ else _) ++ [] = _
        rw [if_neg h2]
        rfl

theorem intercalate_go_append (x acc s : String) (l : List String) :
    String.intercalate.go (x ++ acc) s l = x ++ String.intercalate.go acc s l := by
  induction l generalizing acc with
  | nil => rfl
  | cons a l ih =>
    simp only [String.intercalate.go]
    rw [String.append_assoc x acc s, String.append_assoc x (acc ++ s) a, ih]

theorem intercalate_cons_cons (s a b : String) (l : List String) :
    s.intercalate (a :: b :: l) = a ++ s ++ s.intercalate (b :: l) := by
  show String.intercalate.go a s (b :: l) = a ++ s ++ String.intercalate.go b s l
  simp only [String.intercalate.go]
  rw [intercalate_go_append]

theorem writeNames_eq (l : List String) (i : Nat) (buff : String) :
    writeNames (i + l.length) i l buff = buff ++ ",".intercalate l := by
  induction l generalizing i buff with
  | nil => simp [writeNames, String.intercalate]
  | cons v rest ih =>
    cases rest with
    | nil =>
      simp [writeNames, String.intercalate, String.intercalate.go]
    | cons w rest =>
      have hne : ((i : Int) ≠ ((i + (v :: w :: rest).length : Nat) : Int) - 1) := by
        simp only [List.length_cons]
        push_cast
        omega
      have hlen : i + (v :: w :: rest).length = (i + 1) + (w :: rest).length := by
        simp only [List.length_cons]
        omega
      rw [writeNames]
      simp only [hne, if_true, ne_eq, not_false_eq_true]
      rw [hlen, ih, intercalate_cons_cons]
      simp only [String.append_assoc]

theorem writeValues_eq (m : StrMap) (l : List String) (i : Nat) (buff : String) :
    writeValues m (i + l.length) i l buff
      = buff ++ ",".intercalate (l.map fun v => sqlLiteral (m.get v)) := by
  induction l generalizing i buff with
  | nil => simp [writeValues, String.intercalate]
  | cons v rest ih =>
    cases rest with
    | nil =>
      simp [writeValues, String.intercalate, String.intercalate.go, sqlLiteral,
        ReplaceAll_escape, String.append_assoc]
    | cons w rest =>
      have hne : ((i : Int) ≠ ((i + (v :: w :: rest).length : Nat) : Int) - 1) := by
        simp only [List.length_cons]
        push_cast
        omega
      have hlen : i + (v :: w :: rest).length = (i + 1) + (w :: rest).length := by
        simp only [List.length_cons]
        omega
      rw [writeValues]
      simp only [hne, if_true, ne_eq, not_false_eq_true]
      rw [hlen, ih]
      simp only [List.map_cons]
      rw [intercalate_cons_cons, ReplaceAll_escape]
      simp only [String.append_assoc, sqlLiteral]

theorem sortStrings_perm (l : List String) : (sortStrings l).Perm l :=
  List.perm_insertionSort _ l

theorem sortStrings_mem (l : List String) (k : String) : k ∈ sortStrings l ↔ k ∈ l :=
  (sortStrings_perm l).mem_iff

theorem sortStrings_length (l : List String) : (sortStrings l).length = l.length :=
  (sortStrings_perm l).length_eq

theorem sortStrings_ascending (l : List String) (h : l.Nodup) :
    (sortStrings l).Pairwise fun a b => a.data < b.data := by
  have hs : (sortStrings l).Pairwise (fun a b : String => a.data ≤ b.data) :=
    List.sorted_insertionSort _ l
  have hn : (sortStrings l).Pairwise (fun a b : String => a ≠ b) :=
    (sortStrings_perm l).nodup_iff.mpr h
  refine (hs.and hn).imp ?_
  intro a b hab
  refine lt_of_le_of_ne hab.1 ?_
  intro e
  apply hab.2
  cases a
  cases b
  cases e
  rfl

theorem StrMap.get_mem (m : StrMap) (k : String) (h : k ∈ m.keys) :
    (k, m.get k) ∈ m.entries := by
  unfold StrMap.get
  unfold StrMap.keys at h
  generalize m.entries = l at h
  induction l with
  | nil => simp at h
  | cons p l ih =>
    obtain ⟨a, b⟩ := p
    by_cases hk : k = a
    · subst hk
      simp [List.lookup]
    · have hk2 : (k == a) = false := by simpa using hk
      simp only [List.map_cons, List.mem_cons, hk, false_or] at h
      simp only [List.lookup, hk2, List.mem_cons]
      exact Or.inr (ih h)

/-! ## Lemmas on the export loop -/

theorem sortById_perm (recs : List Result) : (sortById recs).Perm recs :=
  List.perm_insertionSort _ recs

theorem sortById_ascending (recs : List Result) (h : (recs.map fun r => r.Id).Nodup) :
    (sortById recs).Pairwise fun a b => a.Id < b.Id := by
  have hs : (sortById recs).Pairwise (fun a b : Result => a.Id ≤ b.Id) :=
    List.sorted_insertionSort _ recs
  have hn : ((sortById recs).map fun r => r.Id).Nodup :=
    ((sortById_perm recs).map _).nodup_iff.mpr h
  have hn2 : (sortById recs).Pairwise (fun a b : Result => a.Id ≠ b.Id) :=
    List.pairwise_map.mp hn
  exact (hs.and hn2).imp fun hab => lt_of_le_of_ne hab.1 hab.2

theorem encodeRecords_spec (env : Env) (format : String) (project : Project)
    (trs : List Result) (st : ExportState) :
    ∃ pre, pre <+: trs
      ∧ (encodeRecords env format project trs st).2.handed = st.handed ++ pre
      ∧ (encodeRecords env format project trs st).2.lastResultId = st.lastResultId
      ∧ (encodeRecords env format project trs st).2.queries = st.queries
      ∧ ((encodeRecords env format project trs st).1 = none → pre = trs)
      ∧ (∀ msg, (encodeRecords env format project trs st).1 = some msg →
          ∃ r ∈ trs, ∃ buf w wc, buildResult env format buf w wc project r = .error msg) := by
  induction trs generalizing st with
  | nil =>
    exact ⟨[], List.prefix_refl _, by simp [encodeRecords], rfl, rfl, fun _ => rfl,
      fun msg h => by simp [encodeRecords] at h⟩
  | cons r rs ih =>
    rw [encodeRecords]
    cases hb : buildResult env format st.buf st.csvWriter st.writeCol project r with
    | error err =>
      refine ⟨[r], ?_, rfl, rfl, rfl, ?_, ?_⟩
      · exact ⟨rs, rfl⟩
      · intro h
        simp at h
      · intro msg h
        simp only [Option.some.injEq] at h
        subst h
        exact ⟨r, List.mem_cons_self _ _, _, _, _, hb⟩
    | ok out =>
      obtain ⟨buf, w⟩ := out
      obtain ⟨pre, hpre, hh, hl, hq, hn, he⟩ := ih
        { st with handed := st.handed ++ [r], buf := buf, csvWriter := w, writeCol := false }
      refine ⟨r :: pre, ?_, ?_, hl, hq, ?_, ?_⟩
      · obtain ⟨t, ht⟩ := hpre
        exact ⟨t, by rw [← ht]; rfl⟩
      · rw [hh]
        simp
      · intro h
        rw [hn h]
      · intro msg h
        obtain ⟨r2, hr2, hx⟩ := he msg h
        exact ⟨r2, List.mem_cons_of_mem _ hr2, hx⟩

theorem filter_above_last (A B : List Result) (last : Result)
    (hS : (A ++ B).Pairwise fun a b => a.Id < b.Id) (hl : A.getLast? = some last) :
    ((A ++ B).filter fun r => last.Id < r.Id) = B := by
  obtain ⟨A1, rfl⟩ : ∃ A1, A = A1 ++ [last] := by
    rcases List.eq_nil_or_concat A with rfl | ⟨A1, x, rfl⟩
    · simp at hl
    · rw [List.concat_eq_append, List.getLast?_append] at hl
      simp at hl
      exact ⟨A1, by rw [hl, List.concat_eq_append]⟩
  rw [List.pairwise_append] at hS
  obtain ⟨hA, _, hAB⟩ := hS
  rw [List.pairwise_append] at hA
  obtain ⟨_, _, hA1⟩ := hA
  rw [List.filter_append]
  have h1 : ((A1 ++ [last]).filter fun r => last.Id < r.Id) = [] := by
    rw [List.filter_eq_nil_iff]
    intro a ha
    rw [List.mem_append, List.mem_singleton] at ha
    rcases ha with ha | rfl
    · have := hA1 a ha last (List.mem_singleton_self _)
      simp only [decide_eq_true_eq, not_lt]
      omega
    · simp
  have h2 : (B.filter fun r => last.Id < r.Id) = B := by
    rw [List.filter_eq_self]
    intro b hb
    have := hAB last (by simp) b hb
    simpa using this
  rw [h1, h2, List.nil_append]

theorem exportLoop_drains (env : Env) (format : String) (project : Project)
    (taskId pageSize : Int) (S : List Result) (hp : 1 ≤ pageSize)
    (hS : S.Pairwise fun a b => a.Id < b.Id)
    (hq : ∀ page last, env.ExportResults ⟨page, pageSize, taskId, last⟩
        = .ok ((S.filter fun r => last < r.Id).take pageSize.toNat)) :
    ∀ (n : Nat) (st : ExportState) (rest : List Result), rest.length ≤ n →
      S = st.handed ++ rest → (S.filter fun r => st.lastResultId < r.Id) = rest →
      ∃ fuel e, exportLoop env format project taskId pageSize fuel st = some e
        ∧ e.st.handed <+: S
        ∧ e.st.queries.length ≤ st.queries.length + rest.length / pageSize.toNat + 1
        ∧ (e.exit = .done → e.st.handed = S ∧ rest.length % pageSize.toNat ≠ 0
            ∧ e.st.queries.length = st.queries.length + rest.length / pageSize.toNat + 1)
        ∧ (e.exit = .panicked → e.st.handed = S ∧ rest.length % pageSize.toNat = 0
            ∧ e.st.queries.length = st.queries.length + rest.length / pageSize.toNat + 1)
        ∧ (∀ msg, e.exit = .failed msg →
            (∃ r ∈ S, ∃ buf w wc, buildResult env format buf w wc project r = .error msg)
            ∨ ∃ page data, env.WriteString page data = some msg) := by
  intro n
  induction n using Nat.strong_induction_on with
  | _ n ih =>
    intro st rest hlen hS2 hf
    have hpc : ((pageSize.toNat : Nat) : Int) = pageSize := Int.toNat_of_nonneg (by omega)
    generalize hpdef : pageSize.toNat = p at *
    have hp1 : 1 ≤ p := by omega
    have hsub : ∀ r ∈ rest.take p, r ∈ S := by
      intro r hr
      rw [hS2]
      exact List.mem_append_right _ (List.mem_of_mem_take hr)
    obtain ⟨pre, hpre, hh, hl, hqq, hn, he⟩ := encodeRecords_spec env format project
      (rest.take p)
      { st with page := wrapInt64 (st.page + 1), buf := "",
                queries := st.queries ++ [⟨wrapInt64 (st.page + 1), pageSize, taskId,
                  st.lastResultId⟩] }
    simp only at hh hl hqq
    rcases hE : encodeRecords env format project (rest.take p)
      { st with page := wrapInt64 (st.page + 1), buf := "",
                queries := st.queries ++ [⟨wrapInt64 (st.page + 1), pageSize, taskId,
                  st.lastResultId⟩] } with ⟨_ | err, st3⟩
    all_goals rw [hE] at hh hl hqq hn he
    all_goals simp only at hh hl hqq hn he
    · have hpre2 : pre = rest.take p := hn trivial
      subst hpre2
      cases hgl : (rest.take p).getLast? with
      | none =>
        have ht : rest.take p = [] := List.getLast?_eq_none_iff.mp hgl
        have hr : rest = [] := by
          rcases List.take_eq_nil_iff.mp ht with h0 | h0
          · omega
          · exact h0
        subst hr
        refine ⟨1, ⟨.panicked, st3⟩, ?_, ?_, ?_, ?_, ?_, ?_⟩
        · simp only [exportLoop, loopBody, hq, hf, hE, hgl, hpdef]
        · rw [hS2]
          simp [hh]
        · simp [hqq]
        · intro h
          cases h
        · intro _
          refine ⟨?_, ?_, ?_⟩
          · rw [hS2]
            simp [hh]
          · simp
          · simp [hqq]
        · intro msg h
          cases h
      | some last =>
        cases hW : env.WriteString (wrapInt64 (st.page + 1)) st3.buf with
        | some err =>
          refine ⟨1, ⟨.failed err, { st3 with lastResultId := last.Id }⟩, ?_, ?_, ?_, ?_, ?_, ?_⟩
          · simp only [exportLoop, loopBody, hq, hf, hE, hgl, hW, hpdef]
          · show st3.handed <+: S
            rw [hh, hS2]
            exact (List.prefix_append_right_inj _).mpr (List.take_prefix _ _)
          · show st3.queries.length ≤ _
            simp [hqq]
          · intro h
            cases h
          · intro h
            cases h
          · intro msg h
            cases h
            exact Or.inr ⟨_, _, hW⟩
        | none =>
          by_cases hshort : ((rest.take p).length : Int) < pageSize
          · have hlt : rest.length < p := by
              rw [List.length_take] at hshort
              omega
            have htake : rest.take p = rest := List.take_of_length_le (by omega)
            have hne : rest ≠ [] := by
              intro e
              rw [e] at hgl
              simp at hgl
            have hpos : 0 < rest.length := List.length_pos.mpr hne
            refine ⟨1, ⟨.done,
              ({ st3 with lastResultId := last.Id, file := st3.file ++ st3.buf } : ExportState)⟩,
              ?_, ?_, ?_, ?_, ?_, ?_⟩
            · simp only [exportLoop, loopBody, hq, hf, hE, hgl, hW, hpdef, hshort, if_true]
            · show st3.handed <+: S
              rw [hh, hS2, htake]
            · show st3.queries.length ≤ _
              simp [hqq]
            · intro _
              refine ⟨?_, ?_, ?_⟩
              · show st3.handed = S
                rw [hh, hS2, htake]
              · rw [Nat.mod_eq_of_lt hlt]
                omega
              · show st3.queries.length = _
                rw [Nat.div_eq_of_lt hlt]
                simp [hqq]
            · intro h
              cases h
            · intro msg h
              cases h
          · have hge : p ≤ rest.length := by
              rw [List.length_take] at hshort
              omega
            have hrl : rest.length = (rest.drop p).length + p := by
              rw [List.length_drop]
              omega
            have hdiv : rest.length / p = (rest.drop p).length / p + 1 := by
              rw [hrl, List.length_drop, Nat.add_div_right _ (by omega)]
            have hmod : rest.length % p = (rest.drop p).length % p := by
              rw [hrl, List.length_drop, Nat.add_mod_right]
            have hinv1 : S = (st.handed ++ rest.take p) ++ rest.drop p := by
              rw [List.append_assoc, List.take_append_drop]
              exact hS2
            have hinv2 : (S.filter fun r => last.Id < r.Id) = rest.drop p := by
              rw [hinv1]
              refine filter_above_last _ _ last ?_ ?_
              · rw [← hinv1]
                exact hS
              · rw [List.getLast?_append, hgl]
                rfl
            obtain ⟨fuel, e, hrun, h1, h2, h3, h4, h5⟩ :=
              ih (rest.drop p).length (by omega)
                ({ st3 with lastResultId := last.Id, file := st3.file ++ st3.buf } : ExportState)
                (rest.drop p) (le_refl _) (by rw [hinv1]; show _ = st3.handed ++ _; rw [hh])
                hinv2
            have hq3 : st3.queries.length = st.queries.length + 1 := by
              simp [hqq]
            refine ⟨fuel + 1, e, ?_, h1, ?_, ?_, ?_, h5⟩
            · simp only [exportLoop, loopBody, hq, hf, hE, hgl, hW, hpdef, hshort, if_false]
              exact hrun
            · have h2b : e.st.queries.length ≤ st3.queries.length + (rest.drop p).length / p + 1 := h2
              omega
            · intro hd
              obtain ⟨a, b, c⟩ := h3 hd
              have c2 : e.st.queries.length = st3.queries.length + (rest.drop p).length / p + 1 := c
              exact ⟨a, by omega, by omega⟩
            · intro hd
              obtain ⟨a, b, c⟩ := h4 hd
              have c2 : e.st.queries.length = st3.queries.length + (rest.drop p).length / p + 1 := c
              exact ⟨a, by omega, by omega⟩
    · refine ⟨1, ⟨.failed err, st3⟩, ?_, ?_, ?_, ?_, ?_, ?_⟩
      · simp only [exportLoop, loopBody, hq, hf, hE, hpdef]
      · rw [hh, hS2]
        exact (List.prefix_append_right_inj _).mpr (hpre.trans (List.take_prefix _ _))
      · simp [hqq]
      · intro h
        cases h
      · intro h
        cases h
      · intro msg h
        cases h
        obtain ⟨r, hr, hx⟩ := he err rfl
        exact Or.inl ⟨r, hsub r hr, hx⟩

theorem exportLoop_outcome (env : Env) (format : String) (project : Project)
    (taskId pageSize : Int) (recs : List Result) (hp : 1 ≤ pageSize)
    (hpos : ∀ r ∈ recs, 0 < r.Id) (hnd : (recs.map fun r => r.Id).Nodup)
    (hq : ∀ page last, env.ExportResults ⟨page, pageSize, taskId, last⟩
        = .ok (firstAbove recs last pageSize))
    (henc : ∀ r ∈ recs, ∀ buf w wc msg,
      buildResult env format buf w wc project r ≠ .error msg)
    (hw : ∀ page data, env.WriteString page data = none) :
    ∃ fuel e, exportLoop env format project taskId pageSize fuel (initialState format) = some e
      ∧ e.st.handed = sortById recs
      ∧ e.st.queries.length = recs.length / pageSize.toNat + 1
      ∧ e.exit = (if recs.length % pageSize.toNat = 0 then .panicked else .done) := by
  have hall : ((sortById recs).filter fun r => (initialState format).lastResultId < r.Id)
      = sortById recs := by
    rw [List.filter_eq_self]
    intro r hr
    have := hpos r ((sortById_perm recs).mem_iff.mp hr)
    simpa [initialState] using this
  obtain ⟨fuel, e, hrun, _, _, h3, h4, h5⟩ :=
    exportLoop_drains env format project taskId pageSize (sortById recs) hp
      (sortById_ascending recs hnd) hq (sortById recs).length (initialState format)
      (sortById recs) (le_refl _) rfl hall
  have hlen : (sortById recs).length = recs.length := (sortById_perm recs).length_eq
  rw [hlen] at h3 h4
  have hq0 : (initialState format).queries.length = 0 := rfl
  rw [hq0, Nat.zero_add] at h3 h4
  refine ⟨fuel, e, hrun, ?_⟩
  cases hx : e.exit with
  | done =>
    obtain ⟨a, b, c⟩ := h3 hx
    exact ⟨a, c, by rw [if_neg b]⟩
  | panicked =>
    obtain ⟨a, b, c⟩ := h4 hx
    exact ⟨a, c, by rw [if_pos b]⟩
  | failed msg =>
    exfalso
    rcases h5 msg hx with ⟨r, hr, buf, w, wc, hb⟩ | ⟨page, data, hwr⟩
    · exact henc r ((sortById_perm recs).mem_iff.mp hr) buf w wc msg hb
    · rw [hw] at hwr
      cases hwr

theorem loopBody_empty_page (env : Env) (format : String) (project : Project)
    (taskId pageSize : Int) (st : ExportState)
    (h : env.ExportResults ⟨wrapInt64 (st.page + 1), pageSize, taskId, st.lastResultId⟩
      = .ok []) :
    ∃ st2, loopBody env format project taskId pageSize st = .error ⟨.panicked, st2⟩ := by
  simp only [loopBody, h, encodeRecords, List.getLast?_nil]
  exact ⟨_, rfl⟩

theorem exportLoop_rule (env : Env) (format : String) (project : Project)
    (taskId pageSize : Int) (P : ExportState → Prop) (R : LoopEnd → Prop)
    (h : ∀ st, P st →
      match loopBody env format project taskId pageSize st with
      | .error e => R e
      | .ok st2 => P st2) :
    ∀ (fuel : Nat) (st : ExportState) (e : LoopEnd), P st →
      exportLoop env format project taskId pageSize fuel st = some e → R e := by
  intro fuel
  induction fuel with
  | zero =>
    intro st e _ hrun
    simp [exportLoop] at hrun
  | succ fuel ih =>
    intro st e hP hrun
    have hb := h st hP
    rw [exportLoop] at hrun
    cases hB : loopBody env format project taskId pageSize st with
    | error e2 =>
      rw [hB] at hb hrun
      simp only [Option.some.injEq] at hrun
      subst hrun
      exact hb
    | ok st2 =>
      rw [hB] at hb hrun
      exact ih st2 e hb hrun

/-! ## Lemmas on the CSV encoder -/

theorem fieldsOf_ok (env : Env) (r : Result) (m : StrMap) (h : env.Unmarshal r.Result = .ok m) :
    fieldsOf env r = m := by
  unfold fieldsOf
  rw [h]

theorem hasField_iff (env : Env) (r : Result) :
    hasField env r = true ↔ (headerRow env r).length ≠ 0 := by
  unfold hasField headerRow
  rw [sortStrings_length]
  unfold StrMap.keys
  rw [List.length_map]
  cases (fieldsOf env r).entries <;> simp

theorem buildCSVItem_rows (env : Env) (w : List (List String)) (wc : Bool) (r : Result)
    (m : StrMap) (hm : env.Unmarshal r.Result = .ok m)
    (hw : ∀ w row, env.CsvWrite w row = none) :
    buildCSVItem env w wc r
      = .ok (w ++ (if wc = true then headerRows env [r] else []) ++ dataRows env [r]) := by
  have hf := fieldsOf_ok env r m hm
  unfold buildCSVItem
  rw [hm]
  by_cases hlen : (sortStrings m.keys).length = 0
  · have hno : hasField env r = false := by
      cases hx : hasField env r with
      | false => rfl
      | true =>
        have := (hasField_iff env r).mp hx
        unfold headerRow at this
        rw [hf] at this
        exact absurd hlen this
    simp [hlen, headerRows, dataRows, hno]
  · have hyes : hasField env r = true := by
      rw [hasField_iff]
      unfold headerRow
      rw [hf]
      exact hlen
    cases wc <;>
      simp [hlen, headerRows, dataRows, hyes, csvWrite, hw, headerRow, dataRow, hf]

theorem encodeRecords_csv (env : Env) (project : Project)
    (hw : ∀ w row, env.CsvWrite w row = none) (trs : List Result)
    (hdec : ∀ r ∈ trs, ∃ m, env.Unmarshal r.Result = .ok m) (st : ExportState) :
    (encodeRecords env "csv" project trs st).1 = none
    ∧ (encodeRecords env "csv" project trs st).2.handed = st.handed ++ trs
    ∧ (encodeRecords env "csv" project trs st).2.csvWriter
        = st.csvWriter ++ (if st.writeCol = true then headerRows env trs else [])
            ++ dataRows env trs
    ∧ ((encodeRecords env "csv" project trs st).2.writeCol = true
        ↔ (st.writeCol = true ∧ trs = [])) := by
  induction trs generalizing st with
  | nil => simp [encodeRecords, headerRows, dataRows]
  | cons r rs ih =>
    obtain ⟨m, hm⟩ := hdec r (List.mem_cons_self _ _)
    have hb : buildResult env "csv" st.buf st.csvWriter st.writeCol project r
        = .ok (st.buf, st.csvWriter ++ (if st.writeCol = true then headerRows env [r] else [])
            ++ dataRows env [r]) := by
      have h1 : ¬ ("csv" : String) = "sql" := by decide
      have h2 : ¬ ("csv" : String) = "json" := by decide
      unfold buildResult
      rw [if_neg h1, if_neg h2, if_pos rfl, buildCSVItem_rows env _ _ r m hm hw]
      rfl
    rw [encodeRecords, hb]
    obtain ⟨i1, i2, i3, i4⟩ := ih (fun r2 hr2 => hdec r2 (List.mem_cons_of_mem _ hr2))
      { st with handed := st.handed ++ [r], buf := st.buf,
                csvWriter := st.csvWriter
                  ++ (if st.writeCol = true then headerRows env [r] else [])
                  ++ dataRows env [r],
                writeCol := false }
    refine ⟨i1, ?_, ?_, ?_⟩
    · rw [i2]
      simp
    · rw [i3]
      have hd : dataRows env (r :: rs) = dataRows env [r] ++ dataRows env rs := by
        unfold dataRows
        rw [← List.map_append, ← List.filter_append]
        rfl
      have hh : headerRows env (r :: rs) = headerRows env [r] := rfl
      rw [hd, hh]
      simp
    · rw [i4]
      simp

theorem dataRows_append (env : Env) (a b : List Result) :
    dataRows env (a ++ b) = dataRows env a ++ dataRows env b := by
  unfold dataRows
  rw [List.filter_append, List.map_append]

theorem headerRows_append (env : Env) (a b : List Result) (h : a ≠ []) :
    headerRows env (a ++ b) = headerRows env a := by
  cases a with
  | nil => exact absurd rfl h
  | cons r rs => rfl

theorem csvInvariant_step (env : Env) (project : Project) (taskId pageSize : Int)
    (hdec : ∀ q trs, env.ExportResults q = .ok trs →
      ∀ r ∈ trs, ∃ m, env.Unmarshal r.Result = .ok m)
    (hw : ∀ w row, env.CsvWrite w row = none) (st : ExportState) (hJ : csvInvariant env st) :
    match loopBody env "csv" project taskId pageSize st with
    | .error e => csvInvariant env e.st
    | .ok st2 => csvInvariant env st2 := by
  obtain ⟨j1, j2, j3⟩ := hJ
  cases hQ : env.ExportResults ⟨wrapInt64 (st.page + 1), pageSize, taskId, st.lastResultId⟩ with
  | error err =>
    simp only [loopBody, hQ]
    exact ⟨j1, j2, j3⟩
  | ok trs =>
    have hd := hdec _ trs hQ
    obtain ⟨i1, i2, i3, i4⟩ := encodeRecords_csv env project hw trs hd
      { st with page := wrapInt64 (st.page + 1), buf := "",
                queries := st.queries ++ [⟨wrapInt64 (st.page + 1), pageSize, taskId,
                  st.lastResultId⟩] }
    rcases hE : encodeRecords env "csv" project trs
      { st with page := wrapInt64 (st.page + 1), buf := "",
                queries := st.queries ++ [⟨wrapInt64 (st.page + 1), pageSize, taskId,
                  st.lastResultId⟩] } with ⟨_ | err, st3⟩
    · simp only [hE] at i1 i2 i3 i4
      have hJ3 : csvInvariant env st3 := by
        refine ⟨?_, ?_, ?_⟩
        · rw [i3, i2, j1, dataRows_append]
          by_cases hh : st.handed = []
          · have hwc : st.writeCol = true := j2.mpr hh
            rw [hh, hwc]
            simp [headerRows, dataRows]
          · have hwc : ¬ st.writeCol = true := fun h => hh (j2.mp h)
            rw [headerRows_append env _ _ hh, if_neg hwc]
            simp
        · rw [i4, i2, j2]
          simp
        · intro r hr
          rw [i2, List.mem_append] at hr
          rcases hr with hr | hr
          · exact j3 r hr
          · exact hd r hr
      cases hgl : trs.getLast? with
      | none =>
        simp only [loopBody, hQ, hE, hgl]
        exact hJ3
      | some last =>
        cases hW : env.WriteString (wrapInt64 (st.page + 1)) st3.buf with
        | some err =>
          simp only [loopBody, hQ, hE, hgl, hW]
          exact hJ3
        | none =>
          by_cases hshort : (trs.length : Int) < pageSize
          · simp only [loopBody, hQ, hE, hgl, hW, hshort, if_true]
            exact hJ3
          · simp only [loopBody, hQ, hE, hgl, hW, hshort, if_false]
            exact hJ3
    · simp only [hE] at i1
      cases i1

theorem encodeRecords_append (env : Env) (format : String) (project : Project)
    (p1 p2 : List Result) (st : ExportState)
    (h : (encodeRecords env format project p1 st).1 = none) :
    encodeRecords env format project (p1 ++ p2) st
      = encodeRecords env format project p2 (encodeRecords env format project p1 st).2 := by
  induction p1 generalizing st with
  | nil => rfl
  | cons r rs ih =>
    rw [List.cons_append, encodeRecords]
    rw [encodeRecords] at h
    conv_rhs => rw [encodeRecords]
    cases hb : buildResult env format st.buf st.csvWriter st.writeCol project r with
    | error err =>
      rw [hb] at h
      cases h
    | ok out =>
      rw [hb] at h
      exact ih _ h

theorem firstAbove_subset (recs : List Result) (afterId pageSize : Int) (r : Result)
    (h : r ∈ firstAbove recs afterId pageSize) : r ∈ recs := by
  unfold firstAbove at h
  have h1 := List.mem_of_mem_take h
  have h2 := List.mem_of_mem_filter h1
  exact (sortById_perm recs).mem_iff.mp h2

/-! ## Lemmas on decode failures -/

theorem buildResult_decode_error (env : Env) (format : String)
    (hf : format = "sql" ∨ format = "csv") (buf : String) (w : List (List String))
    (wc : Bool) (project : Project) (r : Result) (err : String)
    (h : env.Unmarshal r.Result = .error err) :
    buildResult env format buf w wc project r = .error err := by
  rcases hf with rfl | rfl
  · unfold buildResult buildSQLItem
    rw [if_pos rfl, h]
    rfl
  · have h1 : ¬ ("csv" : String) = "sql" := by decide
    have h2 : ¬ ("csv" : String) = "json" := by decide
    unfold buildResult buildCSVItem
    rw [if_neg h1, if_neg h2, if_pos rfl, h]
    rfl

theorem buildResult_json (env : Env) (buf : String) (w : List (List String)) (wc : Bool)
    (project : Project) (r : Result) :
    buildResult env "json" buf w wc project r = .ok (buf ++ r.Result ++ "\n", w) := by
  have h1 : ¬ ("json" : String) = "sql" := by decide
  unfold buildResult buildJSONItem
  rw [if_neg h1, if_pos rfl]
  rfl

theorem encodeRecords_decode (env : Env) (format : String)
    (hf : format = "sql" ∨ format = "csv") (project : Project) (trs : List Result)
    (st : ExportState) (hst : ∀ r ∈ st.handed, ∃ m, env.Unmarshal r.Result = .ok m) :
    ((encodeRecords env format project trs st).1 = none →
      ∀ r ∈ (encodeRecords env format project trs st).2.handed,
        ∃ m, env.Unmarshal r.Result = .ok m)
    ∧ ∀ msg, (encodeRecords env format project trs st).1 = some msg →
        ∀ r ∈ (encodeRecords env format project trs st).2.handed, ∀ err,
          env.Unmarshal r.Result = .error err → msg = err := by
  induction trs generalizing st with
  | nil =>
    refine ⟨fun _ => hst, ?_⟩
    intro msg h
    simp [encodeRecords] at h
  | cons r rs ih =>
    rw [encodeRecords]
    cases hb : buildResult env format st.buf st.csvWriter st.writeCol project r with
    | error e =>
      refine ⟨fun h => by simp at h, ?_⟩
      intro msg hmsg r2 hr2 err herr
      simp only [Option.some.injEq] at hmsg
      subst hmsg
      simp only [List.mem_append, List.mem_singleton] at hr2
      rcases hr2 with hr2 | rfl
      · obtain ⟨m, hm⟩ := hst r2 hr2
        rw [hm] at herr
        cases herr
      · rw [buildResult_decode_error env format hf _ _ _ _ _ err herr] at hb
        exact (Except.error.inj hb).symm
    | ok out =>
      have hr : ∃ m, env.Unmarshal r.Result = .ok m := by
        cases hu : env.Unmarshal r.Result with
        | ok m => exact ⟨m, rfl⟩
        | error err =>
          rw [buildResult_decode_error env format hf _ _ _ _ _ err hu] at hb
          cases hb
      exact ih _ (by
        intro r2 hr2
        simp only [List.mem_append, List.mem_singleton] at hr2
        rcases hr2 with hr2 | rfl
        · exact hst r2 hr2
        · exact hr)

theorem decode_step (env : Env) (format : String) (hf : format = "sql" ∨ format = "csv")
    (project : Project) (taskId pageSize : Int) (st : ExportState)
    (hst : ∀ r ∈ st.handed, ∃ m, env.Unmarshal r.Result = .ok m) :
    match loopBody env format project taskId pageSize st with
    | .error e => ∀ r ∈ e.st.handed, ∀ err, env.Unmarshal r.Result = .error err →
        e.exit = .failed err
    | .ok st2 => ∀ r ∈ st2.handed, ∃ m, env.Unmarshal r.Result = .ok m := by
  have hno : ∀ (ex : Exit) (st3 : ExportState),
      (∀ r ∈ st3.handed, ∃ m, env.Unmarshal r.Result = .ok m) →
      ∀ r ∈ st3.handed, ∀ err, env.Unmarshal r.Result = .error err → ex = .failed err := by
    intro ex st3 h3 r hr err herr
    obtain ⟨m, hm⟩ := h3 r hr
    rw [hm] at herr
    cases herr
  cases hQ : env.ExportResults ⟨wrapInt64 (st.page + 1), pageSize, taskId, st.lastResultId⟩ with
  | error err =>
    simp only [loopBody, hQ]
    exact hno _ _ hst
  | ok trs =>
    obtain ⟨d1, d2⟩ := encodeRecords_decode env format hf project trs
      { st with page := wrapInt64 (st.page + 1), buf := "",
                queries := st.queries ++ [⟨wrapInt64 (st.page + 1), pageSize, taskId,
                  st.lastResultId⟩] } hst
    rcases hE : encodeRecords env format project trs
      { st with page := wrapInt64 (st.page + 1), buf := "",
                queries := st.queries ++ [⟨wrapInt64 (st.page + 1), pageSize, taskId,
                  st.lastResultId⟩] } with ⟨_ | msg, st3⟩
    · simp only [hE] at d1
      have h3 := d1 trivial
      cases hgl : trs.getLast? with
      | none =>
        simp only [loopBody, hQ, hE, hgl]
        exact hno _ _ h3
      | some last =>
        cases hW : env.WriteString (wrapInt64 (st.page + 1)) st3.buf with
        | some err =>
          simp only [loopBody, hQ, hE, hgl, hW]
          exact hno _ _ h3
        | none =>
          by_cases hshort : (trs.length : Int) < pageSize
          · simp only [loopBody, hQ, hE, hgl, hW, hshort, if_true]
            exact hno _ _ h3
          · simp only [loopBody, hQ, hE, hgl, hW, hshort, if_false]
            exact h3
    · simp only [hE] at d2
      simp only [loopBody, hQ, hE]
      intro r hr err herr
      rw [d2 msg rfl r hr err herr]

theorem ExportResult_attachment (env : Env) (formatParam : String) (taskId : Int) (fuel : Nat)
    (d c : String) (s : Int) (ops : List FileOp)
    (h : ExportResult env formatParam taskId fuel = some ⟨.attachment d c s, ops⟩) :
    ∃ task project st, env.SelectTask taskId = .ok (some task)
      ∧ env.SelectProjectById task.ProjectId = .ok (some project)
      ∧ exportLoop env (ToLower env formatParam) project taskId
          (env.GetIntSetting project 1000) fuel (initialState (ToLower env formatParam))
          = some ⟨.done, st⟩
      ∧ c = fileContent env st := by
  unfold ExportResult at h
  simp only at h
  split at h
  · simp at h
  · simp at h
  · rename_i task hT
    split at h
    · simp at h
    · simp at h
    · rename_i project hP
      split at h
      · simp at h
      · split at h
        · simp at h
        · split at h
          · simp at h
          · simp at h
          · simp at h
          · rename_i st hL
            split at h
            · simp at h
            · split at h
              · simp at h
              · simp only [Option.some.injEq, Run.mk.injEq, Response.attachment.injEq] at h
                exact ⟨task, project, st, hT, hP, hL, h.1.2.1.symm⟩

theorem ExportResult_failed (env : Env) (formatParam : String) (taskId : Int) (fuel : Nat)
    (task : Task) (project : Project) (msg : String) (st : ExportState)
    (hT : env.SelectTask taskId = .ok (some task))
    (hP : env.SelectProjectById task.ProjectId = .ok (some project))
    (hS : ¬ (ToLower env formatParam ≠ "sql" ∧ ToLower env formatParam ≠ "json"
      ∧ ToLower env formatParam ≠ "csv"))
    (hC : env.CreateFile
      (env.TempDir ++ "/" ++ tempFileName env (ToLower env formatParam) project taskId) = none)
    (hL : exportLoop env (ToLower env formatParam) project taskId
      (env.GetIntSetting project 1000) fuel (initialState (ToLower env formatParam))
      = some ⟨.failed msg, st⟩) :
    ExportResult env formatParam taskId fuel
      = some ⟨.errorMsg msg,
          [.create (env.TempDir ++ "/"
              ++ tempFileName env (ToLower env formatParam) project taskId),
           .remove (env.TempDir ++ "/"
              ++ tempFileName env (ToLower env formatParam) project taskId)]⟩ := by
  unfold ExportResult
  simp only [hT, hP, hS, hC, hL, if_false]

/-! ## Lemmas on the JSON encoder -/

theorem jsonText_append (a b : List Result) : jsonText (a ++ b) = jsonText a ++ jsonText b := by
  apply String.ext
  simp [jsonText, String.data_join]

theorem encodeRecords_json (env : Env) (project : Project) (trs : List Result)
    (st : ExportState) :
    (encodeRecords env "json" project trs st).1 = none
    ∧ (encodeRecords env "json" project trs st).2.buf = st.buf ++ jsonText trs
    ∧ (encodeRecords env "json" project trs st).2.handed = st.handed ++ trs
    ∧ (encodeRecords env "json" project trs st).2.file = st.file
    ∧ (encodeRecords env "json" project trs st).2.csvWriter = st.csvWriter := by
  induction trs generalizing st with
  | nil =>
    refine ⟨rfl, ?_, ?_, rfl, rfl⟩
    · apply String.ext
      simp [encodeRecords, jsonText]
    · simp [encodeRecords]
  | cons r rs ih =>
    rw [encodeRecords, buildResult_json]
    obtain ⟨i1, i2, i3, i4, i5⟩ := ih
      { st with handed := st.handed ++ [r], buf := st.buf ++ r.Result ++ "\n",
                csvWriter := st.csvWriter, writeCol := false }
    refine ⟨i1, ?_, ?_, i4, i5⟩
    · rw [i2]
      have : jsonText (r :: rs) = jsonText [r] ++ jsonText rs := jsonText_append [r] rs
      rw [this]
      apply String.ext
      simp [jsonText, String.data_join]
    · rw [i3]
      simp

theorem jsonInvariant_step (env : Env) (project : Project) (taskId pageSize : Int)
    (st : ExportState) (hJ : jsonInvariant st) :
    match loopBody env "json" project taskId pageSize st with
    | .error e => e.exit = .done → jsonInvariant e.st
    | .ok st2 => jsonInvariant st2 := by
  obtain ⟨j1, j2⟩ := hJ
  cases hQ : env.ExportResults ⟨wrapInt64 (st.page + 1), pageSize, taskId, st.lastResultId⟩ with
  | error err =>
    simp only [loopBody, hQ]
    intro h
    cases h
  | ok trs =>
    obtain ⟨i1, i2, i3, i4, i5⟩ := encodeRecords_json env project trs
      { st with page := wrapInt64 (st.page + 1), buf := "",
                queries := st.queries ++ [⟨wrapInt64 (st.page + 1), pageSize, taskId,
                  st.lastResultId⟩] }
    rcases hE : encodeRecords env "json" project trs
      { st with page := wrapInt64 (st.page + 1), buf := "",
                queries := st.queries ++ [⟨wrapInt64 (st.page + 1), pageSize, taskId,
                  st.lastResultId⟩] } with ⟨_ | msg, st3⟩
    · simp only [hE] at i1 i2 i3 i4 i5
      have hJ3 : jsonInvariant
          ({ st3 with lastResultId := 0, file := st3.file ++ st3.buf } : ExportState) := by
        refine ⟨?_, ?_⟩
        · show st3.file ++ st3.buf = jsonText st3.handed
          rw [i4, i2, i3, j1, jsonText_append]
          apply String.ext
          simp
        · show st3.csvWriter = []
          rw [i5, j2]
      cases hgl : trs.getLast? with
      | none =>
        simp only [loopBody, hQ, hE, hgl]
        intro h
        cases h
      | some last =>
        cases hW : env.WriteString (wrapInt64 (st.page + 1)) st3.buf with
        | some err =>
          simp only [loopBody, hQ, hE, hgl, hW]
          intro h
          cases h
        | none =>
          by_cases hshort : (trs.length : Int) < pageSize
          · simp only [loopBody, hQ, hE, hgl, hW, hshort, if_true]
            intro _
            exact hJ3
          · simp only [loopBody, hQ, hE, hgl, hW, hshort, if_false]
            exact hJ3
    · simp only [hE] at i1
      cases i1

theorem linesOfChars_line (l : List Char) (hl : Char.ofNat 10 ∉ l) (rest cur : List Char) :
    linesOfChars (l ++ Char.ofNat 10 :: rest) cur
      = ⟨cur.reverse ++ l⟩ :: linesOfChars rest [] := by
  induction l generalizing cur with
  | nil => simp [linesOfChars]
  | cons c cs ih =>
    have hc : ¬ c = Char.ofNat 10 := by
      intro e
      exact hl (by simp [e])
    have hcs : Char.ofNat 10 ∉ cs := by
      intro e
      exact hl (List.mem_cons_of_mem _ e)
    rw [List.cons_append, linesOfChars, if_neg hc, ih hcs]
    simp

theorem linesOf_jsonText (records : List Result)
    (h : ∀ r ∈ records, Char.ofNat 10 ∉ r.Result.data) :
    linesOf (jsonText records) = records.map fun r => r.Result := by
  unfold linesOf
  induction records with
  | nil => rfl
  | cons r rs ih =>
    have e : (jsonText (r :: rs)).data
        = r.Result.data ++ Char.ofNat 10 :: (jsonText rs).data := by
      have : jsonText (r :: rs) = jsonText [r] ++ jsonText rs := jsonText_append [r] rs
      rw [this]
      simp [jsonText, String.data_join]
    rw [e, linesOfChars_line _ (h r (List.mem_cons_self _ _)),
      ih (fun r2 hr2 => h r2 (List.mem_cons_of_mem _ hr2))]
    simp

/-! ## Lemmas on the validation of the request -/

theorem ascii_of_toLower (c : Char) (h : c.toLower.toNat < 128) : c.toNat < 128 := by
  unfold Char.toLower at h
  simp only at h
  split at h
  · omega
  · exact h

theorem map_toLowerRune (f : Char → Char) (hf : ∀ c : Char, c.toNat < 128 → f c = c.toLower)
    (l target : List Char) (ht : ∀ d ∈ target, d.toNat < 128)
    (h : l.map Char.toLower = target) : l.map f = target := by
  subst h
  induction l with
  | nil => rfl
  | cons c cs ih =>
    simp only [List.map_cons, List.mem_cons, forall_eq_or_imp, List.mem_map] at ht ⊢
    rw [hf c (ascii_of_toLower c ht.1), ih]
    intro d hd
    exact ht.2 d (by simpa using hd)

theorem ExportResult_unsupported (env : Env) (formatParam : String) (taskId : Int) (fuel : Nat)
    (h : ToLower env formatParam ≠ "sql" ∧ ToLower env formatParam ≠ "json"
      ∧ ToLower env formatParam ≠ "csv") :
    (∃ msg, ExportResult env formatParam taskId fuel = some ⟨.errorMsg msg, []⟩)
    ∧ ∀ task project, env.SelectTask taskId = .ok (some task) →
        env.SelectProjectById task.ProjectId = .ok (some project) →
        ExportResult env formatParam taskId fuel
          = some ⟨.errorMsg "not supported format", []⟩ := by
  constructor
  · unfold ExportResult
    simp only
    split
    · exact ⟨_, rfl⟩
    · exact ⟨_, rfl⟩
    · split
      · exact ⟨_, rfl⟩
      · exact ⟨_, rfl⟩
      · rw [if_pos h]
        exact ⟨_, rfl⟩
  · intro task project hT hP
    unfold ExportResult
    simp only [hT, hP, h, if_true, ne_eq, not_false_eq_true, and_self]

theorem ExportResult_create (env : Env) (formatParam : String) (taskId : Int) (fuel : Nat)
    (run : Run) (path : String) (hrun : ExportResult env formatParam taskId fuel = some run)
    (hmem : FileOp.create path ∈ run.ops) :
    ∃ task project, env.SelectTask taskId = .ok (some task)
      ∧ env.SelectProjectById task.ProjectId = .ok (some project)
      ∧ ¬ (ToLower env formatParam ≠ "sql" ∧ ToLower env formatParam ≠ "json"
          ∧ ToLower env formatParam ≠ "csv")
      ∧ path = env.TempDir ++ "/" ++ tempFileName env (ToLower env formatParam) project taskId
      ∧ env.CreateFile path = none := by
  unfold ExportResult at hrun
  simp only at hrun
  split at hrun
  · simp only [Option.some.injEq] at hrun
    subst hrun
    simp at hmem
  · simp only [Option.some.injEq] at hrun
    subst hrun
    simp at hmem
  · rename_i task hT
    split at hrun
    · simp only [Option.some.injEq] at hrun
      subst hrun
      simp at hmem
    · simp only [Option.some.injEq] at hrun
      subst hrun
      simp at hmem
    · rename_i project hP
      split at hrun
      · simp only [Option.some.injEq] at hrun
        subst hrun
        simp at hmem
      · rename_i hS
        split at hrun
        · simp only [Option.some.injEq] at hrun
          subst hrun
          simp at hmem
        · rename_i hC
          have key : ∀ ops : List FileOp, FileOp.create path ∈ ops →
              (∀ op ∈ ops, ∀ p, op = FileOp.create p → p = env.TempDir ++ "/"
                ++ tempFileName env (ToLower env formatParam) project taskId) →
              ∃ task project, env.SelectTask taskId = .ok (some task)
                ∧ env.SelectProjectById task.ProjectId = .ok (some project)
                ∧ ¬ (ToLower env formatParam ≠ "sql" ∧ ToLower env formatParam ≠ "json"
                    ∧ ToLower env formatParam ≠ "csv")
                ∧ path = env.TempDir ++ "/"
                    ++ tempFileName env (ToLower env formatParam) project taskId
                ∧ env.CreateFile path = none := by
            intro ops hm hall
            have hp := hall _ hm path rfl
            exact ⟨task, project, hT, hP, hS, hp, by rw [hp]; exact hC⟩
          split at hrun
          · simp at hrun
          · simp only [Option.some.injEq] at hrun
            subst hrun
            exact key _ hmem (by simp)
          · simp only [Option.some.injEq] at hrun
            subst hrun
            exact key _ hmem (by simp)
          · split at hrun
            · simp only [Option.some.injEq] at hrun
              subst hrun
              exact key _ hmem (by simp)
            · split at hrun
              · simp only [Option.some.injEq] at hrun
                subst hrun
                exact key _ hmem (by simp)
              · simp only [Option.some.injEq] at hrun
                subst hrun
                exact key _ hmem (by simp)

theorem ExportResult_lookups (env : Env) (formatParam : String) (taskId : Int) (fuel : Nat) :
    (∀ err, env.SelectTask taskId = .error err →
      ExportResult env formatParam taskId fuel = some ⟨.errorMsg err, []⟩)
    ∧ (env.SelectTask taskId = .ok none →
      ExportResult env formatParam taskId fuel = some ⟨.errorMsg "task not exists", []⟩)
    ∧ ∀ task, env.SelectTask taskId = .ok (some task) →
        (∀ err, env.SelectProjectById task.ProjectId = .error err →
          ExportResult env formatParam taskId fuel = some ⟨.errorMsg err, []⟩)
        ∧ (env.SelectProjectById task.ProjectId = .ok none →
          ExportResult env formatParam taskId fuel
            = some ⟨.errorMsg "project not exists", []⟩) := by
  refine ⟨?_, ?_, ?_⟩
  · intro err hT
    unfold ExportResult
    simp only [hT]
  · intro hT
    unfold ExportResult
    simp only [hT]
  · intro task hT
    constructor
    · intro err hP
      unfold ExportResult
      simp only [hT, hP]
    · intro hP
      unfold ExportResult
      simp only [hT, hP]

theorem ExportResult_supported (env : Env) (formatParam : String) (taskId : Int) (fuel : Nat)
    (task : Task) (project : Project)
    (hT : env.SelectTask taskId = .ok (some task))
    (hP : env.SelectProjectById task.ProjectId = .ok (some project))
    (hS : ToLower env formatParam = "sql" ∨ ToLower env formatParam = "json"
      ∨ ToLower env formatParam = "csv") :
    (∀ err, env.CreateFile (env.TempDir ++ "/"
          ++ tempFileName env (ToLower env formatParam) project taskId) = some err →
      ExportResult env formatParam taskId fuel = some ⟨.errorMsg err, []⟩)
    ∧ (env.CreateFile (env.TempDir ++ "/"
          ++ tempFileName env (ToLower env formatParam) project taskId) = none →
      (∀ run, ExportResult env formatParam taskId fuel = some run →
        ∃ rest, run.ops = .create (env.TempDir ++ "/"
          ++ tempFileName env (ToLower env formatParam) project taskId) :: rest)
      ∧ (ExportResult env formatParam taskId fuel = none ↔
          exportLoop env (ToLower env formatParam) project taskId
            (env.GetIntSetting project 1000) fuel (initialState (ToLower env formatParam))
            = none)) := by
  have hn : ¬ (ToLower env formatParam ≠ "sql" ∧ ToLower env formatParam ≠ "json"
      ∧ ToLower env formatParam ≠ "csv") := by
    rintro ⟨h1, h2, h3⟩
    rcases hS with h | h | h
    · exact h1 h
    · exact h2 h
    · exact h3 h
  constructor
  · intro err hC
    unfold ExportResult
    simp only [hT, hP, if_neg hn, hC]
  · intro hC
    rcases hL : exportLoop env (ToLower env formatParam) project taskId
        (env.GetIntSetting project 1000) fuel (initialState (ToLower env formatParam))
      with _ | ⟨exit, st⟩
    · have hE : ExportResult env formatParam taskId fuel = none := by
        unfold ExportResult
        simp only [hT, hP, if_neg hn, hC, hL]
      rw [hE]
      exact ⟨fun run h => Option.noConfusion h, ⟨fun _ => rfl, fun _ => rfl⟩⟩
    · have key : ∃ resp rest, ExportResult env formatParam taskId fuel
          = some ⟨resp, .create (env.TempDir ++ "/"
              ++ tempFileName env (ToLower env formatParam) project taskId) :: rest⟩ := by
        unfold ExportResult
        simp only [hT, hP, if_neg hn, hC, hL]
        cases exit with
        | failed msg => exact ⟨_, _, rfl⟩
        | panicked => exact ⟨_, _, rfl⟩
        | done =>
          simp only
          cases env.Archive (env.TempDir ++ "/"
              ++ tempFileName env (ToLower env formatParam) project taskId)
              (tempFileName env (ToLower env formatParam) project taskId ++ ".tar.gz") with
          | some err => exact ⟨_, _, rfl⟩
          | none =>
            simp only
            cases env.Stat (tempFileName env (ToLower env formatParam) project taskId
                ++ ".tar.gz") with
            | none => exact ⟨_, _, rfl⟩
            | some size => exact ⟨_, _, rfl⟩
      obtain ⟨resp, rest, hE⟩ := key
      rw [hE]
      refine ⟨?_, ?_⟩
      · intro run h
        cases h
        exact ⟨rest, rfl⟩
      · constructor
        · intro h
          cases h
        · intro h
          cases h

theorem ExportResult_lower (env : Env) (f1 f2 : String) (taskId : Int) (fuel : Nat)
    (h : ToLower env f1 = ToLower env f2) :
    ExportResult env f1 taskId fuel = ExportResult env f2 taskId fuel := by
  unfold ExportResult
  simp only [h]

/-! ## Lemmas on the escaping of SQL values -/

theorem doubling_injective (l1 l2 : List Char)
    (h : (l1.flatMap fun c => if c = quoteChar ∨ c = backslashChar then [c, c] else [c])
      = l2.flatMap fun c => if c = quoteChar ∨ c = backslashChar then [c, c] else [c]) :
    l1 = l2 := by
  induction l1 generalizing l2 with
  | nil =>
    cases l2 with
    | nil => rfl
    | cons c cs =>
      exfalso
      rw [List.flatMap_nil, List.flatMap_cons] at h
      split at h <;> simp at h
  | cons a as ih =>
    cases l2 with
    | nil =>
      exfalso
      rw [List.flatMap_nil, List.flatMap_cons] at h
      split at h <;> simp at h
    | cons c cs =>
      rw [List.flatMap_cons, List.flatMap_cons] at h
      have hac : a = c := by
        split at h <;> split at h <;> simp at h <;> exact h.1
      subst hac
      rw [ih cs (List.append_cancel_left h)]

theorem quoteRuns_doubling (l : List Char) (cur : Nat) (hcur : cur % 2 = 0) :
    ∀ n ∈ quoteRunsChars
        (l.flatMap fun c => if c = quoteChar ∨ c = backslashChar then [c, c] else [c]) cur,
      n % 2 = 0 := by
  induction l generalizing cur with
  | nil =>
    intro n hn
    rw [List.flatMap_nil, quoteRunsChars] at hn
    split at hn
    · simp at hn
    · simp only [List.mem_singleton] at hn
      rw [hn]
      exact hcur
  | cons c cs ih =>
    have hqb : quoteChar ≠ backslashChar := by decide
    intro n hn
    rw [List.flatMap_cons] at hn
    by_cases hq : c = quoteChar
    · subst hq
      rw [if_pos (Or.inl rfl)] at hn
      simp only [List.cons_append, List.nil_append, quoteRunsChars, if_true] at hn
      exact ih (cur + 1 + 1) (by omega) n hn
    · by_cases hb : c = backslashChar
      · rw [if_pos (Or.inr hb)] at hn
        simp only [List.cons_append, List.nil_append, quoteRunsChars, hq, if_false] at hn
        split at hn
        · exact ih 0 rfl n hn
        · simp only [List.mem_cons] at hn
          rcases hn with hn | hn
          · rw [hn]
            exact hcur
          · exact ih 0 rfl n hn
      · rw [if_neg (not_or.mpr ⟨hq, hb⟩)] at hn
        simp only [List.cons_append, List.nil_append, quoteRunsChars, hq, if_false] at hn
        split at hn
        · exact ih 0 rfl n hn
        · simp only [List.mem_cons] at hn
          rcases hn with hn | hn
          · rw [hn]
            exact hcur
          · exact ih 0 rfl n hn

/-! ## Lemmas on the enumeration order of a map -/

theorem sortStrings_of_perm (l1 l2 : List String) (h : l1.Perm l2) :
    sortStrings l1 = sortStrings l2 := by
  have p : (sortStrings l1).Perm (sortStrings l2) :=
    ((sortStrings_perm l1).trans h).trans (sortStrings_perm l2).symm
  exact List.eq_of_perm_of_sorted p (List.sorted_insertionSort _ l1)
    (List.sorted_insertionSort _ l2)

theorem StrMap.get_of_not_mem (m : StrMap) (k : String) (h : k ∉ m.keys) : m.get k = "" := by
  unfold StrMap.get
  unfold StrMap.keys at h
  generalize m.entries = l at h
  induction l with
  | nil => rfl
  | cons p l ih =>
    obtain ⟨a, b⟩ := p
    simp only [List.map_cons, List.mem_cons, not_or] at h
    have hk2 : (k == a) = false := by simpa using h.1
    simp only [List.lookup, hk2]
    exact ih h.2

theorem StrMap.value_unique (m : StrMap) (k v1 v2 : String) (h1 : (k, v1) ∈ m.entries)
    (h2 : (k, v2) ∈ m.entries) : v1 = v2 := by
  have hn := m.nodupKeys
  generalize m.entries = l at h1 h2 hn
  induction l with
  | nil => cases h1
  | cons p l ih =>
    simp only [List.map_cons, List.nodup_cons, List.mem_map, not_exists, not_and] at hn
    simp only [List.mem_cons] at h1 h2
    rcases h1 with h1 | h1
    · rcases h2 with h2 | h2
      · have e := h1.trans h2.symm
        exact (Prod.mk.inj e).2
      · exact absurd (by rw [← h1]) (hn.1 (k, v2) h2)
    · rcases h2 with h2 | h2
      · exact absurd (by rw [← h2]) (hn.1 (k, v1) h1)
      · exact ih h1 h2 hn.2

theorem StrMap.get_of_perm (m1 m2 : StrMap) (h : m1.entries.Perm m2.entries) (k : String) :
    m1.get k = m2.get k := by
  have hk : m1.keys.Perm m2.keys := h.map Prod.fst
  by_cases hm : k ∈ m1.keys
  · have e1 := StrMap.get_mem m1 k hm
    have e2 := StrMap.get_mem m2 k (hk.mem_iff.mp hm)
    exact StrMap.value_unique m2 k _ _ (h.mem_iff.mp e1) e2
  · rw [StrMap.get_of_not_mem m1 k hm,
      StrMap.get_of_not_mem m2 k (fun h2 => hm (hk.mem_iff.mpr h2))]

theorem writeValues_congr (m1 m2 : StrMap) (h : ∀ k, m1.get k = m2.get k) (fLen : Nat)
    (l : List String) (i : Nat) (buff : String) :
    writeValues m1 fLen i l buff = writeValues m2 fLen i l buff := by
  induction l generalizing i buff with
  | nil => rfl
  | cons v rest ih =>
    rw [writeValues, writeValues, h v]
    exact ih _ _

/-! ## Lemmas on the grouping of queue ids -/

theorem groupsGet_set {α : Type} (ret : List (Int × List α)) (k k2 : Int) (t : List α) :
    groupsGet (groupsSet ret k t) k2 = if k2 = k then t else groupsGet ret k2 := by
  induction ret with
  | nil =>
    by_cases h : k2 = k
    · subst h
      simp [groupsGet, groupsSet, List.lookup]
    · have hb : (k2 == k) = false := by simpa using h
      simp [groupsGet, groupsSet, List.lookup, hb, h]
  | cons p rest ih =>
    obtain ⟨a, b⟩ := p
    unfold groupsSet
    by_cases ha : a = k
    · subst ha
      rw [if_pos rfl]
      by_cases h : k2 = a
      · subst h
        simp [groupsGet, List.lookup]
      · have hb : (k2 == a) = false := by simpa using h
        simp [groupsGet, List.lookup, hb, h]
    · rw [if_neg ha]
      by_cases h : k2 = a
      · subst h
        have hne : ¬ k2 = k := ha
        simp [groupsGet, List.lookup, hne]
      · have hb : (k2 == a) = false := by simpa using h
        have := ih
        simp only [groupsGet, List.lookup, hb] at this ⊢
        exact this

theorem groupsSet_keys {α : Type} (ret : List (Int × List α)) (k : Int) (t : List α) (x : Int) :
    x ∈ (groupsSet ret k t).map Prod.fst ↔ x ∈ ret.map Prod.fst ∨ x = k := by
  induction ret with
  | nil => simp [groupsSet]
  | cons p rest ih =>
    obtain ⟨a, b⟩ := p
    unfold groupsSet
    by_cases ha : a = k
    · subst ha
      rw [if_pos rfl]
      simp only [List.map_cons, List.mem_cons]
      tauto
    · rw [if_neg ha]
      simp only [List.map_cons, List.mem_cons, ih]
      tauto

theorem groupsSet_nodup {α : Type} (ret : List (Int × List α)) (k : Int) (t : List α)
    (h : (ret.map Prod.fst).Nodup) : ((groupsSet ret k t).map Prod.fst).Nodup := by
  induction ret with
  | nil => simp [groupsSet]
  | cons p rest ih =>
    obtain ⟨a, b⟩ := p
    unfold groupsSet
    simp only [List.map_cons, List.nodup_cons] at h
    by_cases ha : a = k
    · subst ha
      rw [if_pos rfl]
      simp only [List.map_cons, List.nodup_cons]
      exact h
    · rw [if_neg ha]
      simp only [List.map_cons, List.nodup_cons]
      refine ⟨?_, ih h.2⟩
      intro hm
      rcases (groupsSet_keys rest k t a).mp hm with h1 | h1
      · exact h.1 h1
      · exact ha h1

theorem groupsSet_sum {α : Type} (ret : List (Int × List α)) (k : Int) (t : List α) :
    ((groupsSet ret k t).map fun p => p.2.length).sum + (groupsGet ret k).length
      = (ret.map fun p => p.2.length).sum + t.length := by
  induction ret with
  | nil => simp [groupsSet, groupsGet]
  | cons p rest ih =>
    obtain ⟨a, b⟩ := p
    unfold groupsSet
    by_cases ha : a = k
    · subst ha
      rw [if_pos rfl]
      simp [groupsGet, List.lookup]
      omega
    · rw [if_neg ha]
      have hb : (k == a) = false := by
        simp only [beq_eq_false_iff_ne, ne_eq]
        exact fun e => ha e.symm
      have := ih
      simp only [groupsGet, List.lookup, hb, List.map_cons, List.sum_cons] at this ⊢
      omega

theorem groupLoop_spec {α : Type} (vs : List α) :
    ∀ (pre ks : List Int) (ret : List (Int × List α)), vs.length ≤ ks.length →
      (ret.map Prod.fst).Nodup →
      ∃ ret2, groupLoop (pre ++ ks) pre.length vs ret = some ret2
        ∧ (∀ t, groupsGet ret2 t
            = groupsGet ret t ++ ((vs.zip ks).filter fun p => p.2 = t).map Prod.fst)
        ∧ (ret2.map Prod.fst).Nodup
        ∧ (∀ t, t ∈ ret2.map Prod.fst ↔ t ∈ ret.map Prod.fst ∨ t ∈ (vs.zip ks).map Prod.snd)
        ∧ (ret2.map fun p => p.2.length).sum = (ret.map fun p => p.2.length).sum + vs.length := by
  induction vs with
  | nil =>
    intro pre ks ret _ hn
    exact ⟨ret, rfl, by simp, hn, by simp, by simp⟩
  | cons v vs ih =>
    intro pre ks ret hlen hn
    cases ks with
    | nil => simp at hlen
    | cons k ks =>
      have hidx : (pre ++ k :: ks)[pre.length]? = some k := by
        rw [List.getElem?_append_right (le_refl _)]
        simp
      have hpre : pre ++ k :: ks = (pre ++ [k]) ++ ks := by simp
      have hi : pre.length + 1 = (pre ++ [k]).length := by simp
      obtain ⟨ret2, hrun, hget, hnd, hkeys, hsum⟩ :=
        ih (pre ++ [k]) ks (groupsSet ret k (groupsGet ret k ++ [v]))
          (by simp only [List.length_cons] at hlen; omega)
          (groupsSet_nodup ret k _ hn)
      refine ⟨ret2, ?_, ?_, hnd, ?_, ?_⟩
      · rw [groupLoop, hidx]
        simp only
        rw [hi, hpre]
        exact hrun
      · intro t
        rw [hget t, groupsGet_set]
        by_cases h : t = k
        · subst h
          simp [List.zip_cons_cons, List.filter_cons]
        · have h2 : ¬ k = t := fun e => h e.symm
          simp [List.zip_cons_cons, List.filter_cons, h, h2]
      · intro t
        rw [hkeys t, groupsSet_keys]
        simp only [List.zip_cons_cons, List.map_cons, List.mem_cons]
        tauto
      · have hs := groupsSet_sum ret k (groupsGet ret k ++ [v])
        rw [hsum]
        simp only [List.length_append, List.length_singleton, List.length_cons,
          List.length_nil] at hs ⊢
        omega

/-! ## Lemmas on the runs of the handler -/

theorem ExportResult_cases (env : Env) (formatParam : String) (taskId : Int) (fuel : Nat)
    (run : Run) (h : ExportResult env formatParam taskId fuel = some run) :
    (run.ops = [] ∧ ∃ msg, run.response = .errorMsg msg)
    ∨ ∃ task project,
        env.SelectTask taskId = .ok (some task)
        ∧ env.SelectProjectById task.ProjectId = .ok (some project)
        ∧ ¬ (ToLower env formatParam ≠ "sql" ∧ ToLower env formatParam ≠ "json"
            ∧ ToLower env formatParam ≠ "csv")
        ∧ env.CreateFile (env.TempDir ++ "/"
            ++ tempFileName env (ToLower env formatParam) project taskId) = none
        ∧ ∃ e, exportLoop env (ToLower env formatParam) project taskId
              (env.GetIntSetting project 1000) fuel (initialState (ToLower env formatParam))
              = some e
          ∧ ((∃ msg, e.exit = .failed msg
                ∧ run = ⟨.errorMsg msg,
                    [.create (env.TempDir ++ "/"
                        ++ tempFileName env (ToLower env formatParam) project taskId),
                     .remove (env.TempDir ++ "/"
                        ++ tempFileName env (ToLower env formatParam) project taskId)]⟩)
            ∨ (e.exit = .panicked
                ∧ run = ⟨.panicked,
                    [.create (env.TempDir ++ "/"
                        ++ tempFileName env (ToLower env formatParam) project taskId),
                     .remove (env.TempDir ++ "/"
                        ++ tempFileName env (ToLower env formatParam) project taskId)]⟩)
            ∨ (e.exit = .done
                ∧ ((∃ err, env.Archive
                        (env.TempDir ++ "/"
                          ++ tempFileName env (ToLower env formatParam) project taskId)
                        (tempFileName env (ToLower env formatParam) project taskId ++ ".tar.gz")
                        = some err
                      ∧ run = ⟨.errorMsg err,
                          [.create (env.TempDir ++ "/"
                              ++ tempFileName env (ToLower env formatParam) project taskId),
                           .archive (env.TempDir ++ "/"
                              ++ tempFileName env (ToLower env formatParam) project taskId)
                             (tempFileName env (ToLower env formatParam) project taskId
                              ++ ".tar.gz") false,
                           .remove (env.TempDir ++ "/"
                              ++ tempFileName env (ToLower env formatParam) project taskId)]⟩)
                  ∨ (env.Archive
                        (env.TempDir ++ "/"
                          ++ tempFileName env (ToLower env formatParam) project taskId)
                        (tempFileName env (ToLower env formatParam) project taskId ++ ".tar.gz")
                        = none
                      ∧ run.ops =
                          [.create (env.TempDir ++ "/"
                              ++ tempFileName env (ToLower env formatParam) project taskId),
                           .archive (env.TempDir ++ "/"
                              ++ tempFileName env (ToLower env formatParam) project taskId)
                             (tempFileName env (ToLower env formatParam) project taskId
                              ++ ".tar.gz") true,
                           .remove (tempFileName env (ToLower env formatParam) project taskId
                              ++ ".tar.gz"),
                           .remove (env.TempDir ++ "/"
                              ++ tempFileName env (ToLower env formatParam) project taskId)]
                      ∧ (run.response = .panicked
                        ∨ ∃ size, run.response = .attachment
                            ("attachment;filename=\"" ++ Base
                              (tempFileName env (ToLower env formatParam) project taskId
                                ++ ".tar.gz") ++ "\"")
                            (fileContent env e.st) size))))) := by
  unfold ExportResult at h
  simp only at h
  split at h
  · simp only [Option.some.injEq] at h
    subst h
    exact Or.inl ⟨rfl, _, rfl⟩
  · simp only [Option.some.injEq] at h
    subst h
    exact Or.inl ⟨rfl, _, rfl⟩
  · rename_i task hT
    split at h
    · simp only [Option.some.injEq] at h
      subst h
      exact Or.inl ⟨rfl, _, rfl⟩
    · simp only [Option.some.injEq] at h
      subst h
      exact Or.inl ⟨rfl, _, rfl⟩
    · rename_i project hP
      split at h
      · simp only [Option.some.injEq] at h
        subst h
        exact Or.inl ⟨rfl, _, rfl⟩
      · rename_i hS
        split at h
        · simp only [Option.some.injEq] at h
          subst h
          exact Or.inl ⟨rfl, _, rfl⟩
        · rename_i hC
          refine Or.inr ⟨task, project, hT, hP, hS, hC, ?_⟩
          split at h
          · simp at h
          · rename_i err st hL
            simp only [Option.some.injEq] at h
            subst h
            exact ⟨_, hL, Or.inl ⟨err, rfl, rfl⟩⟩
          · rename_i st hL
            simp only [Option.some.injEq] at h
            subst h
            exact ⟨_, hL, Or.inr (Or.inl ⟨rfl, rfl⟩)⟩
          · rename_i st hL
            refine ⟨_, hL, Or.inr (Or.inr ⟨rfl, ?_⟩)⟩
            split at h
            · rename_i err hA
              simp only [Option.some.injEq] at h
              subst h
              exact Or.inl ⟨err, hA, rfl⟩
            · rename_i hA
              split at h
              · simp only [Option.some.injEq] at h
                subst h
                exact Or.inr ⟨hA, rfl, Or.inl rfl⟩
              · rename_i size hSt
                simp only [Option.some.injEq] at h
                subst h
                exact Or.inr ⟨hA, rfl, Or.inr ⟨size, rfl⟩⟩

theorem loopBody_never_done (env : Env) (format : String) (project : Project)
    (taskId pageSize : Int) (hp : pageSize ≤ 0) (st : ExportState) :
    match loopBody env format project taskId pageSize st with
    | .error e => e.exit ≠ .done
    | .ok _ => True := by
  cases hQ : env.ExportResults ⟨wrapInt64 (st.page + 1), pageSize, taskId, st.lastResultId⟩ with
  | error err =>
    simp only [loopBody, hQ]
    intro h
    cases h
  | ok trs =>
    rcases hE : encodeRecords env format project trs
      { st with page := wrapInt64 (st.page + 1), buf := "",
                queries := st.queries ++ [⟨wrapInt64 (st.page + 1), pageSize, taskId,
                  st.lastResultId⟩] } with ⟨_ | msg, st3⟩
    · cases hgl : trs.getLast? with
      | none =>
        simp only [loopBody, hQ, hE, hgl]
        intro h
        cases h
      | some last =>
        cases hW : env.WriteString (wrapInt64 (st.page + 1)) st3.buf with
        | some err =>
          simp only [loopBody, hQ, hE, hgl, hW]
          intro h
          cases h
        | none =>
          have hshort : ¬ ((trs.length : Int) < pageSize) := by omega
          simp only [loopBody, hQ, hE, hgl, hW, hshort, if_false]
    · simp only [loopBody, hQ, hE]
      intro h
      cases h

theorem exportLoop_never_done (env : Env) (format : String) (project : Project)
    (taskId pageSize : Int) (hp : pageSize ≤ 0) (fuel : Nat) (st : ExportState) (e : LoopEnd)
    (h : exportLoop env format project taskId pageSize fuel st = some e) : e.exit ≠ .done :=
  exportLoop_rule env format project taskId pageSize (fun _ => True) (fun e => e.exit ≠ .done)
    (fun st _ => loopBody_never_done env format project taskId pageSize hp st) fuel st e
    trivial h

/-! ## Lemmas on the number of fetches -/

theorem exportLoop_fetches (env : Env) (format : String) (project : Project)
    (taskId pageSize : Int) (S : List Result) (hp : 1 ≤ pageSize)
    (hS : S.Pairwise fun a b => a.Id < b.Id)
    (hq : ∀ page last, env.ExportResults ⟨page, pageSize, taskId, last⟩
        = .ok ((S.filter fun r => last < r.Id).take pageSize.toNat)) :
    ∀ (n : Nat) (st : ExportState) (before rest : List Result), rest.length ≤ n →
      S = before ++ rest → (S.filter fun r => st.lastResultId < r.Id) = rest →
      ∃ fuel e, exportLoop env format project taskId pageSize fuel st = some e
        ∧ e.st.queries.length ≤ st.queries.length + rest.length / pageSize.toNat + 1 := by
  intro n
  induction n using Nat.strong_induction_on with
  | _ n ih =>
    intro st before rest hlen hS2 hf
    have hpc : ((pageSize.toNat : Nat) : Int) = pageSize := Int.toNat_of_nonneg (by omega)
    generalize hpdef : pageSize.toNat = p at *
    have hp1 : 1 ≤ p := by omega
    obtain ⟨pre, _, _, hl, hqq, _, _⟩ := encodeRecords_spec env format project
      (rest.take p)
      { st with page := wrapInt64 (st.page + 1), buf := "",
                queries := st.queries ++ [⟨wrapInt64 (st.page + 1), pageSize, taskId,
                  st.lastResultId⟩] }
    simp only at hl hqq
    rcases hE : encodeRecords env format project (rest.take p)
      { st with page := wrapInt64 (st.page + 1), buf := "",
                queries := st.queries ++ [⟨wrapInt64 (st.page + 1), pageSize, taskId,
                  st.lastResultId⟩] } with ⟨_ | err, st3⟩
    all_goals rw [hE] at hl hqq
    all_goals simp only at hl hqq
    · have hq3 : st3.queries.length = st.queries.length + 1 := by
        simp [hqq]
      cases hgl : (rest.take p).getLast? with
      | none =>
        refine ⟨1, ⟨.panicked, st3⟩, ?_, ?_⟩
        · simp only [exportLoop, loopBody, hq, hf, hE, hgl, hpdef]
        · show st3.queries.length ≤ _
          generalize rest.length / p = d
          omega
      | some last =>
        cases hW : env.WriteString (wrapInt64 (st.page + 1)) st3.buf with
        | some err =>
          refine ⟨1, ⟨.failed err, { st3 with lastResultId := last.Id }⟩, ?_, ?_⟩
          · simp only [exportLoop, loopBody, hq, hf, hE, hgl, hW, hpdef]
          · show st3.queries.length ≤ _
            generalize rest.length / p = d
            omega
        | none =>
          by_cases hshort : ((rest.take p).length : Int) < pageSize
          · refine ⟨1, ⟨.done,
              ({ st3 with lastResultId := last.Id, file := st3.file ++ st3.buf } : ExportState)⟩,
              ?_, ?_⟩
            · simp only [exportLoop, loopBody, hq, hf, hE, hgl, hW, hpdef, hshort, if_true]
            · show st3.queries.length ≤ _
              generalize rest.length / p = d
              omega
          · have hge : p ≤ rest.length := by
              rw [List.length_take] at hshort
              omega
            have hrl : rest.length = (rest.drop p).length + p := by
              rw [List.length_drop]
              omega
            have hdiv : rest.length / p = (rest.drop p).length / p + 1 := by
              rw [hrl, List.length_drop, Nat.add_div_right _ (by omega)]
            have hinv1 : S = (before ++ rest.take p) ++ rest.drop p := by
              rw [List.append_assoc, List.take_append_drop]
              exact hS2
            have hinv2 : (S.filter fun r => last.Id < r.Id) = rest.drop p := by
              rw [hinv1]
              refine filter_above_last _ _ last ?_ ?_
              · rw [← hinv1]
                exact hS
              · rw [List.getLast?_append, hgl]
                rfl
            obtain ⟨fuel, e, hrun, h2⟩ :=
              ih (rest.drop p).length (by omega)
                ({ st3 with lastResultId := last.Id, file := st3.file ++ st3.buf } : ExportState)
                (before ++ rest.take p) (rest.drop p) (le_refl _) hinv1 hinv2
            refine ⟨fuel + 1, e, ?_, ?_⟩
            · simp only [exportLoop, loopBody, hq, hf, hE, hgl, hW, hpdef, hshort, if_false]
              exact hrun
            · have h2b : e.st.queries.length
                  ≤ st3.queries.length + (rest.drop p).length / p + 1 := h2
              generalize (rest.drop p).length / p = d1 at hdiv h2b
              generalize rest.length / p = d2 at hdiv
              omega
    · refine ⟨1, ⟨.failed err, st3⟩, ?_, ?_⟩
      · simp only [exportLoop, loopBody, hq, hf, hE, hpdef]
      · show st3.queries.length ≤ _
        simp [hqq]

theorem split_at_cursor (l : List Result) (c : Int) (h : l.Pairwise fun a b => a.Id < b.Id) :
    l = (l.filter fun r => ¬ c < r.Id) ++ l.filter fun r => c < r.Id := by
  induction l with
  | nil => rfl
  | cons a t ih =>
    rw [List.pairwise_cons] at h
    by_cases hc : c < a.Id
    · have h1 : (t.filter fun r => decide ¬ c < r.Id) = [] := by
        rw [List.filter_eq_nil_iff]
        intro r hr
        have := h.1 r hr
        simp only [decide_not, Bool.not_eq_true', decide_eq_false_iff_not, not_not]
        omega
      have h2 : (t.filter fun r => decide (c < r.Id)) = t := by
        rw [List.filter_eq_self]
        intro r hr
        have := h.1 r hr
        simp only [decide_eq_true_eq]
        omega
      simp only [List.filter_cons, hc, not_true_eq_false, decide_False, decide_True, if_true,
        Bool.false_eq_true, if_false, h1, h2, List.nil_append]
    · have := ih h.2
      simp only [List.filter_cons, hc, not_false_eq_true, decide_True, decide_False,
        if_true, List.cons_append]
      simp only [Bool.false_eq_true, if_false]
      exact congrArg (List.cons a) this

theorem exportLoop_mono (env : Env) (format : String) (project : Project)
    (taskId pageSize : Int) (fuel : Nat) (st : ExportState) (e : LoopEnd)
    (h : exportLoop env format project taskId pageSize fuel st = some e) (k : Nat) :
    exportLoop env format project taskId pageSize (fuel + k) st = some e := by
  induction fuel generalizing st with
  | zero => simp [exportLoop] at h
  | succ fuel ih =>
    have hk : fuel + 1 + k = (fuel + k) + 1 := by omega
    rw [hk, exportLoop]
    rw [exportLoop] at h
    cases hB : loopBody env format project taskId pageSize st with
    | error e2 =>
      rw [hB] at h
      exact h
    | ok st2 =>
      rw [hB] at h
      exact ih st2 h

theorem exportLoop_unique (env : Env) (format : String) (project : Project)
    (taskId pageSize : Int) (f1 f2 : Nat) (st : ExportState) (e1 e2 : LoopEnd)
    (h1 : exportLoop env format project taskId pageSize f1 st = some e1)
    (h2 : exportLoop env format project taskId pageSize f2 st = some e2) : e1 = e2 := by
  have a := exportLoop_mono env format project taskId pageSize f1 st e1 h1 f2
  have b := exportLoop_mono env format project taskId pageSize f2 st e2 h2 f1
  rw [Nat.add_comm] at b
  rw [a] at b
  exact Option.some.inj b

theorem loopBody_short_page (env : Env) (format : String) (project : Project)
    (taskId pageSize : Int) (st : ExportState) (trs : List Result)
    (hQ : env.ExportResults ⟨wrapInt64 (st.page + 1), pageSize, taskId, st.lastResultId⟩
      = .ok trs)
    (hshort : (trs.length : Int) < pageSize) :
    ∃ e, loopBody env format project taskId pageSize st = .error e := by
  rcases hE : encodeRecords env format project trs
    { st with page := wrapInt64 (st.page + 1), buf := "",
              queries := st.queries ++ [⟨wrapInt64 (st.page + 1), pageSize, taskId,
                st.lastResultId⟩] } with ⟨_ | msg, st3⟩
  · cases hgl : trs.getLast? with
    | none =>
      simp only [loopBody, hQ, hE, hgl]
      exact ⟨_, rfl⟩
    | some last =>
      cases hW : env.WriteString (wrapInt64 (st.page + 1)) st3.buf with
      | some err =>
        simp only [loopBody, hQ, hE, hgl, hW]
        exact ⟨_, rfl⟩
      | none =>
        simp only [loopBody, hQ, hE, hgl, hW, hshort, if_true]
        exact ⟨_, rfl⟩
  · simp only [loopBody, hQ, hE]
    exact ⟨_, rfl⟩

theorem loopBody_full_page (env : Env) (format : String) (project : Project)
    (taskId pageSize : Int) (hp : 1 ≤ pageSize) (st : ExportState) (trs : List Result)
    (hQ : env.ExportResults ⟨wrapInt64 (st.page + 1), pageSize, taskId, st.lastResultId⟩
      = .ok trs)
    (hfull : pageSize ≤ (trs.length : Int)) :
    (∃ st2, loopBody env format project taskId pageSize st = .ok st2)
    ∨ ∃ msg st2, loopBody env format project taskId pageSize st = .error ⟨.failed msg, st2⟩ := by
  have hshort : ¬ ((trs.length : Int) < pageSize) := by omega
  rcases hE : encodeRecords env format project trs
    { st with page := wrapInt64 (st.page + 1), buf := "",
              queries := st.queries ++ [⟨wrapInt64 (st.page + 1), pageSize, taskId,
                st.lastResultId⟩] } with ⟨_ | msg, st3⟩
  · cases hgl : trs.getLast? with
    | none =>
      exfalso
      have ht : trs = [] := List.getLast?_eq_none_iff.mp hgl
      rw [ht] at hfull
      simp only [List.length_nil, Nat.cast_zero] at hfull
      omega
    | some last =>
      cases hW : env.WriteString (wrapInt64 (st.page + 1)) st3.buf with
      | some err =>
        simp only [loopBody, hQ, hE, hgl, hW]
        exact Or.inr ⟨_, _, rfl⟩
      | none =>
        simp only [loopBody, hQ, hE, hgl, hW, hshort, if_false]
        exact Or.inl ⟨_, rfl⟩
  · simp only [loopBody, hQ, hE]
    exact Or.inr ⟨_, _, rfl⟩

/-! ## Lemmas on the cursor -/

theorem fetchedRecords_append (env : Env) (qs : List ResultQueryVO) (q : ResultQueryVO) :
    fetchedRecords env (qs ++ [q]) = fetchedRecords env qs ++ pageOf env q := by
  simp [fetchedRecords]

theorem le_last_of_ascending (l : List Result) (last : Result)
    (h : l.Pairwise fun a b => a.Id < b.Id) (hl : l.getLast? = some last) :
    last ∈ l ∧ ∀ r ∈ l, r.Id ≤ last.Id := by
  obtain ⟨l1, rfl⟩ : ∃ l1, l = l1 ++ [last] := by
    rcases List.eq_nil_or_concat l with rfl | ⟨l1, x, rfl⟩
    · simp at hl
    · rw [List.concat_eq_append, List.getLast?_append] at hl
      simp at hl
      exact ⟨l1, by rw [hl, List.concat_eq_append]⟩
  refine ⟨by simp, ?_⟩
  intro r hr
  rw [List.pairwise_append] at h
  rw [List.mem_append, List.mem_singleton] at hr
  rcases hr with hr | rfl
  · exact le_of_lt (h.2.2 r hr last (List.mem_singleton_self _))
  · exact le_refl _

theorem cursorInvariant_step (env : Env) (format : String) (project : Project)
    (taskId pageSize : Int)
    (hq : ∀ q trs, env.ExportResults q = .ok trs →
      (trs.Pairwise fun a b => a.Id < b.Id) ∧ ∀ r ∈ trs, q.LastResultId < r.Id)
    (st : ExportState) (hI : cursorInvariant env st) :
    match loopBody env format project taskId pageSize st with
    | .error e => cursorTrace env e.st
    | .ok st2 => cursorInvariant env st2 ∧ st.lastResultId < st2.lastResultId := by
  obtain ⟨⟨c1, c2, c3, _⟩, i1, i2, i3, i4⟩ := hI
  have hcur : ((st.queries ++ [(⟨wrapInt64 (st.page + 1), pageSize, taskId,
      st.lastResultId⟩ : ResultQueryVO)]).map fun q => q.LastResultId).Pairwise
      (fun a b => a < b) := by
    rw [List.map_append, List.pairwise_append]
    refine ⟨c1, by simp, ?_⟩
    intro a ha b hb
    simp only [List.map_cons, List.map_nil, List.mem_singleton] at hb
    obtain ⟨q, hq1, rfl⟩ := List.mem_map.mp ha
    rw [hb]
    exact i2 q hq1
  have hhead : ∀ q, (st.queries ++ [(⟨wrapInt64 (st.page + 1), pageSize, taskId,
      st.lastResultId⟩ : ResultQueryVO)]).head? = some q → q.LastResultId = 0 := by
    intro q hq1
    cases hqs : st.queries with
    | nil =>
      rw [hqs] at hq1
      simp only [List.nil_append, List.head?_cons, Option.some.injEq] at hq1
      rw [← hq1]
      exact i1 hqs
    | cons q0 rest =>
      rw [hqs] at hq1
      simp only [List.cons_append, List.head?_cons, Option.some.injEq] at hq1
      exact c2 q (by rw [hqs, ← hq1]; rfl)
  cases hQ : env.ExportResults ⟨wrapInt64 (st.page + 1), pageSize, taskId, st.lastResultId⟩ with
  | error err =>
    have hpage : pageOf env ⟨wrapInt64 (st.page + 1), pageSize, taskId, st.lastResultId⟩
        = [] := by
      unfold pageOf
      rw [hQ]
    simp only [loopBody, hQ]
    refine ⟨hcur, hhead, ?_, ?_⟩
    · show (fetchedRecords env (st.queries ++ [_])).Pairwise _
      rw [fetchedRecords_append, hpage, List.append_nil]
      exact c3
    · show st.handed <+: fetchedRecords env (st.queries ++ [_])
      rw [fetchedRecords_append, hpage, List.append_nil, i4]
  | ok trs =>
    obtain ⟨hasc, habove⟩ := hq _ trs hQ
    have hpage : pageOf env ⟨wrapInt64 (st.page + 1), pageSize, taskId, st.lastResultId⟩
        = trs := by
      unfold pageOf
      rw [hQ]
    have hfetched : (fetchedRecords env (st.queries ++ [(⟨wrapInt64 (st.page + 1), pageSize,
        taskId, st.lastResultId⟩ : ResultQueryVO)])).Pairwise (fun a b => a.Id < b.Id) := by
      rw [fetchedRecords_append, hpage, List.pairwise_append]
      refine ⟨c3, hasc, ?_⟩
      intro a ha b hb
      have h1 := i3 a ha
      have h2 := habove b hb
      simp only at h2
      omega
    obtain ⟨pre, hpre, hh, hl, hqq, hn, _⟩ := encodeRecords_spec env format project trs
      { st with page := wrapInt64 (st.page + 1), buf := "",
                queries := st.queries ++ [⟨wrapInt64 (st.page + 1), pageSize, taskId,
                  st.lastResultId⟩] }
    rcases hE : encodeRecords env format project trs
      { st with page := wrapInt64 (st.page + 1), buf := "",
                queries := st.queries ++ [⟨wrapInt64 (st.page + 1), pageSize, taskId,
                  st.lastResultId⟩] } with ⟨_ | msg, st3⟩
    all_goals simp only [hE] at hh hl hqq hn
    all_goals
      have htrace : cursorTrace env st3 := by
        refine ⟨?_, ?_, ?_, ?_⟩
        · rw [hqq]
          exact hcur
        · rw [hqq]
          exact hhead
        · rw [hqq]
          exact hfetched
        · rw [hqq, hh, fetchedRecords_append, hpage, i4]
          exact (List.prefix_append_right_inj _).mpr hpre
    · have hpre2 : pre = trs := hn trivial
      subst hpre2
      cases hgl : pre.getLast? with
      | none =>
        simp only [loopBody, hQ, hE, hgl]
        exact htrace
      | some last =>
        cases hW : env.WriteString (wrapInt64 (st.page + 1)) st3.buf with
        | some err =>
          simp only [loopBody, hQ, hE, hgl, hW]
          exact htrace
        | none =>
          by_cases hshort : (pre.length : Int) < pageSize
          · simp only [loopBody, hQ, hE, hgl, hW, hshort, if_true]
            exact htrace
          · simp only [loopBody, hQ, hE, hgl, hW, hshort, if_false]
            obtain ⟨hmem, hle⟩ := le_last_of_ascending pre last hasc hgl
            have hlt : st.lastResultId < last.Id := habove last hmem
            refine ⟨⟨htrace, ?_, ?_, ?_, ?_⟩, hlt⟩
            · intro hnil
              have : st3.queries = [] := hnil
              rw [hqq] at this
              simp at this
            · intro q hq1
              have hq2 : q ∈ st3.queries := hq1
              rw [hqq, List.mem_append, List.mem_singleton] at hq2
              show q.LastResultId < last.Id
              rcases hq2 with hq2 | rfl
              · have := i2 q hq2
                omega
              · exact hlt
            · intro r hr
              have hr2 : r ∈ fetchedRecords env st3.queries := hr
              rw [hqq, fetchedRecords_append, hpage, List.mem_append] at hr2
              show r.Id ≤ last.Id
              rcases hr2 with hr2 | hr2
              · have := i3 r hr2
                omega
              · exact hle r hr2
            · show st3.handed = fetchedRecords env st3.queries
              rw [hqq, hh, fetchedRecords_append, hpage, i4]
    · simp only [loopBody, hQ, hE]
      exact htrace

theorem cursorInvariant_reached (env : Env) (format : String) (project : Project)
    (taskId pageSize : Int)
    (hq : ∀ q trs, env.ExportResults q = .ok trs →
      (trs.Pairwise fun a b => a.Id < b.Id) ∧ ∀ r ∈ trs, q.LastResultId < r.Id)
    (st : ExportState) (h : Reached env format project taskId pageSize st) :
    cursorInvariant env st := by
  induction h with
  | start =>
    refine ⟨⟨?_, ?_, ?_, ?_⟩, ?_, ?_, ?_, ?_⟩
    · exact List.Pairwise.nil
    · intro q hq1
      cases hq1
    · exact List.Pairwise.nil
    · exact List.prefix_refl _
    · intro _
      rfl
    · intro q hq1
      cases hq1
    · intro r hr
      cases hr
    · rfl
  | next st st2 _ hstep ih =>
    have := cursorInvariant_step env format project taskId pageSize hq st ih
    rw [hstep] at this
    exact this.1

theorem firstAbove_ascending (recs : List Result) (afterId pageSize : Int)
    (hnd : (recs.map fun r => r.Id).Nodup) :
    ((firstAbove recs afterId pageSize).Pairwise fun a b => a.Id < b.Id)
    ∧ ∀ r ∈ firstAbove recs afterId pageSize, afterId < r.Id := by
  unfold firstAbove
  constructor
  · exact ((sortById_ascending recs hnd).sublist (List.filter_sublist _)).sublist
      (List.take_sublist _ _)
  · intro r hr
    have h1 := List.mem_of_mem_take hr
    simpa using (List.mem_filter.mp h1).2

/-! ## Lemmas on the text written to the file -/

theorem writeNames_prefix (fLen : Nat) (l : List String) (i : Nat) (a b : String) :
    writeNames fLen i l (a ++ b) = a ++ writeNames fLen i l b := by
  induction l generalizing i b with
  | nil => rfl
  | cons v rest ih =>
    rw [writeNames, writeNames]
    split
    · rw [String.append_assoc, String.append_assoc, ih]
      simp only [String.append_assoc]
    · rw [String.append_assoc, ih]

theorem writeValues_prefix (m : StrMap) (fLen : Nat) (l : List String) (i : Nat)
    (a b : String) :
    writeValues m fLen i l (a ++ b) = a ++ writeValues m fLen i l b := by
  induction l generalizing i b with
  | nil => rfl
  | cons v rest ih =>
    rw [writeValues, writeValues]
    split
    · rw [String.append_assoc, String.append_assoc, String.append_assoc, String.append_assoc,
        ih]
      simp only [String.append_assoc]
    · rw [String.append_assoc, String.append_assoc, String.append_assoc, ih]
      simp only [String.append_assoc]

theorem buildSQLItem_prefix (env : Env) (a b : String) (project : Project) (r : Result) :
    buildSQLItem env (a ++ b) project r = (buildSQLItem env b project r).map fun s => a ++ s := by
  unfold buildSQLItem
  cases env.Unmarshal r.Result with
  | error err => rfl
  | ok m =>
    simp only
    split
    · rfl
    · simp only [String.append_assoc, writeNames_prefix, writeValues_prefix, Except.map]

theorem buildResult_text (env : Env) (format : String) (hf : format ≠ "csv")
    (project : Project) (r : Result) :
    ∃ x : Except String String, ∀ buf w wc,
      buildResult env format buf w wc project r = x.map fun s => (buf ++ s, w) := by
  by_cases h1 : format = "sql"
  · refine ⟨buildSQLItem env "" project r, ?_⟩
    intro buf w wc
    unfold buildResult
    rw [if_pos h1]
    have := buildSQLItem_prefix env buf "" project r
    rw [String.append_empty] at this
    rw [this]
    cases buildSQLItem env "" project r <;> rfl
  · by_cases h2 : format = "json"
    · refine ⟨.ok (r.Result ++ "\n"), ?_⟩
      intro buf w wc
      unfold buildResult buildJSONItem
      rw [if_neg h1, if_pos h2]
      simp only [Except.map, String.append_assoc]
    · refine ⟨.ok "", ?_⟩
      intro buf w wc
      unfold buildResult
      rw [if_neg h1, if_neg h2, if_neg hf]
      simp only [Except.map, String.append_empty]

theorem encodeRecords_text (env : Env) (format : String) (hf : format ≠ "csv")
    (project : Project) (trs : List Result) :
    ∃ (t : String) (err : Option String), ∀ st,
      (encodeRecords env format project trs st).1 = err
      ∧ (encodeRecords env format project trs st).2.buf = st.buf ++ t
      ∧ (encodeRecords env format project trs st).2.csvWriter = st.csvWriter
      ∧ (encodeRecords env format project trs st).2.file = st.file := by
  induction trs with
  | nil =>
    refine ⟨"", none, ?_⟩
    intro st
    exact ⟨rfl, by simp [encodeRecords], rfl, rfl⟩
  | cons r rs ih =>
    obtain ⟨x, hx⟩ := buildResult_text env format hf project r
    obtain ⟨t, err, ih⟩ := ih
    cases x with
    | error e =>
      refine ⟨"", some e, ?_⟩
      intro st
      rw [encodeRecords, hx]
      exact ⟨rfl, by simp [Except.map], rfl, rfl⟩
    | ok s =>
      refine ⟨s ++ t, err, ?_⟩
      intro st
      rw [encodeRecords, hx]
      simp only [Except.map]
      obtain ⟨a1, a2, a3, a4⟩ := ih
        { st with handed := st.handed ++ [r], buf := st.buf ++ s, csvWriter := st.csvWriter,
                  writeCol := false }
      exact ⟨a1, by rw [a2, String.append_assoc], a3, a4⟩

theorem encodeRecords_csv_buf (env : Env) (project : Project) (trs : List Result)
    (st : ExportState) :
    (encodeRecords env "csv" project trs st).2.buf = st.buf
    ∧ (encodeRecords env "csv" project trs st).2.file = st.file := by
  induction trs generalizing st with
  | nil => exact ⟨rfl, rfl⟩
  | cons r rs ih =>
    have h1 : ¬ ("csv" : String) = "sql" := by decide
    have h2 : ¬ ("csv" : String) = "json" := by decide
    rw [encodeRecords]
    unfold buildResult
    rw [if_neg h1, if_neg h2, if_pos rfl]
    cases buildCSVItem env st.csvWriter st.writeCol r with
    | error err => exact ⟨rfl, rfl⟩
    | ok w =>
      simp only [Except.map]
      exact ih _

theorem textInvariant_step (env : Env) (format : String) (hf : format ≠ "csv")
    (project : Project) (taskId pageSize : Int) (st : ExportState)
    (hI : textInvariant env format project st) :
    match loopBody env format project taskId pageSize st with
    | .error e => e.exit = .done → textInvariant env format project e.st
    | .ok st2 => textInvariant env format project st2 := by
  obtain ⟨t1, t2, t3⟩ := hI
  cases hQ : env.ExportResults ⟨wrapInt64 (st.page + 1), pageSize, taskId, st.lastResultId⟩ with
  | error err =>
    simp only [loopBody, hQ]
    intro h
    cases h
  | ok trs =>
    obtain ⟨t, err, htext⟩ := encodeRecords_text env format hf project trs
    obtain ⟨a1, a2, a3, a4⟩ := htext
      { st with page := wrapInt64 (st.page + 1), buf := "",
                queries := st.queries ++ [⟨wrapInt64 (st.page + 1), pageSize, taskId,
                  st.lastResultId⟩] }
    obtain ⟨b1, b2, _, _⟩ :=
      htext (encodeRecords env format project st.handed (initialState format)).2
    obtain ⟨pre, _, hh, _, _, hn, _⟩ := encodeRecords_spec env format project trs
      { st with page := wrapInt64 (st.page + 1), buf := "",
                queries := st.queries ++ [⟨wrapInt64 (st.page + 1), pageSize, taskId,
                  st.lastResultId⟩] }
    rcases hE : encodeRecords env format project trs
      { st with page := wrapInt64 (st.page + 1), buf := "",
                queries := st.queries ++ [⟨wrapInt64 (st.page + 1), pageSize, taskId,
                  st.lastResultId⟩] } with ⟨_ | msg, st3⟩
    · simp only [hE] at a1 a2 a3 a4 hh hn
      have hpre : pre = trs := hn trivial
      subst hpre
      have happ := encodeRecords_append env format project st.handed pre (initialState format) t2
      have hJ3 : textInvariant env format project
          ({ st3 with lastResultId := 0, file := st3.file ++ st3.buf } : ExportState) := by
        refine ⟨?_, ?_, ?_⟩
        · show st3.file ++ st3.buf
            = (encodeRecords env format project st3.handed (initialState format)).2.buf
          rw [hh, happ, b2, a2, a4, ← t1]
          simp
        · show (encodeRecords env format project st3.handed (initialState format)).1 = none
          rw [hh, happ, b1, ← a1]
        · show st3.csvWriter = []
          rw [a3]
          exact t3
      cases hgl : pre.getLast? with
      | none =>
        simp only [loopBody, hQ, hE, hgl]
        intro h
        cases h
      | some last =>
        cases hW : env.WriteString (wrapInt64 (st.page + 1)) st3.buf with
        | some err2 =>
          simp only [loopBody, hQ, hE, hgl, hW]
          intro h
          cases h
        | none =>
          by_cases hshort : (pre.length : Int) < pageSize
          · simp only [loopBody, hQ, hE, hgl, hW, hshort, if_true]
            intro _
            exact hJ3
          · simp only [loopBody, hQ, hE, hgl, hW, hshort, if_false]
            exact hJ3
    · simp only [loopBody, hQ, hE]
      intro h
      cases h

theorem bomInvariant_step (env : Env) (project : Project) (taskId pageSize : Int)
    (st : ExportState) (hI : st.file = BOM) :
    match loopBody env "csv" project taskId pageSize st with
    | .error e => e.st.file = BOM
    | .ok st2 => st2.file = BOM := by
  cases hQ : env.ExportResults ⟨wrapInt64 (st.page + 1), pageSize, taskId, st.lastResultId⟩ with
  | error err =>
    simp only [loopBody, hQ]
    exact hI
  | ok trs =>
    obtain ⟨a1, a2⟩ := encodeRecords_csv_buf env project trs
      { st with page := wrapInt64 (st.page + 1), buf := "",
                queries := st.queries ++ [⟨wrapInt64 (st.page + 1), pageSize, taskId,
                  st.lastResultId⟩] }
    rcases hE : encodeRecords env "csv" project trs
      { st with page := wrapInt64 (st.page + 1), buf := "",
                queries := st.queries ++ [⟨wrapInt64 (st.page + 1), pageSize, taskId,
                  st.lastResultId⟩] } with ⟨err, st3⟩
    simp only [hE] at a1 a2
    have h3 : st3.file = BOM := a2.trans hI
    have h4 : st3.file ++ st3.buf = BOM := by
      rw [a1, h3]
      apply String.ext
      simp
    cases err with
    | some msg =>
      simp only [loopBody, hQ, hE]
      exact h3
    | none =>
      cases hgl : trs.getLast? with
      | none =>
        simp only [loopBody, hQ, hE, hgl]
        exact h3
      | some last =>
        cases hW : env.WriteString (wrapInt64 (st.page + 1)) st3.buf with
        | some err2 =>
          simp only [loopBody, hQ, hE, hgl, hW]
          exact h3
        | none =>
          by_cases hshort : (trs.length : Int) < pageSize
          · simp only [loopBody, hQ, hE, hgl, hW, hshort, if_true]
            exact h4
          · simp only [loopBody, hQ, hE, hgl, hW, hshort, if_false]
            exact h4

/-! ## Lemmas on the download name -/

theorem digit_no_slash (n : Nat) : Nat.digitChar (n % 10) ≠ Char.ofNat 47 := by
  have h : ∀ k < 10, Nat.digitChar k ≠ Char.ofNat 47 := by decide
  exact h _ (Nat.mod_lt _ (by decide))

theorem toDigitsCore_no_slash (fuel : Nat) : ∀ (n : Nat) (ds : List Char),
    (∀ c ∈ ds, c ≠ Char.ofNat 47) → ∀ c ∈ Nat.toDigitsCore 10 fuel n ds, c ≠ Char.ofNat 47 := by
  induction fuel with
  | zero =>
    intro n ds hds c hc
    exact hds c hc
  | succ fuel ih =>
    intro n ds hds c hc
    have e : Nat.toDigitsCore 10 (fuel + 1) n ds
        = (if n / 10 = 0 then Nat.digitChar (n % 10) :: ds
           else Nat.toDigitsCore 10 fuel (n / 10) (Nat.digitChar (n % 10) :: ds)) := rfl
    rw [e] at hc
    have hds2 : ∀ c ∈ Nat.digitChar (n % 10) :: ds, c ≠ Char.ofNat 47 := by
      intro c hc2
      rcases List.mem_cons.mp hc2 with rfl | h2
      · exact digit_no_slash n
      · exact hds c h2
    split at hc
    · exact hds2 c hc
    · exact ih _ _ hds2 c hc

theorem repr_no_slash (n : Nat) : ∀ c ∈ (Nat.repr n).data, c ≠ Char.ofNat 47 := by
  intro c hc
  exact toDigitsCore_no_slash _ n [] (fun _ h => by cases h) c hc

theorem toString_int_no_slash (i : Int) : ∀ c ∈ (toString i).data, c ≠ Char.ofNat 47 := by
  intro c hc
  cases i with
  | ofNat m => exact repr_no_slash m c hc
  | negSucc m =>
    have e : toString (Int.negSucc m) = "-" ++ Nat.repr (m + 1) := rfl
    rw [e, String.data_append, List.mem_append] at hc
    rcases hc with hc | hc
    · have : c = Char.ofNat 45 := by simpa using hc
      rw [this]
      decide
    · exact repr_no_slash _ c hc

theorem Base_of_no_slash (s : String) (hne : s ≠ "")
    (h : ∀ c ∈ s.data, c ≠ Char.ofNat 47) : Base s = s := by
  have hdata : s.data ≠ [] := by
    intro e
    apply hne
    exact String.ext e
  have hrev : ∀ c ∈ s.data.reverse, c ≠ Char.ofNat 47 := by
    intro c hc
    exact h c (List.mem_reverse.mp hc)
  have hdrop : (s.data.reverse.dropWhile fun c => decide (c = Char.ofNat 47))
      = s.data.reverse := by
    cases hr : s.data.reverse with
    | nil => rfl
    | cons x xs =>
      apply List.dropWhile_cons_of_neg
      have := hrev x (by rw [hr]; exact List.mem_cons_self _ _)
      simpa using this
  have htake : (s.data.reverse.takeWhile fun c => decide (c ≠ Char.ofNat 47))
      = s.data.reverse := by
    rw [List.takeWhile_eq_self_iff]
    intro c hc
    simpa using hrev c hc
  unfold Base
  rw [if_neg hne]
  simp only [hdrop, htake, List.reverse_reverse, hdata, if_false]

theorem noSlash_append (a b : String) (ha : noSlash a) (hb : noSlash b) : noSlash (a ++ b) := by
  intro c hc
  rw [String.data_append, List.mem_append] at hc
  rcases hc with hc | hc
  · exact ha c hc
  · exact hb c hc

theorem tempFileName_no_slash (env : Env) (format : String) (project : Project) (taskId : Int)
    (hf : format = "sql" ∨ format = "json" ∨ format = "csv")
    (hname : noSlash (ToLower env project.Name)) :
    noSlash (tempFileName env format project taskId ++ ".tar.gz") := by
  have hpre : noSlash (if format = "sql" then "t_" else "") := by
    unfold noSlash
    split <;> decide
  have hfmt : noSlash format := by
    unfold noSlash
    rcases hf with rfl | rfl | rfl <;> decide
  have hdash : noSlash "-" := by
    unfold noSlash
    decide
  have hdot : noSlash "." := by
    unfold noSlash
    decide
  have hext : noSlash ".tar.gz" := by
    unfold noSlash
    decide
  have h1 := noSlash_append _ _ hpre hname
  have h2 := noSlash_append _ _ h1 hdash
  have h3 := noSlash_append _ _ h2 (toString_int_no_slash taskId)
  have h4 := noSlash_append _ _ h3 hdash
  have h5 := noSlash_append _ _ h4 (toString_int_no_slash env.Timestamp)
  have h6 := noSlash_append _ _ h5 hdot
  have h7 := noSlash_append _ _ h6 hfmt
  exact noSlash_append _ _ h7 hext

/-! ## Lemmas on the files left behind -/

/-- A run that did not go through a failed `archiver.Archive` leaves the
files as they were: when neither the temporary file nor the archive existed
before, the files after the run are the files before it. -/
theorem filesAfter_cleanup (env : Env) (formatParam : String) (taskId : Int) (fuel : Nat)
    (run : Run) (partialArchive : Bool) (files : List String)
    (h : ExportResult env formatParam taskId fuel = some run)
    (hno : ∀ src dst, FileOp.archive src dst false ∉ run.ops)
    (hfiles : ∀ op ∈ run.ops, ∀ p, (op = .create p ∨ (∃ src, op = .archive src p true)) →
      p ∉ files) :
    filesAfter partialArchive files run.ops = files := by
  rcases ExportResult_cases env formatParam taskId fuel run h with
    ⟨hops, _⟩ | ⟨task, project, _, _, _, _, e, _, hcase⟩
  · rw [hops]; rfl
  · have two : ∀ p : String, p ∉ files →
        filesAfter partialArchive files [.create p, .remove p] = files := by
      intro p hp
      simp only [filesAfter, List.foldl_cons, List.foldl_nil, applyOp,
        List.insert_of_not_mem hp, List.erase_cons_head]
    rcases hcase with ⟨msg, _, hr⟩ | ⟨_, hr⟩ | ⟨_, hr⟩
    · subst hr
      exact two _ (hfiles _ (List.mem_cons_self _ _) _ (Or.inl rfl))
    · subst hr
      exact two _ (hfiles _ (List.mem_cons_self _ _) _ (Or.inl rfl))
    · rcases hr with ⟨err, _, hr⟩ | ⟨_, hops, _⟩
      · subst hr
        exact absurd (List.mem_cons_of_mem _ (List.mem_cons_self _ _)) (hno _ _)
      · rw [hops] at hfiles ⊢
        have h1 := hfiles _ (List.mem_cons_self _ _) _ (Or.inl rfl)
        have h2 := hfiles _ (List.mem_cons_of_mem _ (List.mem_cons_self _ _)) _
          (Or.inr ⟨_, rfl⟩)
        simp only [filesAfter, List.foldl_cons, List.foldl_nil, applyOp, Bool.true_or, if_true,
          List.insert_of_not_mem h1]
        by_cases hEq : tempFileName env (ToLower env formatParam) project taskId ++ ".tar.gz"
            = env.TempDir ++ "/" ++ tempFileName env (ToLower env formatParam) project taskId
        · rw [hEq]
          rw [List.insert_of_mem (List.mem_cons_self _ _), List.erase_cons_head,
            List.erase_of_not_mem h1]
        · have h3 : tempFileName env (ToLower env formatParam) project taskId ++ ".tar.gz"
              ∉ (env.TempDir ++ "/" ++ tempFileName env (ToLower env formatParam) project taskId)
                :: files := by
            intro hm
            rcases List.mem_cons.mp hm with hm | hm
            · exact hEq hm
            · exact h2 hm
          rw [List.insert_of_not_mem h3, List.erase_cons_head, List.erase_cons_head]

/-! ## The SQL encoder -/

/-- C1: for a record whose payload decodes to the mapping `m`, the sorted
field names are strictly ascending and are exactly the keys of `m`, each
with its value in `m`; when `m` has a field, `buildSQLItem` appends to the
buffer exactly the insert statement for table `t_` + lowercased project name
with the sorted field names as columns and, in the same order, their values
as literals (single-quoted, quotes and backslashes doubled), ended by `;` and
a newline; when `m` has no field it returns the buffer unchanged, without
error. -/
theorem buildSQLItem_spec (env : Env) (buff : String) (project : Project) (r : Result)
    (m : StrMap) (h : env.Unmarshal r.Result = .ok m) :
    (sortStrings m.keys).Pairwise (fun a b => a.data < b.data)
    ∧ (∀ k, k ∈ sortStrings m.keys ↔ k ∈ m.keys)
    ∧ (∀ k ∈ sortStrings m.keys, (k, m.get k) ∈ m.entries)
    ∧ (m.entries ≠ [] →
        buildSQLItem env buff project r
          = .ok (buff ++ sqlLine (ToLower env project.Name) (sortStrings m.keys)
              ((sortStrings m.keys).map fun k => sqlLiteral (m.get k))))
    ∧ (m.entries = [] → buildSQLItem env buff project r = .ok buff) := by
  refine ⟨sortStrings_ascending _ m.nodupKeys, sortStrings_mem _, ?_, ?_, ?_⟩
  · intro k hk
    exact StrMap.get_mem m k ((sortStrings_mem _ k).mp hk)
  · intro hne
    have hlen : (sortStrings m.keys).length ≠ 0 := by
      rw [sortStrings_length]
      unfold StrMap.keys
      rw [List.length_map]
      exact fun e => hne (List.length_eq_zero.mp e)
    unfold buildSQLItem
    rw [h]
    simp only [hlen, if_false]
    have e1 := writeNames_eq (sortStrings m.keys) 0
    have e2 := writeValues_eq m (sortStrings m.keys) 0
    rw [Nat.zero_add] at e1 e2
    rw [e1, e2]
    simp only [sqlLine, String.append_assoc]
  · intro he
    have hlen : (sortStrings m.keys).length = 0 := by
      rw [sortStrings_length]
      unfold StrMap.keys
      rw [he]
      rfl
    unfold buildSQLItem
    rw [h]
    simp only [hlen, if_true]

/-- C1 at the record of the specification, with project name `Proj` and an
empty buffer. -/
theorem buildSQLItem_spec_witness :
    (sampleEnv [] 1).Unmarshal
        (Result.mk 7 "\x7b\"a\":\"O'Brien\",\"b\":\"x\\\\\\\\y\"\x7d").Result
      = .ok sampleFields
    ∧ buildSQLItem (sampleEnv [] 1) "" ⟨1, "Proj"⟩
        (Result.mk 7 "\x7b\"a\":\"O'Brien\",\"b\":\"x\\\\\\\\y\"\x7d")
      = .ok "insert into t_proj(a,b) values ('O''Brien','x\\\\\\\\y');\n" :=
  ⟨rfl,
   ((buildSQLItem_spec (sampleEnv [] 1) "" ⟨1, "Proj"⟩
      (Result.mk 7 "\x7b\"a\":\"O'Brien\",\"b\":\"x\\\\\\\\y\"\x7d")
      sampleFields rfl).2.2.2.1 (by decide)).trans rfl⟩

/-! ## Pagination -/

/-- C2: for records with distinct positive Ids and a page size of at least
one, when the export query returns the first `pageSize` records above the
cursor in ascending order of Id, the loop of `ExportResult` stops, and the
records it has passed to the encoder, over all the pages it fetched, are a
prefix of the records in ascending order of Id, and are all of them unless
the loop was left through an error, which only an encoder error on one of the
records or a write error can cause. -/
theorem exportLoop_hands_every_record (env : Env) (format : String) (project : Project)
    (taskId pageSize : Int) (recs : List Result) (hp : 1 ≤ pageSize)
    (hpos : ∀ r ∈ recs, 0 < r.Id) (hnd : (recs.map fun r => r.Id).Nodup)
    (hq : ∀ page last, env.ExportResults ⟨page, pageSize, taskId, last⟩
        = .ok (firstAbove recs last pageSize)) :
    (sortById recs).Perm recs
    ∧ (sortById recs).Pairwise (fun a b => a.Id < b.Id)
    ∧ ∃ fuel e, exportLoop env format project taskId pageSize fuel (initialState format) = some e
        ∧ e.st.handed <+: sortById recs
        ∧ ((∀ msg, e.exit ≠ .failed msg) → e.st.handed = sortById recs)
        ∧ (∀ msg, e.exit = .failed msg →
            (∃ r ∈ recs, ∃ buf w wc, buildResult env format buf w wc project r = .error msg)
            ∨ ∃ page data, env.WriteString page data = some msg) := by
  refine ⟨sortById_perm recs, sortById_ascending recs hnd, ?_⟩
  have hall : ((sortById recs).filter fun r => (initialState format).lastResultId < r.Id)
      = sortById recs := by
    rw [List.filter_eq_self]
    intro r hr
    have := hpos r ((sortById_perm recs).mem_iff.mp hr)
    simpa [initialState] using this
  obtain ⟨fuel, e, hrun, h1, _, h3, h4, h5⟩ :=
    exportLoop_drains env format project taskId pageSize (sortById recs) hp
      (sortById_ascending recs hnd) hq (sortById recs).length (initialState format)
      (sortById recs) (le_refl _) rfl hall
  refine ⟨fuel, e, hrun, h1, ?_, ?_⟩
  · intro hnf
    cases hx : e.exit with
    | done => exact (h3 hx).1
    | panicked => exact (h4 hx).1
    | failed msg => exact absurd hx (hnf msg)
  · intro msg hm
    rcases h5 msg hm with ⟨r, hr, hx⟩ | hw
    · exact Or.inl ⟨r, (sortById_perm recs).mem_iff.mp hr, hx⟩
    · exact Or.inr hw

/-- C2 at three records stored out of order, page size 2, format `json`. -/
theorem exportLoop_hands_every_record_witness :
    ((1 : Int) ≤ 2 ∧ (∀ r ∈ sampleStore, 0 < r.Id) ∧ (sampleStore.map fun r => r.Id).Nodup)
    ∧ ((sortById sampleStore).Perm sampleStore
      ∧ (sortById sampleStore).Pairwise (fun a b => a.Id < b.Id)
      ∧ ∃ fuel e, exportLoop (sampleEnv sampleStore 2) "json" ⟨1, "Proj"⟩ 1 2 fuel
            (initialState "json") = some e
          ∧ e.st.handed <+: sortById sampleStore
          ∧ ((∀ msg, e.exit ≠ .failed msg) → e.st.handed = sortById sampleStore)
          ∧ (∀ msg, e.exit = .failed msg →
              (∃ r ∈ sampleStore, ∃ buf w wc,
                buildResult (sampleEnv sampleStore 2) "json" buf w wc ⟨1, "Proj"⟩ r = .error msg)
              ∨ ∃ page data, (sampleEnv sampleStore 2).WriteString page data = some msg))
    ∧ ∃ e, exportLoop (sampleEnv sampleStore 2) "json" ⟨1, "Proj"⟩ 1 2 2 (initialState "json")
          = some e
        ∧ e.exit = .done
        ∧ e.st.handed.map (fun r => r.Id) = [2, 5, 9]
        ∧ e.st.handed = sortById sampleStore :=
  ⟨⟨by decide, by decide, by decide⟩,
   exportLoop_hands_every_record (sampleEnv sampleStore 2) "json" ⟨1, "Proj"⟩ 1 2 sampleStore
     (by decide) (by decide) (by decide) (fun _ _ => rfl),
   ⟨_, rfl, rfl, rfl, rfl⟩⟩

/-- C3: the code on a task without records. For each of the three formats
and every page size, the first page is empty, the statement
`lastResultId = trs[len(trs)-1].Id` indexes it, and the handler panics: it
serves no file, and the deferred function removes the temporary file. -/
theorem ExportResult_zero_records_panics (pageSize : Int) (fuel : Nat) :
    ExportResult (sampleEnv [] pageSize) "sql" 1 (fuel + 1)
      = some ⟨.panicked, [.create "/tmp/t_proj-1-1600000000.sql",
          .remove "/tmp/t_proj-1-1600000000.sql"]⟩
    ∧ ExportResult (sampleEnv [] pageSize) "json" 1 (fuel + 1)
      = some ⟨.panicked, [.create "/tmp/proj-1-1600000000.json",
          .remove "/tmp/proj-1-1600000000.json"]⟩
    ∧ ExportResult (sampleEnv [] pageSize) "csv" 1 (fuel + 1)
      = some ⟨.panicked, [.create "/tmp/proj-1-1600000000.csv",
          .remove "/tmp/proj-1-1600000000.csv"]⟩ := by
  have h0 : ∀ last : Int, firstAbove [] last pageSize = [] := by
    intro last
    simp [firstAbove, sortById]
  have hloop : ∀ format : String,
      (exportLoop (sampleEnv [] pageSize) format ⟨1, "Proj"⟩ 1 pageSize (fuel + 1)
        (initialState format)).map (fun e => e.exit) = some .panicked := by
    intro format
    simp only [exportLoop, loopBody, sampleEnv, h0, encodeRecords, List.getLast?_nil, Option.map_some']
  have hrun : ∀ format : String, format = "sql" ∨ format = "json" ∨ format = "csv" →
      ExportResult (sampleEnv [] pageSize) format 1 (fuel + 1)
        = some ⟨.panicked,
            [.create ("/tmp" ++ "/" ++ tempFileName (sampleEnv [] pageSize) format ⟨1, "Proj"⟩ 1),
             .remove ("/tmp" ++ "/" ++ tempFileName (sampleEnv [] pageSize) format ⟨1, "Proj"⟩ 1)]⟩ := by
    intro format hf
    have hlow : ToLower (sampleEnv [] pageSize) format = format := by
      rcases hf with rfl | rfl | rfl <;> rfl
    have hsup : ¬ (format ≠ "sql" ∧ format ≠ "json" ∧ format ≠ "csv") := by
      rcases hf with rfl | rfl | rfl <;> decide
    have hl := hloop format
    cases hE : exportLoop (sampleEnv [] pageSize) format ⟨1, "Proj"⟩ 1 pageSize (fuel + 1)
        (initialState format) with
    | none =>
      rw [hE] at hl
      cases hl
    | some e =>
      rw [hE] at hl
      obtain ⟨ex, st⟩ := e
      simp only [Option.map_some', Option.some.injEq] at hl
      subst hl
      unfold ExportResult
      simp only [hlow, hsup, if_false]
      show (match exportLoop (sampleEnv [] pageSize) format ⟨1, "Proj"⟩ 1 pageSize (fuel + 1)
        (initialState format) with
        | none => none
        | some ⟨.failed err, _⟩ => _
        | some ⟨.panicked, _⟩ => _
        | some ⟨.done, st⟩ => _) = _
      rw [hE]
      rfl
  exact ⟨hrun "sql" (Or.inl rfl), hrun "json" (Or.inr (Or.inl rfl)),
    hrun "csv" (Or.inr (Or.inr rfl))⟩

/-- C4: the code on a task of three records with page size three, format
`json`. The loop fetches the full page, passes its three records to the
encoder, fetches once more, gets the empty page, and panics on
`trs[len(trs)-1]`: two queries, every record handed over, and the handler
serves no file. -/
theorem ExportResult_exact_multiple_panics (fuel : Nat) :
    (∃ st, exportLoop (sampleEnv sampleStore 3) "json" ⟨1, "Proj"⟩ 1 3 (fuel + 2)
          (initialState "json") = some ⟨.panicked, st⟩
        ∧ st.queries = [⟨1, 3, 1, 0⟩, ⟨2, 3, 1, 9⟩]
        ∧ st.handed = sortById sampleStore
        ∧ (firstAbove sampleStore 0 3).length = 3
        ∧ firstAbove sampleStore 9 3 = [])
    ∧ ExportResult (sampleEnv sampleStore 3) "json" 1 (fuel + 2)
      = some ⟨.panicked, [.create "/tmp/proj-1-1600000000.json",
          .remove "/tmp/proj-1-1600000000.json"]⟩ :=
  ⟨⟨_, rfl, rfl, rfl, rfl, rfl⟩, rfl⟩

/-! ## The CSV encoder -/

/-- C5: the code on three records of which the first has no field, format
`csv`. The flag `writeCol` is cleared after the first record although that
record wrote nothing, so no header row is ever written: the writer holds
the two data rows only, where the specification asks for the header `n`
before the first of them; the file served has no header either. -/
theorem csv_header_missing_after_empty_record :
    (∃ e, exportLoop (sampleEnv sampleStore 1000) "csv" ⟨1, "Proj"⟩ 1 1000 1
          (initialState "csv") = some e
        ∧ e.exit = .done
        ∧ e.st.handed.map (fun r => (fieldsOf (sampleEnv sampleStore 1000) r).entries)
            = [[], [("n", "1")], [("n", "2"), ("k", "v")]]
        ∧ e.st.csvWriter = [["1"], ["v", "2"]]
        ∧ specCsvRows (sampleEnv sampleStore 1000) e.st.handed = [["n"], ["1"], ["v", "2"]])
    ∧ ExportResult (sampleEnv sampleStore 1000) "csv" 1 1
      = some ⟨.attachment "attachment;filename=\"proj-1-1600000000.csv.tar.gz\""
          (BOM ++ "1\nv,2\n") 0,
        [.create "/tmp/proj-1-1600000000.csv",
         .archive "/tmp/proj-1-1600000000.csv" "proj-1-1600000000.csv.tar.gz" true,
         .remove "proj-1-1600000000.csv.tar.gz", .remove "/tmp/proj-1-1600000000.csv"]⟩ :=
  ⟨⟨_, rfl, rfl, rfl, rfl, rfl⟩, rfl⟩

/-- C6: in a CSV export whose records all decode and whose writer reports no
error, whatever pages the query returns, the rows written when the loop is
left are those the encoder writes when it is given all the records handed
over as a single page; they are the header rows, at most one, followed by
one data row for each record with a field, in record order, each holding the
values in the order of the sorted field names; and handing a page over in
two consecutive parts leaves the encoder in the same state as handing it
over whole. -/
theorem csv_rows_across_pages (env : Env) (project : Project) (taskId pageSize : Int)
    (fuel : Nat) (e : LoopEnd)
    (hdec : ∀ q trs, env.ExportResults q = .ok trs →
      ∀ r ∈ trs, ∃ m, env.Unmarshal r.Result = .ok m)
    (hw : ∀ w row, env.CsvWrite w row = none)
    (hrun : exportLoop env "csv" project taskId pageSize fuel (initialState "csv") = some e) :
    e.st.csvWriter
      = (encodeRecords env "csv" project e.st.handed (initialState "csv")).2.csvWriter
    ∧ e.st.csvWriter = headerRows env e.st.handed ++ dataRows env e.st.handed
    ∧ (headerRows env e.st.handed).length ≤ 1
    ∧ dataRows env e.st.handed
        = (e.st.handed.filter fun r => hasField env r).map (fun r =>
            (sortStrings (fieldsOf env r).keys).map fun k => (fieldsOf env r).get k)
    ∧ ∀ p1 p2 st, (encodeRecords env "csv" project p1 st).1 = none →
        encodeRecords env "csv" project (p1 ++ p2) st
          = encodeRecords env "csv" project p2 (encodeRecords env "csv" project p1 st).2 := by
  have h0 : csvInvariant env (initialState "csv") := by
    refine ⟨rfl, ?_, ?_⟩
    · exact ⟨fun _ => rfl, fun _ => rfl⟩
    · intro r hr
      cases hr
  obtain ⟨j1, _, j3⟩ := exportLoop_rule env "csv" project taskId pageSize (csvInvariant env)
    (fun e => csvInvariant env e.st) (csvInvariant_step env project taskId pageSize hdec hw)
    fuel (initialState "csv") e h0 hrun
  obtain ⟨_, _, i3, _⟩ := encodeRecords_csv env project hw e.st.handed j3 (initialState "csv")
  refine ⟨?_, j1, ?_, rfl, fun p1 p2 st h => encodeRecords_append env "csv" project p1 p2 st h⟩
  · rw [i3, j1]
    simp [initialState]
  · cases e.st.handed with
    | nil => simp [headerRows]
    | cons r rs =>
      show (if hasField env r = true then [headerRow env r] else []).length ≤ 1
      split <;> simp

/-- C6 at three records with fields, page size 2: two pages, one header row
at the top, three data rows. -/
theorem csv_rows_across_pages_witness :
    ∃ e, exportLoop (sampleEnv sampleRows 2) "csv" ⟨1, "Proj"⟩ 1 2 2 (initialState "csv") = some e
      ∧ e.st.queries.length = 2
      ∧ e.st.handed = sampleRows
      ∧ e.st.csvWriter = [["n"], ["1"], ["v", "2"], ["1"]]
      ∧ e.st.csvWriter = headerRows (sampleEnv sampleRows 2) e.st.handed
          ++ dataRows (sampleEnv sampleRows 2) e.st.handed :=
  ⟨_, rfl, rfl, rfl, rfl,
    (csv_rows_across_pages (sampleEnv sampleRows 2) ⟨1, "Proj"⟩ 1 2 2 _
      (fun q trs hq r hr => by
        have hq2 : firstAbove sampleRows q.LastResultId q.PageSize = trs :=
          Except.ok.inj hq
        have hmem : r ∈ sampleRows := firstAbove_subset _ _ _ r (hq2 ▸ hr)
        simp only [sampleRows, List.mem_cons, List.mem_singleton, List.not_mem_nil,
          or_false] at hmem
        rcases hmem with rfl | rfl | rfl
        · exact ⟨_, rfl⟩
        · exact ⟨_, rfl⟩
        · exact ⟨_, rfl⟩)
      (fun _ _ => rfl) rfl).2.1⟩

/-! ## Decode failures -/

/-- C7, the claim as stated fails for `json`: a payload the decoder rejects
is appended to the buffer by `buildResult` without error, and the export
serves a file holding it. -/
theorem json_passes_undecodable_payload :
    (sampleEnv [⟨1, "oops"⟩] 1000).Unmarshal "oops" = .error "invalid payload"
    ∧ buildResult (sampleEnv [⟨1, "oops"⟩] 1000) "json" "" [] true ⟨1, "Proj"⟩ ⟨1, "oops"⟩
      = .ok ("oops\n", [])
    ∧ ExportResult (sampleEnv [⟨1, "oops"⟩] 1000) "json" 1 1
      = some ⟨.attachment "attachment;filename=\"proj-1-1600000000.json.tar.gz\"" "oops\n" 0,
        [.create "/tmp/proj-1-1600000000.json",
         .archive "/tmp/proj-1-1600000000.json" "proj-1-1600000000.json.tar.gz" true,
         .remove "proj-1-1600000000.json.tar.gz", .remove "/tmp/proj-1-1600000000.json"]⟩ :=
  ⟨rfl, rfl, rfl⟩

/-- C7, amended: for the formats `sql` and `csv`, a payload the decoder
rejects makes `buildResult` return the decoder's error; a record with such a
payload, once handed to the encoder, makes the loop end with that error, and
`ExportResult` then answers with that error, having made no archive; a file
is served only when every record handed over decoded. For `json` the payload
is not decoded: `buildResult` appends it, with a newline, and returns no
error. -/
theorem decode_failure_aborts (env : Env) (format : String)
    (hf : format = "sql" ∨ format = "csv") :
    (∀ buf w wc project r err, env.Unmarshal r.Result = .error err →
      buildResult env format buf w wc project r = .error err)
    ∧ (∀ project taskId pageSize fuel e,
        exportLoop env format project taskId pageSize fuel (initialState format) = some e →
        ∀ r ∈ e.st.handed, ∀ err, env.Unmarshal r.Result = .error err →
          e.exit = .failed err)
    ∧ (∀ formatParam taskId fuel task project msg st,
        ToLower env formatParam = format →
        env.SelectTask taskId = .ok (some task) →
        env.SelectProjectById task.ProjectId = .ok (some project) →
        env.CreateFile (env.TempDir ++ "/" ++ tempFileName env format project taskId) = none →
        exportLoop env format project taskId (env.GetIntSetting project 1000) fuel
          (initialState format) = some ⟨.failed msg, st⟩ →
        ExportResult env formatParam taskId fuel
          = some ⟨.errorMsg msg,
              [.create (env.TempDir ++ "/" ++ tempFileName env format project taskId),
               .remove (env.TempDir ++ "/" ++ tempFileName env format project taskId)]⟩)
    ∧ (∀ formatParam taskId fuel d c s ops,
        ToLower env formatParam = format →
        ExportResult env formatParam taskId fuel = some ⟨.attachment d c s, ops⟩ →
        ∃ project st,
          exportLoop env format project taskId (env.GetIntSetting project 1000) fuel
            (initialState format) = some ⟨.done, st⟩
          ∧ c = fileContent env st
          ∧ ∀ r ∈ st.handed, ∃ m, env.Unmarshal r.Result = .ok m)
    ∧ (∀ buf w wc project r,
        buildResult env "json" buf w wc project r = .ok (buf ++ r.Result ++ "\n", w)) := by
  have hloop : ∀ project taskId pageSize fuel e,
      exportLoop env format project taskId pageSize fuel (initialState format) = some e →
      ∀ r ∈ e.st.handed, ∀ err, env.Unmarshal r.Result = .error err →
        e.exit = .failed err := by
    intro project taskId pageSize fuel e hrun
    refine exportLoop_rule env format project taskId pageSize
      (fun st => ∀ r ∈ st.handed, ∃ m, env.Unmarshal r.Result = .ok m)
      (fun e => ∀ r ∈ e.st.handed, ∀ err, env.Unmarshal r.Result = .error err →
        e.exit = .failed err)
      (decode_step env format hf project taskId pageSize) fuel (initialState format) e ?_ hrun
    intro r hr
    cases hr
  refine ⟨buildResult_decode_error env format hf, hloop, ?_, ?_, buildResult_json env⟩
  · intro formatParam taskId fuel task project msg st hfmt hT hP hC hL
    subst hfmt
    have hS : ¬ (ToLower env formatParam ≠ "sql" ∧ ToLower env formatParam ≠ "json"
        ∧ ToLower env formatParam ≠ "csv") := by
      rcases hf with h | h <;> simp [h]
    exact ExportResult_failed env formatParam taskId fuel task project msg st hT hP hS hC hL
  · intro formatParam taskId fuel d c s ops hfmt hrun
    subst hfmt
    obtain ⟨task, project, st, _, _, hL, hc⟩ :=
      ExportResult_attachment env formatParam taskId fuel d c s ops hrun
    refine ⟨project, st, hL, hc, ?_⟩
    intro r hr
    cases hu : env.Unmarshal r.Result with
    | ok m => exact ⟨m, rfl⟩
    | error err =>
      have := hloop project taskId _ fuel _ hL r hr err hu
      cases this

/-- C7 amended, at the format `sql` and the payload `oops`, which the sample
decoder rejects. -/
theorem decode_failure_aborts_witness :
    buildResult (sampleEnv [⟨1, "oops"⟩] 1000) "sql" "" [] true ⟨1, "Proj"⟩ ⟨1, "oops"⟩
      = .error "invalid payload"
    ∧ ExportResult (sampleEnv [⟨1, "oops"⟩] 1000) "SQL" 1 1
      = some ⟨.errorMsg "invalid payload",
          [.create "/tmp/t_proj-1-1600000000.sql", .remove "/tmp/t_proj-1-1600000000.sql"]⟩ :=
  ⟨(decode_failure_aborts (sampleEnv [⟨1, "oops"⟩] 1000) "sql" (Or.inl rfl)).1
      "" [] true ⟨1, "Proj"⟩ ⟨1, "oops"⟩ "invalid payload" rfl,
   rfl⟩

/-! ## The JSON encoder -/

/-- C8: `buildJSONItem` appends to the buffer the payload of the record,
unchanged, and one newline, and returns no error, whatever the buffer and the
record; over a page of records the statement `for _, r := range trs` so
appends, without error, the payload of each record followed by a newline, in
record order. -/
theorem buildJSONItem_spec (env : Env) (buff : String) (project : Project) (r : Result)
    (trs : List Result) (st : ExportState) :
    buildJSONItem buff project r = .ok (buff ++ r.Result ++ "\n")
    ∧ (encodeRecords env "json" project trs st).1 = none
    ∧ (encodeRecords env "json" project trs st).2.buf
        = st.buf ++ String.join (trs.map fun r => r.Result ++ "\n") :=
  ⟨rfl, (encodeRecords_json env project trs st).1, (encodeRecords_json env project trs st).2.1⟩

/-- C9, the claim as stated fails: the payload of the one record of the task
spans two lines, so the export has two lines for one record, and its first
line does not decode although the payload does. -/
theorem json_lines_counterexample :
    ∃ e, exportLoop (sampleEnv [⟨1, "\x7b\n\x7d"⟩] 1000) "json" ⟨1, "Proj"⟩ 1 1000 1
          (initialState "json") = some e
      ∧ e.exit = .done
      ∧ e.st.handed = [⟨1, "\x7b\n\x7d"⟩]
      ∧ fileContent (sampleEnv [⟨1, "\x7b\n\x7d"⟩] 1000) e.st = "\x7b\n\x7d\n"
      ∧ linesOf (fileContent (sampleEnv [⟨1, "\x7b\n\x7d"⟩] 1000) e.st) = ["\x7b", "\x7d"]
      ∧ (linesOf (fileContent (sampleEnv [⟨1, "\x7b\n\x7d"⟩] 1000) e.st)).length
          ≠ e.st.handed.length
      ∧ (sampleEnv [⟨1, "\x7b\n\x7d"⟩] 1000).Unmarshal "\x7b" = .error "invalid payload"
      ∧ (sampleEnv [⟨1, "\x7b\n\x7d"⟩] 1000).Unmarshal "\x7b\n\x7d" = .ok ⟨[], List.nodup_nil⟩ :=
  ⟨_, rfl, rfl, rfl, rfl, rfl, by decide, rfl, rfl⟩

/-- C9, amended: when the loop of a JSON export is left normally, the file
holds the payload of each record handed over followed by a newline, in
record order; if no payload contains a newline character, the lines of the
file are exactly these payloads, one line for each record, and the i-th line
decodes to what the payload of the i-th record decodes to. -/
theorem json_lines (env : Env) (project : Project) (taskId pageSize : Int) (fuel : Nat)
    (e : LoopEnd)
    (hrun : exportLoop env "json" project taskId pageSize fuel (initialState "json") = some e)
    (hdone : e.exit = .done) :
    fileContent env e.st = jsonText e.st.handed
    ∧ ((∀ r ∈ e.st.handed, Char.ofNat 10 ∉ r.Result.data) →
        linesOf (fileContent env e.st) = e.st.handed.map (fun r => r.Result)
        ∧ (linesOf (fileContent env e.st)).length = e.st.handed.length
        ∧ (linesOf (fileContent env e.st)).map env.Unmarshal
            = e.st.handed.map fun r => env.Unmarshal r.Result) := by
  have h0 : jsonInvariant (initialState "json") := ⟨rfl, rfl⟩
  obtain ⟨j1, j2⟩ := exportLoop_rule env "json" project taskId pageSize jsonInvariant
    (fun e => e.exit = .done → jsonInvariant e.st)
    (jsonInvariant_step env project taskId pageSize) fuel (initialState "json") e h0 hrun hdone
  have hc : fileContent env e.st = jsonText e.st.handed := by
    unfold fileContent
    rw [j1, j2]
    apply String.ext
    simp [String.data_join]
  refine ⟨hc, ?_⟩
  intro hnl
  have hl := linesOf_jsonText e.st.handed hnl
  rw [hc, hl]
  refine ⟨rfl, by simp, by simp⟩

/-- C9 amended, at the three sample records, page size 2, format `json`. -/
theorem json_lines_witness :
    ∃ e, exportLoop (sampleEnv sampleStore 2) "json" ⟨1, "Proj"⟩ 1 2 2 (initialState "json")
          = some e
      ∧ e.exit = .done
      ∧ e.st.handed.length = 3
      ∧ fileContent (sampleEnv sampleStore 2) e.st = jsonText e.st.handed
      ∧ linesOf (fileContent (sampleEnv sampleStore 2) e.st)
          = ["\x7b\x7d", "\x7b\"n\":\"1\"\x7d", "\x7b\"n\":\"2\",\"k\":\"v\"\x7d"] :=
  ⟨_, rfl, rfl, rfl,
    (json_lines (sampleEnv sampleStore 2) ⟨1, "Proj"⟩ 1 2 2 _ rfl rfl).1,
    ((json_lines (sampleEnv sampleStore 2) ⟨1, "Proj"⟩ 1 2 2 _ rfl rfl).2 (by decide)).1⟩

/-! ## Validation of the request -/

/-- C10, the claim as stated fails: the task check comes before the format
check, so the format `xml`, whose lowercase form is none of `sql`, `json`,
`csv`, requested for a task that does not exist is answered with
`task not exists`, not with `not supported format`; no file is created. -/
theorem ExportResult_missing_task :
    (sampleEnv [] 1000).SelectTask 2 = .ok none
    ∧ ToLower (sampleEnv [] 1000) "xml" = "xml"
    ∧ ExportResult (sampleEnv [] 1000) "xml" 2 1 = some ⟨.errorMsg "task not exists", []⟩
    ∧ ExportResult (sampleEnv [] 1000) "xml" 2 1
      ≠ some ⟨.errorMsg "not supported format", []⟩ :=
  ⟨rfl, rfl, rfl, by decide⟩

/-- C10, amended. The checks of `ExportResult` come in the order task,
project, format, and each one that fails answers with its own error and
touches no file: the error of the task lookup or `task not exists`, then the
error of the project lookup or `project not exists`, then, when the
lowercase form of the requested format is none of `sql`, `json`, `csv`,
`not supported format`; so an unsupported format is always answered with an
error and no file, the error being `not supported format` when the task and
the project have been found. The check is case-insensitive: when
`unicode.ToLower` lowers the ASCII letters as usual, a string that equals
`sql`, `json` or `csv` up to the case of its ASCII letters has that lowercase
form and `ExportResult` does for it what it does for the lowercase string.
A supported format passes the check: with the task and the project found,
`ExportResult` goes on to `file.CreateFile`, answers with its error and no
file when it fails, and otherwise every run that returns starts with the
creation of the temporary file, a run that does not return being a loop that
has not ended. And a temporary file is created only after the task and the
project have been found and the format check has passed. -/
theorem format_validation (env : Env) (formatParam : String) (taskId : Int) (fuel : Nat) :
    ((ToLower env formatParam ≠ "sql" ∧ ToLower env formatParam ≠ "json"
        ∧ ToLower env formatParam ≠ "csv") →
      (∃ msg, ExportResult env formatParam taskId fuel = some ⟨.errorMsg msg, []⟩)
      ∧ ∀ task project, env.SelectTask taskId = .ok (some task) →
          env.SelectProjectById task.ProjectId = .ok (some project) →
          ExportResult env formatParam taskId fuel
            = some ⟨.errorMsg "not supported format", []⟩)
    ∧ ((∀ err, env.SelectTask taskId = .error err →
          ExportResult env formatParam taskId fuel = some ⟨.errorMsg err, []⟩)
        ∧ (env.SelectTask taskId = .ok none →
          ExportResult env formatParam taskId fuel = some ⟨.errorMsg "task not exists", []⟩)
        ∧ ∀ task, env.SelectTask taskId = .ok (some task) →
            (∀ err, env.SelectProjectById task.ProjectId = .error err →
              ExportResult env formatParam taskId fuel = some ⟨.errorMsg err, []⟩)
            ∧ (env.SelectProjectById task.ProjectId = .ok none →
              ExportResult env formatParam taskId fuel
                = some ⟨.errorMsg "project not exists", []⟩))
    ∧ ((∀ c : Char, c.toNat < 128 → env.toLowerRune c = c.toLower) →
        ∀ target : String, target = "sql" ∨ target = "json" ∨ target = "csv" →
          formatParam.data.map Char.toLower = target.data →
          ToLower env formatParam = target
          ∧ ExportResult env formatParam taskId fuel = ExportResult env target taskId fuel)
    ∧ (∀ task project, env.SelectTask taskId = .ok (some task) →
        env.SelectProjectById task.ProjectId = .ok (some project) →
        (ToLower env formatParam = "sql" ∨ ToLower env formatParam = "json"
          ∨ ToLower env formatParam = "csv") →
        (∀ err, env.CreateFile (env.TempDir ++ "/"
              ++ tempFileName env (ToLower env formatParam) project taskId) = some err →
          ExportResult env formatParam taskId fuel = some ⟨.errorMsg err, []⟩)
        ∧ (env.CreateFile (env.TempDir ++ "/"
              ++ tempFileName env (ToLower env formatParam) project taskId) = none →
          (∀ run, ExportResult env formatParam taskId fuel = some run →
            ∃ rest, run.ops = .create (env.TempDir ++ "/"
              ++ tempFileName env (ToLower env formatParam) project taskId) :: rest)
          ∧ (ExportResult env formatParam taskId fuel = none ↔
              exportLoop env (ToLower env formatParam) project taskId
                (env.GetIntSetting project 1000) fuel (initialState (ToLower env formatParam))
                = none)))
    ∧ ∀ run path, ExportResult env formatParam taskId fuel = some run →
        FileOp.create path ∈ run.ops →
        ∃ task project, env.SelectTask taskId = .ok (some task)
          ∧ env.SelectProjectById task.ProjectId = .ok (some project)
          ∧ ¬ (ToLower env formatParam ≠ "sql" ∧ ToLower env formatParam ≠ "json"
              ∧ ToLower env formatParam ≠ "csv")
          ∧ path = env.TempDir ++ "/"
              ++ tempFileName env (ToLower env formatParam) project taskId
          ∧ env.CreateFile path = none := by
  refine ⟨ExportResult_unsupported env formatParam taskId fuel,
    ExportResult_lookups env formatParam taskId fuel, ?_,
    fun task project hT hP hS =>
      ExportResult_supported env formatParam taskId fuel task project hT hP hS,
    fun run path => ExportResult_create env formatParam taskId fuel run path⟩
  intro hlow target htarget hvar
  have key : ∀ (s t : String), (∀ d ∈ t.data, d.toNat < 128) →
      s.data.map Char.toLower = t.data → ToLower env s = t := by
    intro s t ht h
    unfold ToLower
    rw [map_toLowerRune env.toLowerRune hlow s.data t.data ht h]
  have hascii : ∀ d ∈ target.data, d.toNat < 128 := by
    rcases htarget with rfl | rfl | rfl <;> decide
  have hself : target.data.map Char.toLower = target.data := by
    rcases htarget with rfl | rfl | rfl <;> decide
  have h1 := key formatParam target hascii hvar
  have h2 := key target target hascii hself
  exact ⟨h1, ExportResult_lower env formatParam target taskId fuel (h1.trans h2.symm)⟩

/-- C10 amended, at the format `xml` and the existing task 1, and at the
variant `JSON`: the first is answered with `not supported format`, the
second has the lowercase form `json`, is exported as `json` is, and its run
starts with the creation of `/tmp/proj-1-1600000000.json`. -/
theorem format_validation_witness :
    ExportResult (sampleEnv [] 1000) "xml" 1 0 = some ⟨.errorMsg "not supported format", []⟩
    ∧ (ToLower (sampleEnv sampleStore 1000) "JSON" = "json"
      ∧ ExportResult (sampleEnv sampleStore 1000) "JSON" 1 1
        = ExportResult (sampleEnv sampleStore 1000) "json" 1 1)
    ∧ ∃ response rest, ExportResult (sampleEnv sampleStore 1000) "JSON" 1 1
        = some ⟨response, .create "/tmp/proj-1-1600000000.json" :: rest⟩ :=
  ⟨((format_validation (sampleEnv [] 1000) "xml" 1 0).1 (by decide)).2 ⟨1, 1⟩ ⟨1, "Proj"⟩ rfl rfl,
   (format_validation (sampleEnv sampleStore 1000) "JSON" 1 1).2.2.1 (fun _ _ => rfl) "json"
     (Or.inr (Or.inl rfl)) (by decide),
   match (((format_validation (sampleEnv sampleStore 1000) "JSON" 1 1).2.2.2.1 ⟨1, 1⟩
      ⟨1, "Proj"⟩ rfl rfl (Or.inr (Or.inl rfl))).2 rfl).1
      ⟨.attachment "attachment;filename=\"proj-1-1600000000.json.tar.gz\""
        "\x7b\x7d\n\x7b\"n\":\"1\"\x7d\n\x7b\"n\":\"2\",\"k\":\"v\"\x7d\n" 0,
       [.create "/tmp/proj-1-1600000000.json",
        .archive "/tmp/proj-1-1600000000.json" "proj-1-1600000000.json.tar.gz" true,
        .remove "proj-1-1600000000.json.tar.gz", .remove "/tmp/proj-1-1600000000.json"]⟩ rfl with
   | ⟨rest, h⟩ =>
     ⟨.attachment "attachment;filename=\"proj-1-1600000000.json.tar.gz\""
        "\x7b\x7d\n\x7b\"n\":\"1\"\x7d\n\x7b\"n\":\"2\",\"k\":\"v\"\x7d\n" 0, rest,
      congrArg (fun ops => some (Run.mk
        (.attachment "attachment;filename=\"proj-1-1600000000.json.tar.gz\""
          "\x7b\x7d\n\x7b\"n\":\"1\"\x7d\n\x7b\"n\":\"2\",\"k\":\"v\"\x7d\n" 0) ops)) h⟩⟩

/-! ## The escaping of SQL values -/

/-- C18: the escaping `buildSQLItem` applies to a value, every single quote
replaced by two and then every backslash by two, is the map that doubles each
single quote and each backslash character by character; it is injective; and
in its result every maximal run of single quotes has even length. -/
theorem sql_escape_lossless :
    (∀ v : String,
      ReplaceAll (ReplaceAll v "'" "''") "\\" "\\\\" = doubleQuotesAndBackslashes v)
    ∧ (∀ v1 v2 : String,
        ReplaceAll (ReplaceAll v1 "'" "''") "\\" "\\\\"
          = ReplaceAll (ReplaceAll v2 "'" "''") "\\" "\\\\" → v1 = v2)
    ∧ ∀ v : String, ∀ n ∈ quoteRuns (ReplaceAll (ReplaceAll v "'" "''") "\\" "\\\\"),
        n % 2 = 0 := by
  refine ⟨ReplaceAll_escape, ?_, ?_⟩
  · intro v1 v2 h
    rw [ReplaceAll_escape, ReplaceAll_escape] at h
    have hd := congrArg String.data h
    exact String.ext (doubling_injective v1.data v2.data hd)
  · intro v n hn
    rw [ReplaceAll_escape] at hn
    exact quoteRuns_doubling v.data 0 rfl n hn

/-- C18 at the value `it's`, a backslash, two single quotes. -/
theorem sql_escape_lossless_witness :
    ReplaceAll (ReplaceAll "it's\\''" "'" "''") "\\" "\\\\" = "it''s\\\\''''"
    ∧ quoteRuns (ReplaceAll (ReplaceAll "it's\\''" "'" "''") "\\" "\\\\") = [2, 4]
    ∧ "it's\\''" = "it's\\''" :=
  ⟨by decide, by decide,
   sql_escape_lossless.2.1 "it's\\''" "it's\\''" rfl⟩

/-! ## The enumeration order of the decoded map -/

/-- C13: when the payload of a record decodes to the same mapping enumerated
in two orders (the entries of one are a permutation of the entries of the
other), `buildSQLItem` returns the same buffer and `buildCSVItem` the same
rows, whatever the buffer, the project, the rows already written and the
header flag: the output depends on the contents of the mapping only. -/
theorem encoders_ignore_enumeration_order (env1 env2 : Env) (r : Result) (m1 m2 : StrMap)
    (h1 : env1.Unmarshal r.Result = .ok m1) (h2 : env2.Unmarshal r.Result = .ok m2)
    (hperm : m1.entries.Perm m2.entries)
    (hlow : env1.toLowerRune = env2.toLowerRune) (hcsv : env1.CsvWrite = env2.CsvWrite) :
    (∀ buff project, buildSQLItem env1 buff project r = buildSQLItem env2 buff project r)
    ∧ ∀ w wc, buildCSVItem env1 w wc r = buildCSVItem env2 w wc r := by
  have hs : sortStrings m1.keys = sortStrings m2.keys :=
    sortStrings_of_perm _ _ (hperm.map Prod.fst)
  have hg : ∀ k, m1.get k = m2.get k := StrMap.get_of_perm m1 m2 hperm
  constructor
  · intro buff project
    have hl : ToLower env1 project.Name = ToLower env2 project.Name := by
      unfold ToLower
      rw [hlow]
    unfold buildSQLItem
    rw [h1, h2]
    simp only [hs, hl, writeValues_congr m1 m2 hg]
  · intro w wc
    have hw : ∀ w row, csvWrite env1 w row = csvWrite env2 w row := by
      intro w row
      unfold csvWrite
      rw [hcsv]
    unfold buildCSVItem
    rw [h1, h2]
    simp only [hs, hg, hw]

/-- C13 at the record of the specification, decoded with `b` enumerated
first and with `a` enumerated first. -/
theorem encoders_ignore_enumeration_order_witness :
    sampleFields.entries.Perm sampleFieldsSorted.entries
    ∧ sampleFields.entries ≠ sampleFieldsSorted.entries
    ∧ buildSQLItem (sampleEnvDecoding sampleFields) "" ⟨1, "Proj"⟩ ⟨7, "r"⟩
      = buildSQLItem (sampleEnvDecoding sampleFieldsSorted) "" ⟨1, "Proj"⟩ ⟨7, "r"⟩
    ∧ buildCSVItem (sampleEnvDecoding sampleFields) [] true ⟨7, "r"⟩
      = .ok [["a", "b"], ["O'Brien", "x\\\\y"]] :=
  ⟨by decide, by decide,
   (encoders_ignore_enumeration_order (sampleEnvDecoding sampleFields)
      (sampleEnvDecoding sampleFieldsSorted) ⟨7, "r"⟩ sampleFields sampleFieldsSorted rfl rfl
      (by decide) rfl rfl).1 "" ⟨1, "Proj"⟩,
   rfl⟩

/-! ## Grouping of queue ids -/

/-- C19: when `SuccessQueueIds` and `SuccessQueueTaskIds` have the same
length, `groupByTaskId` returns a map, without panic, in which every task id
`t` is mapped to the queue ids at the positions `i` with
`SuccessQueueTaskIds[i] = t`, in their original order; the map has one entry
for each key, its keys are exactly the task ids that occur, and the lengths
of its groups sum to the number of queue ids. -/
theorem groupByTaskId_partitions {α : Type} (reqBody : QueueCallbackRequestVO α)
    (hlen : reqBody.SuccessQueueIds.length = reqBody.SuccessQueueTaskIds.length) :
    ∃ ret, groupByTaskId reqBody = some ret
      ∧ (∀ t, groupsGet ret t
          = ((reqBody.SuccessQueueIds.zip reqBody.SuccessQueueTaskIds).filter
              fun p => p.2 = t).map Prod.fst)
      ∧ (ret.map Prod.fst).Nodup
      ∧ (∀ t, t ∈ ret.map Prod.fst ↔ t ∈ reqBody.SuccessQueueTaskIds)
      ∧ (ret.map fun p => p.2.length).sum = reqBody.SuccessQueueIds.length := by
  obtain ⟨ret, hrun, hget, hnd, hkeys, hsum⟩ :=
    groupLoop_spec reqBody.SuccessQueueIds [] reqBody.SuccessQueueTaskIds [] (le_of_eq hlen)
      List.nodup_nil
  refine ⟨ret, hrun, ?_, hnd, ?_, ?_⟩
  · intro t
    rw [hget t]
    rfl
  · intro t
    rw [hkeys t, List.map_snd_zip reqBody.SuccessQueueIds reqBody.SuccessQueueTaskIds
      (le_of_eq hlen.symm)]
    simp
  · rw [hsum]
    simp

/-- C19 at the queue ids 10, 11, 12, 13 of the tasks 7, 8, 7, 7. -/
theorem groupByTaskId_partitions_witness :
    groupByTaskId (⟨[10, 11, 12, 13], [7, 8, 7, 7]⟩ : QueueCallbackRequestVO Nat)
      = some [(7, [10, 12, 13]), (8, [11])]
    ∧ ∃ ret, groupByTaskId (⟨[10, 11, 12, 13], [7, 8, 7, 7]⟩ : QueueCallbackRequestVO Nat)
        = some ret
      ∧ (∀ t, groupsGet ret t
          = ((([10, 11, 12, 13] : List Nat).zip ([7, 8, 7, 7] : List Int)).filter
              fun p => p.2 = t).map Prod.fst)
      ∧ (ret.map Prod.fst).Nodup
      ∧ (∀ t, t ∈ ret.map Prod.fst ↔ t ∈ ([7, 8, 7, 7] : List Int))
      ∧ (ret.map fun p => p.2.length).sum = 4 :=
  ⟨by decide,
   groupByTaskId_partitions (⟨[10, 11, 12, 13], [7, 8, 7, 7]⟩ : QueueCallbackRequestVO Nat) rfl⟩

/-! ## A page size that is not positive -/

/-- C17: when the export page size configured for the project of the task is
zero or negative, the test `len(trs) < exportPageSize` is false for every
page, and whatever the query and the other calls do, a run of `ExportResult`
that returns has made no call of the archiver and serves no file: it answers
with an error or it panics. -/
theorem nonpositive_page_size_never_serves (env : Env) (formatParam : String) (taskId : Int)
    (hsize : ∀ task project, env.SelectTask taskId = .ok (some task) →
      env.SelectProjectById task.ProjectId = .ok (some project) →
      env.GetIntSetting project 1000 ≤ 0) :
    (∀ task project (trs : List Result), env.SelectTask taskId = .ok (some task) →
      env.SelectProjectById task.ProjectId = .ok (some project) →
      ¬ ((trs.length : Int) < env.GetIntSetting project 1000))
    ∧ ∀ fuel run, ExportResult env formatParam taskId fuel = some run →
        (∀ src dst ok, FileOp.archive src dst ok ∉ run.ops)
        ∧ (∀ d c s, run.response ≠ .attachment d c s)
        ∧ ((∃ msg, run.response = .errorMsg msg) ∨ run.response = .panicked) := by
  constructor
  · intro task project trs hT hP
    have := hsize task project hT hP
    omega
  · intro fuel run hrun
    rcases ExportResult_cases env formatParam taskId fuel run hrun with
      ⟨hops, msg, hmsg⟩ | ⟨task, project, hT, hP, _, _, e, hL, hcase⟩
    · refine ⟨?_, ?_, Or.inl ⟨msg, hmsg⟩⟩
      · intro src dst ok hm
        rw [hops] at hm
        cases hm
      · intro d c s hr
        rw [hmsg] at hr
        cases hr
    · have hnd := exportLoop_never_done env _ project taskId _ (hsize task project hT hP)
        fuel _ e hL
      rcases hcase with ⟨msg, _, hr⟩ | ⟨_, hr⟩ | ⟨hd, _⟩
      · subst hr
        refine ⟨?_, ?_, Or.inl ⟨msg, rfl⟩⟩
        · intro src dst ok hm
          simp at hm
        · intro d c s hr
          cases hr
      · subst hr
        refine ⟨?_, ?_, Or.inr rfl⟩
        · intro src dst ok hm
          simp at hm
        · intro d c s hr
          cases hr
      · exact absurd hd hnd

/-- C17 at the sample task with the page sizes 0 and -5, format `json`. -/
theorem nonpositive_page_size_never_serves_witness :
    ExportResult (sampleEnv sampleStore 0) "json" 1 3
      = some ⟨.panicked, [.create "/tmp/proj-1-1600000000.json",
          .remove "/tmp/proj-1-1600000000.json"]⟩
    ∧ ∀ fuel run, ExportResult (sampleEnv sampleStore (-5)) "json" 1 fuel = some run →
        (∀ src dst ok, FileOp.archive src dst ok ∉ run.ops)
        ∧ (∀ d c s, run.response ≠ .attachment d c s)
        ∧ ((∃ msg, run.response = .errorMsg msg) ∨ run.response = .panicked) :=
  ⟨rfl,
   (nonpositive_page_size_never_serves (sampleEnv sampleStore (-5)) "json" 1
      (fun _ _ _ _ => show (-5 : Int) ≤ 0 by decide)).2⟩

/-! ## Termination of the export loop -/

/-- C16: for records with distinct Ids and a page size of at least one, when
the export query returns the first `pageSize` records above the cursor in
ascending order of Id, the loop of `ExportResult` is left, by `break`, by an
error or by a panic, after at most `n / pageSize + 1` queries, `n` being the
number of records, and a longer bound on the iterations gives the same end.
An iteration whose page is shorter than the page size leaves the loop, so
nothing is fetched after it; an iteration whose page is full goes on to the
next one unless an error ends the export. -/
theorem exportLoop_stops_within_bound (env : Env) (format : String) (project : Project)
    (taskId pageSize : Int) (recs : List Result) (hp : 1 ≤ pageSize)
    (hnd : (recs.map fun r => r.Id).Nodup)
    (hq : ∀ page last, env.ExportResults ⟨page, pageSize, taskId, last⟩
        = .ok (firstAbove recs last pageSize)) :
    (∃ fuel e, exportLoop env format project taskId pageSize fuel (initialState format) = some e
      ∧ e.st.queries.length ≤ recs.length / pageSize.toNat + 1
      ∧ ∀ fuel2 e2, exportLoop env format project taskId pageSize fuel2 (initialState format)
          = some e2 → e2 = e)
    ∧ ∀ st trs,
        env.ExportResults ⟨wrapInt64 (st.page + 1), pageSize, taskId, st.lastResultId⟩
          = .ok trs →
        ((trs.length : Int) < pageSize →
          ∃ e, loopBody env format project taskId pageSize st = .error e)
        ∧ (pageSize ≤ (trs.length : Int) →
          (∃ st2, loopBody env format project taskId pageSize st = .ok st2)
          ∨ ∃ msg st2, loopBody env format project taskId pageSize st
              = .error ⟨.failed msg, st2⟩) := by
  constructor
  · have hS := sortById_ascending recs hnd
    have hsplit := split_at_cursor (sortById recs) 0 hS
    obtain ⟨fuel, e, hrun, hb⟩ :=
      exportLoop_fetches env format project taskId pageSize (sortById recs) hp hS hq
        ((sortById recs).filter fun r => (0 : Int) < r.Id).length (initialState format)
        ((sortById recs).filter fun r => ¬ (0 : Int) < r.Id)
        ((sortById recs).filter fun r => (0 : Int) < r.Id) (le_refl _) hsplit rfl
    refine ⟨fuel, e, hrun, ?_, ?_⟩
    · have hle : ((sortById recs).filter fun r => (0 : Int) < r.Id).length ≤ recs.length := by
        rw [← (sortById_perm recs).length_eq]
        exact List.length_filter_le _ _
      have hd := Nat.div_le_div_right (c := pageSize.toNat) hle
      have hq0 : (initialState format).queries.length = 0 := rfl
      rw [hq0] at hb
      omega
    · intro fuel2 e2 h2
      exact exportLoop_unique env format project taskId pageSize fuel2 fuel _ e2 e h2 hrun
  · intro st trs hQ
    exact ⟨loopBody_short_page env format project taskId pageSize st trs hQ,
      loopBody_full_page env format project taskId pageSize hp st trs hQ⟩

/-- C16 at the three sample records, one of them with a negative Id added,
page size 2, format `json`: two queries, within the bound 4 / 2 + 1. -/
theorem exportLoop_stops_within_bound_witness :
    (∃ fuel e, exportLoop (sampleEnv (⟨-4, "x"⟩ :: sampleStore) 2) "json" ⟨1, "Proj"⟩ 1 2 fuel
          (initialState "json") = some e
      ∧ e.st.queries.length ≤ (⟨-4, "x"⟩ :: sampleStore).length / (2 : Int).toNat + 1
      ∧ ∀ fuel2 e2, exportLoop (sampleEnv (⟨-4, "x"⟩ :: sampleStore) 2) "json" ⟨1, "Proj"⟩ 1 2
          fuel2 (initialState "json") = some e2 → e2 = e)
    ∧ ∃ e, exportLoop (sampleEnv (⟨-4, "x"⟩ :: sampleStore) 2) "json" ⟨1, "Proj"⟩ 1 2 2
          (initialState "json") = some e
        ∧ e.exit = .done ∧ e.st.queries.length = 2 :=
  ⟨(exportLoop_stops_within_bound (sampleEnv (⟨-4, "x"⟩ :: sampleStore) 2) "json" ⟨1, "Proj"⟩
      1 2 (⟨-4, "x"⟩ :: sampleStore) (by decide) (by decide) (fun _ _ => rfl)).1,
   ⟨_, rfl, rfl, rfl⟩⟩

/-! ## The cursor -/

/-- C14: when every page the query returns is in strictly ascending order of
Id and holds only records with an Id above the cursor the query was given,
then the loop of `ExportResult` starts with the cursor 0, and at every point
of a run, each time an iteration starts and when the loop is left, the
cursors of the queries issued so far are strictly increasing from the first
cursor 0, the Ids of the records of all the pages fetched so far are strictly
increasing, and the records handed to the encoder are the first of them; an
iteration that goes on to the next one leaves the cursor strictly above
where it found it. -/
theorem cursor_strictly_increases (env : Env) (format : String) (project : Project)
    (taskId pageSize : Int)
    (hq : ∀ q trs, env.ExportResults q = .ok trs →
      (trs.Pairwise fun a b => a.Id < b.Id) ∧ ∀ r ∈ trs, q.LastResultId < r.Id) :
    (initialState format).lastResultId = 0
    ∧ (∀ st, Reached env format project taskId pageSize st →
        cursorTrace env st
        ∧ (∀ st2, loopBody env format project taskId pageSize st = .ok st2 →
            st.lastResultId < st2.lastResultId)
        ∧ ∀ e, loopBody env format project taskId pageSize st = .error e →
            cursorTrace env e.st)
    ∧ ∀ fuel e, exportLoop env format project taskId pageSize fuel (initialState format)
        = some e →
        (e.st.queries.map fun q => q.LastResultId).Pairwise (fun a b => a < b)
        ∧ (∀ q, e.st.queries.head? = some q → q.LastResultId = 0)
        ∧ (fetchedRecords env e.st.queries).Pairwise (fun a b => a.Id < b.Id)
        ∧ e.st.handed <+: fetchedRecords env e.st.queries := by
  refine ⟨rfl, ?_, ?_⟩
  · intro st hst
    have hI := cursorInvariant_reached env format project taskId pageSize hq st hst
    have hstep := cursorInvariant_step env format project taskId pageSize hq st hI
    refine ⟨hI.1, ?_, ?_⟩
    · intro st2 h2
      rw [h2] at hstep
      exact hstep.2
    · intro e h2
      rw [h2] at hstep
      exact hstep
  · intro fuel e hrun
    have h0 := cursorInvariant_reached env format project taskId pageSize hq _ Reached.start
    exact exportLoop_rule env format project taskId pageSize (cursorInvariant env)
      (fun e => cursorTrace env e.st)
      (fun st hI => by
        have hstep := cursorInvariant_step env format project taskId pageSize hq st hI
        cases hB : loopBody env format project taskId pageSize st with
        | error e2 =>
          rw [hB] at hstep
          exact hstep
        | ok st2 =>
          rw [hB] at hstep
          exact hstep.1)
      fuel (initialState format) e h0 hrun

/-- C14 at the three sample records, page size 2, format `json`: the cursors
are 0 and 5, the Ids fetched are 2, 5, 9. -/
theorem cursor_strictly_increases_witness :
    ∃ e, exportLoop (sampleEnv sampleStore 2) "json" ⟨1, "Proj"⟩ 1 2 2 (initialState "json")
          = some e
      ∧ e.st.queries.map (fun q => q.LastResultId) = [0, 5]
      ∧ (fetchedRecords (sampleEnv sampleStore 2) e.st.queries).map (fun r => r.Id) = [2, 5, 9]
      ∧ (e.st.queries.map fun q => q.LastResultId).Pairwise (fun a b => a < b)
      ∧ (∀ q, e.st.queries.head? = some q → q.LastResultId = 0)
      ∧ (fetchedRecords (sampleEnv sampleStore 2) e.st.queries).Pairwise
          (fun a b => a.Id < b.Id)
      ∧ e.st.handed <+: fetchedRecords (sampleEnv sampleStore 2) e.st.queries :=
  ⟨_, rfl, rfl, rfl,
    (cursor_strictly_increases (sampleEnv sampleStore 2) "json" ⟨1, "Proj"⟩ 1 2
      (fun q trs h => by
        have h2 : firstAbove sampleStore q.LastResultId q.PageSize = trs := Except.ok.inj h
        rw [← h2]
        exact firstAbove_ascending sampleStore _ _ (by decide))).2.2 2 _ rfl⟩

/-! ## The byte-order mark -/

/-- C15: the byte-order mark is the three bytes EF BB BF. In a CSV export,
whatever the pages and however the loop is left, what `WriteString` has
written to the file is the byte-order mark and nothing else, so the file
holds the mark once, at its start, before every row of the CSV writer. In an
export in the format `sql` or `json` the file starts empty and, when the loop
is left normally, holds exactly what the encoder writes for the records
handed over: no mark is written. -/
theorem bom_written_once (env : Env) (project : Project) (taskId pageSize : Int) (fuel : Nat) :
    BOM.toUTF8.data = #[0xEF, 0xBB, 0xBF]
    ∧ (initialState "csv").file = BOM
    ∧ (∀ e, exportLoop env "csv" project taskId pageSize fuel (initialState "csv") = some e →
        e.st.file = BOM
        ∧ fileContent env e.st = BOM ++ String.join (e.st.csvWriter.map env.CsvEncode))
    ∧ ∀ format, format = "sql" ∨ format = "json" →
        (initialState format).file = ""
        ∧ ∀ e, exportLoop env format project taskId pageSize fuel (initialState format)
            = some e → e.exit = .done →
            fileContent env e.st
              = (encodeRecords env format project e.st.handed (initialState format)).2.buf := by
  refine ⟨by decide, rfl, ?_, ?_⟩
  · intro e hrun
    have h := exportLoop_rule env "csv" project taskId pageSize (fun st => st.file = BOM)
      (fun e => e.st.file = BOM) (bomInvariant_step env project taskId pageSize) fuel
      (initialState "csv") e rfl hrun
    refine ⟨h, ?_⟩
    unfold fileContent
    rw [h]
  · intro format hf
    have hne : format ≠ "csv" := by
      rcases hf with rfl | rfl <;> decide
    have h0 : (initialState format).file = "" := by
      unfold initialState
      simp only [hne, if_false]
    refine ⟨h0, ?_⟩
    intro e hrun hdone
    have hinit : textInvariant env format project (initialState format) :=
      ⟨h0, rfl, rfl⟩
    obtain ⟨t1, _, t3⟩ := exportLoop_rule env format project taskId pageSize
      (textInvariant env format project)
      (fun e => e.exit = .done → textInvariant env format project e.st)
      (textInvariant_step env format hne project taskId pageSize) fuel (initialState format) e
      hinit hrun hdone
    unfold fileContent
    rw [t3, ← t1]
    apply String.ext
    simp [String.data_join]

/-- C15 at the three sample records with fields, page size 2: the CSV file is
the mark followed by the four rows, the JSON file of the same records starts
with the first payload. -/
theorem bom_written_once_witness :
    (∃ e, exportLoop (sampleEnv sampleRows 2) "csv" ⟨1, "Proj"⟩ 1 2 2 (initialState "csv") = some e
      ∧ e.st.file = BOM
      ∧ fileContent (sampleEnv sampleRows 2) e.st = BOM ++ "n\n1\nv,2\n1\n")
    ∧ ∃ e, exportLoop (sampleEnv sampleRows 2) "json" ⟨1, "Proj"⟩ 1 2 2 (initialState "json")
          = some e
        ∧ fileContent (sampleEnv sampleRows 2) e.st
          = (encodeRecords (sampleEnv sampleRows 2) "json" ⟨1, "Proj"⟩ e.st.handed
              (initialState "json")).2.buf :=
  ⟨⟨_, rfl, ((bom_written_once (sampleEnv sampleRows 2) ⟨1, "Proj"⟩ 1 2 2).2.2.1 _ rfl).1, rfl⟩,
   ⟨_, rfl, ((bom_written_once (sampleEnv sampleRows 2) ⟨1, "Proj"⟩ 1 2 2).2.2.2 "json"
      (Or.inr rfl)).2 _ rfl rfl⟩⟩

/-! ## The download name -/

/-- C12, the claim as stated fails: for the project `Proj`, the task 1, the
timestamp 1600000000 and the format `sql` the header set is
`attachment;filename="t_proj-1-1600000000.sql.tar.gz"`: no space after the
semicolon, the project name in lower case, and the prefix `t_`. -/
theorem content_disposition_counterexample :
    ExportResult (sampleEnv sampleStore 1000) "sql" 1 1
      = some ⟨.attachment "attachment;filename=\"t_proj-1-1600000000.sql.tar.gz\""
          "insert into t_proj(n) values ('1');\ninsert into t_proj(k,n) values ('v','2');\n" 0,
        [.create "/tmp/t_proj-1-1600000000.sql",
         .archive "/tmp/t_proj-1-1600000000.sql" "t_proj-1-1600000000.sql.tar.gz" true,
         .remove "t_proj-1-1600000000.sql.tar.gz", .remove "/tmp/t_proj-1-1600000000.sql"]⟩
    ∧ specDisposition "Proj" 1 1600000000 "sql"
      = "attachment; filename=\"Proj-1-1600000000.sql.tar.gz\""
    ∧ "attachment;filename=\"t_proj-1-1600000000.sql.tar.gz\""
      ≠ specDisposition "Proj" 1 1600000000 "sql" :=
  ⟨rfl, by decide, by decide⟩

/-- C12, amended: on a successful export the header `Content-Disposition`
that `ExportResult` sets is `attachment;filename="` + name + `"`, with no
space after the semicolon, where name is the last path element of prefix +
lowercased project name + `-` + task id + `-` + timestamp + `.` + lowercased
requested format + `.tar.gz`, the prefix being `t_` for the format `sql` and
empty otherwise, the two numbers in decimal; when the lowercased project
name holds no slash, name is that whole text. -/
theorem content_disposition (env : Env) (formatParam : String) (taskId : Int) (fuel : Nat)
    (d c : String) (s : Int) (ops : List FileOp)
    (h : ExportResult env formatParam taskId fuel = some ⟨.attachment d c s, ops⟩) :
    ∃ task project, env.SelectTask taskId = .ok (some task)
      ∧ env.SelectProjectById task.ProjectId = .ok (some project)
      ∧ (ToLower env formatParam = "sql" ∨ ToLower env formatParam = "json"
          ∨ ToLower env formatParam = "csv")
      ∧ d = "attachment;filename=\""
          ++ Base (tempFileName env (ToLower env formatParam) project taskId ++ ".tar.gz")
          ++ "\""
      ∧ (noSlash (ToLower env project.Name) →
          d = "attachment;filename=\""
            ++ ((if ToLower env formatParam = "sql" then "t_" else "")
                ++ ToLower env project.Name ++ "-" ++ toString taskId ++ "-"
                ++ toString env.Timestamp ++ "." ++ ToLower env formatParam ++ ".tar.gz")
            ++ "\"") := by
  rcases ExportResult_cases env formatParam taskId fuel _ h with
    ⟨_, msg, hmsg⟩ | ⟨task, project, hT, hP, hS, _, e, _, hcase⟩
  · cases hmsg
  · have hfmt : ToLower env formatParam = "sql" ∨ ToLower env formatParam = "json"
        ∨ ToLower env formatParam = "csv" := by
      by_cases h1 : ToLower env formatParam = "sql"
      · exact Or.inl h1
      · by_cases h2 : ToLower env formatParam = "json"
        · exact Or.inr (Or.inl h2)
        · by_cases h3 : ToLower env formatParam = "csv"
          · exact Or.inr (Or.inr h3)
          · exact absurd ⟨h1, h2, h3⟩ hS
    have hd : d = "attachment;filename=\""
        ++ Base (tempFileName env (ToLower env formatParam) project taskId ++ ".tar.gz")
        ++ "\"" := by
      rcases hcase with ⟨msg, _, hr⟩ | ⟨_, hr⟩ | ⟨_, hr⟩
      · cases hr
      · cases hr
      · rcases hr with ⟨err, _, hr⟩ | ⟨_, _, hr⟩
        · cases hr
        · rcases hr with hr | ⟨size, hr⟩
          · cases hr
          · exact (Response.attachment.inj hr).1
    refine ⟨task, project, hT, hP, hfmt, hd, ?_⟩
    intro hname
    have hns := tempFileName_no_slash env _ project taskId hfmt hname
    have hne : tempFileName env (ToLower env formatParam) project taskId ++ ".tar.gz" ≠ "" := by
      intro e2
      have := congrArg String.length e2
      simp only [String.length_append] at this
      have h7 : (".tar.gz" : String).length = 7 := by decide
      have h0 : ("" : String).length = 0 := by decide
      omega
    rw [hd, Base_of_no_slash _ hne hns]
    rfl

/-- C12 amended, at the sample task, format `JSON`. -/
theorem content_disposition_witness :
    ∃ task project, (sampleEnv sampleStore 1000).SelectTask 1 = .ok (some task)
      ∧ (sampleEnv sampleStore 1000).SelectProjectById task.ProjectId = .ok (some project)
      ∧ (ToLower (sampleEnv sampleStore 1000) "JSON" = "sql"
          ∨ ToLower (sampleEnv sampleStore 1000) "JSON" = "json"
          ∨ ToLower (sampleEnv sampleStore 1000) "JSON" = "csv")
      ∧ "attachment;filename=\"proj-1-1600000000.json.tar.gz\""
        = "attachment;filename=\""
          ++ Base (tempFileName (sampleEnv sampleStore 1000)
              (ToLower (sampleEnv sampleStore 1000) "JSON") project 1 ++ ".tar.gz")
          ++ "\"" :=
  have w := content_disposition (sampleEnv sampleStore 1000) "JSON" 1 1
    "attachment;filename=\"proj-1-1600000000.json.tar.gz\""
    "\x7b\x7d\n\x7b\"n\":\"1\"\x7d\n\x7b\"n\":\"2\",\"k\":\"v\"\x7d\n" 0
    [.create "/tmp/proj-1-1600000000.json",
     .archive "/tmp/proj-1-1600000000.json" "proj-1-1600000000.json.tar.gz" true,
     .remove "proj-1-1600000000.json.tar.gz", .remove "/tmp/proj-1-1600000000.json"] rfl
  match w with
  | ⟨task, project, hT, hP, hf, hd, _⟩ => ⟨task, project, hT, hP, hf, hd⟩

/-! ## Cleanup -/

/-- C11, the compression failure path: in the sample environment with an
`archiver.Archive` that fails, the csv export of task 1 creates the
temporary file, calls the archiver, answers with the archiver's error and
removes the temporary file only: `os.Remove` is never called on the archive
`proj-1-1600000000.csv.tar.gz`. When the failed archiver has left that file
behind, it is still there after the call, although no file existed before;
the same export with an archiver that succeeds removes both files. -/
theorem archive_failure_leaves_archive :
    ExportResult sampleEnvArchiveFails "csv" 1 1
      = some ⟨.errorMsg "disk full",
          [.create "/tmp/proj-1-1600000000.csv",
           .archive "/tmp/proj-1-1600000000.csv" "proj-1-1600000000.csv.tar.gz" false,
           .remove "/tmp/proj-1-1600000000.csv"]⟩
    ∧ filesAfter true []
        [.create "/tmp/proj-1-1600000000.csv",
         .archive "/tmp/proj-1-1600000000.csv" "proj-1-1600000000.csv.tar.gz" false,
         .remove "/tmp/proj-1-1600000000.csv"]
      = ["proj-1-1600000000.csv.tar.gz"]
    ∧ (∃ run, ExportResult (sampleEnv sampleStore 1000) "csv" 1 1 = some run
        ∧ FileOp.remove "proj-1-1600000000.csv.tar.gz" ∈ run.ops
        ∧ filesAfter true [] run.ops = []) :=
  ⟨rfl, by decide, _, rfl, by decide, by decide⟩

end Restapi
